import Mathlib

/-!
Verification of the yjs-proxy view layer.

This file gives a shallow embedding, in Lean, of the central algorithms of the
yjs-proxy repository (a transparent live-view layer over Yjs CRDT documents):

* the detached-view construction of `toYjsProxy` and the JSON read-back of
  `yjsWrapperToJson` (src toYjsProxy.ts / yjsWrapperToJson.ts);
* a document-state model of the attached machinery: node heap, identity cache
  (`dataToProxyCache`), alias groups (`sharedRefs.ts`), value conversion
  (`convertJsToYjsValue` in conversion.ts), the map/array proxy traps
  (`mapProxy.ts`, `arrayProxy.ts`), detachment (`detachProxyOfYjsValue.ts`),
  scope revocation (`withYjsProxy.ts`) and `markAsJs` / `deepFreeze`;
* the rollback manager (`rollback.ts` together with the scope runner of
  `withYjsProxy.ts`).

JavaScript object identity is modelled with explicit ids into heaps; machine
numbers that matter (array length assignment) are modelled as rationals plus
NaN/infinity markers; recursion over possibly-cyclic JS heaps uses explicit
fuel, with theorems establishing that enough fuel is always available on the
runs considered.
-/

namespace YjsProxy

/-- Primitive (non-object) JavaScript values as stored by the layer.
`undef` is the JavaScript `undefined` value. -/
inductive Prim where
  | undef : Prim
  | null : Prim
  | bool (b : Bool) : Prim
  | int (n : Int) : Prim
  | str (s : String) : Prim
deriving DecidableEq, Repr

/-! ### Association-list helpers

These model the key/value containers used throughout: `Y.Map` entries (where
`set` of an existing key keeps its position and a fresh key is appended, as
`Object.keys` enumeration order does) and the various WeakMap caches. -/

def alGet [DecidableEq κ] : List (κ × β) → κ → Option β
  | [], _ => none
  | (k, v) :: rest, key => if key = k then some v else alGet rest key

def alSet [DecidableEq κ] : List (κ × β) → κ → β → List (κ × β)
  | [], key, val => [(key, val)]
  | (k, v) :: rest, key, val =>
      if key = k then (key, val) :: rest else (k, v) :: alSet rest key val

def alDel [DecidableEq κ] : List (κ × β) → κ → List (κ × β)
  | [], _ => []
  | (k, v) :: rest, key => if key = k then alDel rest key else (k, v) :: alDel rest key

def alHas [DecidableEq κ] (l : List (κ × β)) (k : κ) : Bool :=
  (alGet l k).isSome

@[simp] theorem alGet_nil [DecidableEq κ] (k : κ) : alGet ([] : List (κ × β)) k = none := rfl

@[simp] theorem alGet_cons [DecidableEq κ] (k key : κ) (v : β) (rest : List (κ × β)) :
    alGet ((k, v) :: rest) key = if key = k then some v else alGet rest key := rfl

@[simp] theorem alSet_nil [DecidableEq κ] (key : κ) (val : β) :
    alSet ([] : List (κ × β)) key val = [(key, val)] := rfl

@[simp] theorem alSet_cons [DecidableEq κ] (k key : κ) (v val : β) (rest : List (κ × β)) :
    alSet ((k, v) :: rest) key val =
      if key = k then (key, val) :: rest else (k, v) :: alSet rest key val := rfl

theorem alGet_alSet_self [DecidableEq κ] (l : List (κ × β)) (k : κ) (v : β) :
    alGet (alSet l k v) k = some v := by
  induction l with
  | nil => simp
  | cons hd tl ih =>
      obtain ⟨k', v'⟩ := hd
      by_cases h : k = k' <;> simp [alSet, alGet, h, ih]

theorem alGet_alSet_ne [DecidableEq κ] (l : List (κ × β)) (k k' : κ) (v : β) (h : k' ≠ k) :
    alGet (alSet l k v) k' = alGet l k' := by
  induction l with
  | nil => simp [alGet, h]
  | cons hd tl ih =>
      obtain ⟨k₀, v₀⟩ := hd
      by_cases hk : k = k₀
      · subst hk; simp [alSet, alGet, h]
      · by_cases hk' : k' = k₀ <;> simp [alSet, alGet, hk, hk', ih]

theorem alHas_alSet_self [DecidableEq κ] (l : List (κ × β)) (k : κ) (v : β) :
    alHas (alSet l k v) k = true := by
  simp [alHas, alGet_alSet_self]

theorem alGet_alDel_self [DecidableEq κ] (l : List (κ × β)) (k : κ) :
    alGet (alDel l k) k = none := by
  induction l with
  | nil => rfl
  | cons hd tl ih =>
      obtain ⟨k', v'⟩ := hd
      by_cases h : k = k'
      · subst h; simp [alDel, ih]
      · simp [alDel, alGet, h, ih]

theorem alGet_alDel_ne [DecidableEq κ] (l : List (κ × β)) (k k' : κ) (h : k' ≠ k) :
    alGet (alDel l k) k' = alGet l k' := by
  induction l with
  | nil => rfl
  | cons hd tl ih =>
      obtain ⟨k₀, v₀⟩ := hd
      by_cases hk : k = k₀
      · subst hk; simp [alDel, alGet, h, ih]
      · by_cases hk' : k' = k₀ <;> simp [alDel, alGet, hk, hk', ih]

theorem alSet_of_alGet_eq [DecidableEq κ] (l : List (κ × β)) (k : κ) (v : β)
    (h : alGet l k = some v) : alSet l k v = l := by
  induction l with
  | nil => simp [alGet] at h
  | cons hd tl ih =>
      obtain ⟨k₀, v₀⟩ := hd
      by_cases hk : k = k₀
      · subst hk
        simp only [alGet, if_true, eq_self_iff_true] at h
        simp_all [alSet]
      · simp only [alGet, if_neg hk] at h
        simp [alSet, hk, ih h]

theorem alSet_alSet_restore [DecidableEq κ] (l : List (κ × β)) (k : κ) (v o : β)
    (h : alGet l k = some o) : alSet (alSet l k v) k o = l := by
  induction l with
  | nil => simp [alGet] at h
  | cons hd tl ih =>
      obtain ⟨k₀, v₀⟩ := hd
      by_cases hk : k = k₀
      · subst hk
        simp only [alGet, if_true, eq_self_iff_true] at h
        simp_all [alSet]
      · simp only [alGet, if_neg hk] at h
        simp [alSet, hk, ih h]

theorem alDel_alSet_of_none [DecidableEq κ] (l : List (κ × β)) (k : κ) (v : β)
    (h : alGet l k = none) : alDel (alSet l k v) k = l := by
  induction l with
  | nil => simp [alSet, alDel]
  | cons hd tl ih =>
      obtain ⟨k₀, v₀⟩ := hd
      by_cases hk : k = k₀
      · subst hk; simp [alGet] at h
      · simp only [alGet, if_neg hk] at h
        simp [alSet, alDel, hk, ih h, Ne.symm hk]

/-! ### Part 1: detached views — `toYjsProxy` and `yjsWrapperToJson`

`toYjsProxy` (src toYjsProxy.ts) deep-clones its input with rfdc (by default),
creates a detached proxy whose backing JSON is the clone, and then walks the
keys, replacing each object-like, not-marked-as-js child with a
child proxy created over that same subobject (with `clone: false`), assigning
it back through the parent proxy.  Assignment through a detached proxy stores
`tryUnwrapJson(childProxy)`, i.e. the child's backing JSON (mapProxy.ts
`setJsonMapValue`, arrayProxy.ts `setJsonArrayIndex`).
`yjsWrapperToJson` (src yjsWrapperToJson.ts) on a detached proxy returns an
rfdc clone of the backing JSON.

A `JsTree` is a cycle-free JavaScript value made only of supported parts.  The
`marked` flag on containers models membership in the `markedAsJsValues`
WeakSet; an rfdc clone is a fresh object, hence never a member. -/

inductive JsTree where
  | prim (p : Prim) : JsTree
  | obj (marked : Bool) (fields : List (String × JsTree)) : JsTree
  | arr (marked : Bool) (items : List JsTree) : JsTree

namespace JsTree

/-- Models `isObjectLike` from utils.ts: objects and arrays, not primitives. -/
def isObjectLike : JsTree → Bool
  | .prim _ => false
  | .obj _ _ => true
  | .arr _ _ => true

/-- Models `isMarkedAsJs` from markAsJs.ts: membership in the WeakSet. -/
def isMarkedAsJs : JsTree → Bool
  | .prim _ => false
  | .obj m _ => m
  | .arr m _ => m

end JsTree

mutual

/-- Models an rfdc deep clone: structurally equal data, but every container is
a fresh object, hence no clone is in the `markedAsJsValues` WeakSet. -/
def rfdcClone : JsTree → JsTree
  | .prim p => .prim p
  | .obj _ fields => .obj false (rfdcCloneFields fields)
  | .arr _ items => .arr false (rfdcCloneItems items)

/-- Clone of an object's field list. -/
def rfdcCloneFields : List (String × JsTree) → List (String × JsTree)
  | [] => []
  | (k, v) :: rest => (k, rfdcClone v) :: rfdcCloneFields rest

/-- Clone of an array's item list. -/
def rfdcCloneItems : List JsTree → List JsTree
  | [] => []
  | v :: rest => rfdcClone v :: rfdcCloneItems rest

end

mutual

/-- The backing JSON produced by `toYjsProxy(value, { clone: false })` — the
recursive walk of toYjsProxy.ts: each object-like, not marked-as-js child is
replaced by the child proxy's backing JSON (which is the recursively processed
same subobject), other children are left as they are. -/
def toYjsProxyGo : JsTree → JsTree
  | .prim p => .prim p
  | .obj m fields => .obj m (toYjsProxyGoFields fields)
  | .arr m items => .arr m (toYjsProxyGoItems items)

/-- Field walk of `toYjsProxyGo`. -/
def toYjsProxyGoFields : List (String × JsTree) → List (String × JsTree)
  | [] => []
  | (k, v) :: rest =>
      (k, if v.isObjectLike && !v.isMarkedAsJs then toYjsProxyGo v else v) ::
        toYjsProxyGoFields rest

/-- Item walk of `toYjsProxyGo`. -/
def toYjsProxyGoItems : List JsTree → List JsTree
  | [] => []
  | v :: rest =>
      (if v.isObjectLike && !v.isMarkedAsJs then toYjsProxyGo v else v) ::
        toYjsProxyGoItems rest

end

/-- The backing JSON of the detached proxy returned by `toYjsProxy(v)` with the
default options (`clone: true`): the input is rfdc-cloned first, then walked. -/
def toYjsProxyJson (v : JsTree) : JsTree :=
  toYjsProxyGo (rfdcClone v)

/-- Models `yjsWrapperToJson` (src yjsWrapperToJson.ts) on a detached proxy:
an rfdc clone of the backing JSON. -/
def yjsWrapperToJsonDetached (json : JsTree) : JsTree :=
  rfdcClone json

mutual

/-- Deep-equality of JavaScript values compares structure and data only; being
registered in the `markedAsJsValues` WeakSet is not part of the value.  Erasing
the marks gives the pure data. -/
def eraseMarks : JsTree → JsTree
  | .prim p => .prim p
  | .obj _ fields => .obj false (eraseMarksFields fields)
  | .arr _ items => .arr false (eraseMarksItems items)

/-- Mark erasure on field lists. -/
def eraseMarksFields : List (String × JsTree) → List (String × JsTree)
  | [] => []
  | (k, v) :: rest => (k, eraseMarks v) :: eraseMarksFields rest

/-- Mark erasure on item lists. -/
def eraseMarksItems : List JsTree → List JsTree
  | [] => []
  | v :: rest => eraseMarks v :: eraseMarksItems rest

end

/-- JavaScript deep equality of two values. -/
def deepEq (a b : JsTree) : Prop := eraseMarks a = eraseMarks b

theorem JsTree.sizeOf_snd_lt_of_mem_fields {kv : String × JsTree}
    {fields : List (String × JsTree)} (h : kv ∈ fields) :
    sizeOf kv.2 < sizeOf fields := by
  have h1 := List.sizeOf_lt_of_mem h
  obtain ⟨k, v⟩ := kv
  simp only [Prod.mk.sizeOf_spec] at h1
  simp only []
  omega

/-- Structural induction principle for `JsTree` usable with the nested field
and item lists. -/
theorem JsTree.myInduct (P : JsTree → Prop)
    (hp : ∀ p, P (.prim p))
    (hobj : ∀ m fields, (∀ kv ∈ fields, P kv.2) → P (.obj m fields))
    (harr : ∀ m items, (∀ v ∈ items, P v) → P (.arr m items)) :
    ∀ v, P v := by
  have H : ∀ n (v : JsTree), sizeOf v < n → P v := by
    intro n
    induction n with
    | zero => intro v hv; omega
    | succ n ih =>
        intro v hv
        match v with
        | .prim p => exact hp p
        | .obj m fields =>
            refine hobj m fields fun kv hkv => ih kv.2 ?_
            have h2 := JsTree.sizeOf_snd_lt_of_mem_fields hkv
            have h3 : sizeOf fields < sizeOf (JsTree.obj m fields) := by
              simp only [JsTree.obj.sizeOf_spec]; omega
            omega
        | .arr m items =>
            refine harr m items fun x hx => ih x ?_
            have h2 := List.sizeOf_lt_of_mem hx
            have h3 : sizeOf items < sizeOf (JsTree.arr m items) := by
              simp only [JsTree.arr.sizeOf_spec]; omega
            omega
  exact fun v => H (sizeOf v + 1) v (by omega)

theorem eraseMarks_rfdcClone (v : JsTree) : eraseMarks (rfdcClone v) = eraseMarks v := by
  induction v using JsTree.myInduct with
  | hp p => rfl
  | hobj m fields ih =>
      simp only [rfdcClone, eraseMarks]
      congr 1
      induction fields with
      | nil => rfl
      | cons hd tl ihtl =>
          obtain ⟨k, w⟩ := hd
          simp only [rfdcCloneFields, eraseMarksFields]
          refine congrArg₂ _ ?_ (ihtl fun kv hkv => ih kv (by simp [hkv]))
          exact congrArg _ (ih (k, w) (by simp))
  | harr m items ih =>
      simp only [rfdcClone, eraseMarks]
      congr 1
      induction items with
      | nil => rfl
      | cons hd tl ihtl =>
          simp only [rfdcCloneItems, eraseMarksItems]
          exact congrArg₂ _ (ih hd (by simp)) (ihtl fun x hx => ih x (by simp [hx]))

theorem eraseMarks_toYjsProxyGo (v : JsTree) : eraseMarks (toYjsProxyGo v) = eraseMarks v := by
  induction v using JsTree.myInduct with
  | hp p => rfl
  | hobj m fields ih =>
      simp only [toYjsProxyGo, eraseMarks]
      congr 1
      induction fields with
      | nil => rfl
      | cons hd tl ihtl =>
          obtain ⟨k, w⟩ := hd
          simp only [toYjsProxyGoFields, eraseMarksFields]
          have hw : eraseMarks (if w.isObjectLike && !w.isMarkedAsJs
              then toYjsProxyGo w else w) = eraseMarks w := by
            by_cases h : w.isObjectLike && !w.isMarkedAsJs
            · rw [if_pos h]; exact ih (k, w) (by simp)
            · rw [if_neg h]
          rw [hw, ihtl fun kv hkv => ih kv (by simp [hkv])]
  | harr m items ih =>
      simp only [toYjsProxyGo, eraseMarks]
      congr 1
      induction items with
      | nil => rfl
      | cons hd tl ihtl =>
          simp only [toYjsProxyGoItems, eraseMarksItems]
          have hw : eraseMarks (if hd.isObjectLike && !hd.isMarkedAsJs
              then toYjsProxyGo hd else hd) = eraseMarks hd := by
            by_cases h : hd.isObjectLike && !hd.isMarkedAsJs
            · rw [if_pos h]; exact ih hd (by simp)
            · rw [if_neg h]
          rw [hw, ihtl fun x hx => ih x (by simp [hx])]

/-- C1: for every plain JS value free of cycles and unsupported types (any
`JsTree` container), converting it to a detached view with `toYjsProxy` and
reading it back with `yjsWrapperToJson` yields a value deep-equal to the
original. -/
theorem yjsWrapperToJson_toYjsProxy_roundtrip (v : JsTree) (_h : v.isObjectLike = true) :
    deepEq (yjsWrapperToJsonDetached (toYjsProxyJson v)) v := by
  unfold deepEq yjsWrapperToJsonDetached toYjsProxyJson
  rw [eraseMarks_rfdcClone, eraseMarks_toYjsProxyGo, eraseMarks_rfdcClone]

/-- Witness for C1 at a concrete nested input. -/
theorem yjsWrapperToJson_toYjsProxy_roundtrip_witness :
    (JsTree.obj false [("a", .prim (.int 1)),
        ("b", .arr false [.prim (.str "x"), .obj true [("c", .prim .null)]])]).isObjectLike
        = true ∧
      deepEq (yjsWrapperToJsonDetached (toYjsProxyJson
        (JsTree.obj false [("a", .prim (.int 1)),
          ("b", .arr false [.prim (.str "x"), .obj true [("c", .prim .null)]])])))
        (JsTree.obj false [("a", .prim (.int 1)),
          ("b", .arr false [.prim (.str "x"), .obj true [("c", .prim .null)]])]) :=
  ⟨rfl, yjsWrapperToJson_toYjsProxy_roundtrip _ rfl⟩

/-! ### Part 2: the rollback manager — `rollback.ts` and the scope runner

This models a `withYjsProxy` scope with `rollbackOnError` over one document
holding a root map and a root sequence, with primitive slot values (so value
conversion is the identity and there are no aliases in play).  The inverse-op
log and its replay follow rollback.ts: `log` appends while `canRollback`,
`invalidate` clears the log and disables rollback, `executeRollback` first
disables further logging and then applies the logged inverses from the last to
the first.  Map set/delete log their inverses exactly as mapProxy.ts does
(restore the old value if the key was present, delete the key otherwise).

The inverse logging for sequence mutations is not present in the source tree
(mapProxy.ts is the only proxy file calling `getRollbackContext`), while the
repository's rollback tests exercise it, so it is modelled from the spec here.
-/

namespace RB

/-- The data of the document: the root sequence and the root map, with
primitive slot values. -/
structure RbDoc where
  arr : List Prim
  map : List (String × Prim)
deriving DecidableEq, Repr

/-- A logged inverse operation (an `InverseOp` closure in rollback.ts),
expressed in terms of the view API, as the manager logs them:

* `restoreKey k (some v)` — reassign the old value (mapProxy.ts set/delete
  logging when the key was present);
* `restoreKey k none` — delete the key (mapProxy.ts set logging when the key
  was absent);
* `truncate n` — Modelled from the spec: the source tree is missing the
  sequence-proxy rollback logging (only mapProxy.ts consults the rollback
  context), and the spec says the manager logs the exact inverse operation,
  e.g. "truncate back to prior length"; for an append the inverse truncates
  the sequence back to its prior length. -/
inductive InvOp where
  | restoreKey (k : String) (old : Option Prim) : InvOp
  | truncate (n : Nat) : InvOp
deriving DecidableEq, Repr

/-- The state of an open scope with a rollback context. -/
structure RbState where
  doc : RbDoc
  ops : List InvOp
  canRollback : Bool
  txCount : Nat
deriving DecidableEq, Repr

/-- Models `log` from rollback.ts: appended only while rollback is possible. -/
def rbLog (s : RbState) (op : InvOp) : RbState :=
  if s.canRollback then { s with ops := s.ops ++ [op] } else s

/-- Models `invalidate` from rollback.ts: rollback becomes impossible and the
log is cleared. -/
def rbInvalidate (s : RbState) : RbState :=
  { s with canRollback := false, ops := [] }

/-- Applies one logged inverse operation to the document (the replay runs with
`canRollback` already false, so it logs nothing). -/
def applyInv (d : RbDoc) : InvOp → RbDoc
  | .restoreKey k (some v) => { d with map := alSet d.map k v }
  | .restoreKey k none => { d with map := alDel d.map k }
  | .truncate n => { d with arr := d.arr.take n }

/-- Replays a list of inverse operations first-to-last. -/
def applyInvAll (ops : List InvOp) (d : RbDoc) : RbDoc :=
  ops.foldl applyInv d

/-- Models `executeRollback` from rollback.ts: does nothing unless rollback is
possible; otherwise disables further logging, applies the logged inverses in
reverse order, and clears the log. -/
def executeRollback (s : RbState) : RbState :=
  if !s.canRollback then s
  else
    { s with
      canRollback := false
      doc := applyInvAll s.ops.reverse s.doc
      ops := [] }

/-- A mutation performed by the scope body. -/
inductive BodyOp where
  | mapSet (k : String) (v : Prim) : BodyOp
  | mapDelete (k : String) : BodyOp
  | push (vs : List Prim) : BodyOp
deriving DecidableEq, Repr

/-- Models `isYMapSetNoOp` from mapProxy.ts for primitive values: the key is
present and holds the identical value. -/
def isYMapSetNoOp (map : List (String × Prim)) (k : String) (v : Prim) : Bool :=
  alGet map k == some v

/-- One body mutation through the views, with the rollback logging of
mapProxy.ts (and, for `push`, the sequence logging modelled from the spec). -/
def stepBody (s : RbState) : BodyOp → RbState
  | .mapSet k v =>
      if isYMapSetNoOp s.doc.map k v then s
      else
        let s1 := rbLog s (.restoreKey k (alGet s.doc.map k))
        { s1 with doc := { s1.doc with map := alSet s1.doc.map k v } }
  | .mapDelete k =>
      if !alHas s.doc.map k then s
      else
        let s1 := rbLog s (.restoreKey k (alGet s.doc.map k))
        { s1 with doc := { s1.doc with map := alDel s1.doc.map k } }
  | .push vs =>
      let s1 := rbLog s (.truncate s.doc.arr.length)
      { s1 with doc := { s1.doc with arr := s1.doc.arr ++ vs } }

/-- Runs the body mutations in order. -/
def runBody (s : RbState) (body : List BodyOp) : RbState :=
  body.foldl stepBody s

/-- The outcome of a scope run. -/
structure RunResult where
  result : Except String Unit
  doc : RbDoc
  txCount : Nat
deriving Repr

/-- Models the auto-mode path of `withYjsProxy` (withYjsProxy.ts): the body
runs inside one transaction per involved document (here: one); if it throws,
`doRollback` replays the logged inverses inside one more transaction — but
only when a rollback context exists and the scope was not invalidated — and
the error then propagates.  `externalInvalidation` models the manual-mode
observer invalidating the rollback context before the error is handled. -/
def withYjsProxyRun (doc : RbDoc) (body : List BodyOp) (throwing : Bool)
    (rollbackOnError : Bool) (externalInvalidation : Bool) : RunResult :=
  let s0 : RbState := { doc := doc, ops := [], canRollback := rollbackOnError, txCount := 1 }
  let s1 := runBody s0 body
  let s2 := if externalInvalidation then rbInvalidate s1 else s1
  if throwing then
    let s3 :=
      if rollbackOnError && s2.canRollback then
        executeRollback { s2 with txCount := s2.txCount + 1 }
      else s2
    { result := .error "body error", doc := s3.doc, txCount := s3.txCount }
  else
    { result := .ok (), doc := s2.doc, txCount := s2.txCount }

/-- Documents are equivalent when the sequence is identical and the map holds
the same value at every key (the layer restores map state by re-setting or
deleting keys, which does not preserve enumeration order of keys). -/
def docEquiv (d d' : RbDoc) : Prop :=
  d.arr = d'.arr ∧ ∀ k, alGet d.map k = alGet d'.map k

theorem docEquiv_refl (d : RbDoc) : docEquiv d d := ⟨rfl, fun _ => rfl⟩

theorem docEquiv_trans {a b c : RbDoc} (h₁ : docEquiv a b) (h₂ : docEquiv b c) :
    docEquiv a c :=
  ⟨h₁.1.trans h₂.1, fun k => (h₁.2 k).trans (h₂.2 k)⟩

theorem applyInv_congr {d d' : RbDoc} (op : InvOp) (h : docEquiv d d') :
    docEquiv (applyInv d op) (applyInv d' op) := by
  obtain ⟨harr, hmap⟩ := h
  cases op with
  | restoreKey k old =>
      cases old with
      | some v =>
          refine ⟨harr, fun k' => ?_⟩
          by_cases hk : k' = k
          · subst hk; simp [applyInv, alGet_alSet_self]
          · simp [applyInv, alGet_alSet_ne _ _ _ _ hk, hmap k']
      | none =>
          refine ⟨harr, fun k' => ?_⟩
          by_cases hk : k' = k
          · subst hk; simp [applyInv, alGet_alDel_self]
          · simp [applyInv, alGet_alDel_ne _ _ _ hk, hmap k']
  | truncate n => exact ⟨by simp [applyInv, harr], fun k' => hmap k'⟩

theorem applyInvAll_congr {d d' : RbDoc} (ops : List InvOp) (h : docEquiv d d') :
    docEquiv (applyInvAll ops d) (applyInvAll ops d') := by
  induction ops generalizing d d' with
  | nil => exact h
  | cons op rest ih => exact ih (applyInv_congr op h)

theorem applyInvAll_append (a b : List InvOp) (d : RbDoc) :
    applyInvAll (a ++ b) d = applyInvAll b (applyInvAll a d) := by
  simp [applyInvAll, List.foldl_append]

theorem stepBody_txCount (s : RbState) (op : BodyOp) :
    (stepBody s op).txCount = s.txCount := by
  cases op with
  | mapSet k v =>
      by_cases h : isYMapSetNoOp s.doc.map k v <;> simp [stepBody, h, rbLog] <;> split <;> rfl
  | mapDelete k =>
      by_cases h : alHas s.doc.map k <;> simp [stepBody, h, rbLog] <;> split <;> rfl
  | push vs => simp [stepBody, rbLog]; split <;> rfl

theorem runBody_txCount (s : RbState) (body : List BodyOp) :
    (runBody s body).txCount = s.txCount := by
  induction body generalizing s with
  | nil => rfl
  | cons op rest ih =>
      show (runBody (stepBody s op) rest).txCount = s.txCount
      rw [ih, stepBody_txCount]

theorem stepBody_restore (s : RbState) (op : BodyOp) (h : s.canRollback = true) :
    ∃ δ, (stepBody s op).ops = s.ops ++ δ ∧
      (stepBody s op).canRollback = true ∧
      docEquiv (applyInvAll δ.reverse (stepBody s op).doc) s.doc := by
  cases op with
  | mapSet k v =>
      by_cases hno : isYMapSetNoOp s.doc.map k v
      · exact ⟨[], by simp [stepBody, hno], by simp [stepBody, hno, h], by
          simpa [stepBody, hno] using docEquiv_refl s.doc⟩
      · refine ⟨[.restoreKey k (alGet s.doc.map k)], ?_, ?_, ?_⟩
        · simp [stepBody, hno, rbLog, h]
        · simp [stepBody, hno, rbLog, h]
        · cases hold : alGet s.doc.map k with
          | some o =>
              simp only [stepBody, if_neg hno, rbLog, h, if_pos rfl, hold, List.reverse_cons,
                List.reverse_nil, List.nil_append, applyInvAll, List.foldl_cons,
                List.foldl_nil, applyInv]
              exact ⟨rfl, by simp [alSet_alSet_restore _ _ _ _ hold]⟩
          | none =>
              simp only [stepBody, if_neg hno, rbLog, h, if_pos rfl, hold, List.reverse_cons,
                List.reverse_nil, List.nil_append, applyInvAll, List.foldl_cons,
                List.foldl_nil, applyInv]
              exact ⟨rfl, by simp [alDel_alSet_of_none _ _ _ hold]⟩
  | mapDelete k =>
      by_cases hhas : alHas s.doc.map k
      · obtain ⟨o, hold⟩ : ∃ o, alGet s.doc.map k = some o := by
          cases hg : alGet s.doc.map k with
          | some o => exact ⟨o, rfl⟩
          | none => simp [alHas, hg] at hhas
        refine ⟨[.restoreKey k (alGet s.doc.map k)], ?_, ?_, ?_⟩
        · simp [stepBody, hhas, rbLog, h]
        · simp [stepBody, hhas, rbLog, h]
        · simp only [stepBody, hhas, Bool.not_true, Bool.false_eq_true, if_false, rbLog, h,
            if_pos rfl, hold, List.reverse_cons, List.reverse_nil, List.nil_append,
            applyInvAll, List.foldl_cons, List.foldl_nil, applyInv]
          refine ⟨rfl, fun k' => ?_⟩
          by_cases hk : k' = k
          · subst hk; simp [alGet_alSet_self, hold]
          · simp [alGet_alSet_ne _ _ _ _ hk, alGet_alDel_ne _ _ _ hk]
      · exact ⟨[], by simp [stepBody, hhas], by simp [stepBody, hhas, h], by
          simpa [stepBody, hhas] using docEquiv_refl s.doc⟩
  | push vs =>
      refine ⟨[.truncate s.doc.arr.length], ?_, ?_, ?_⟩
      · simp [stepBody, rbLog, h]
      · simp [stepBody, rbLog, h]
      · simp only [stepBody, rbLog, h, if_pos rfl, List.reverse_cons, List.reverse_nil,
          List.nil_append, applyInvAll, List.foldl_cons, List.foldl_nil, applyInv]
      -- truncating the appended sequence back to the prior length restores it
        exact ⟨by simp, fun k' => rfl⟩

theorem runBody_restore (body : List BodyOp) (s : RbState) (h : s.canRollback = true) :
    ∃ Δ, (runBody s body).ops = s.ops ++ Δ ∧
      (runBody s body).canRollback = true ∧
      docEquiv (applyInvAll Δ.reverse (runBody s body).doc) s.doc := by
  induction body generalizing s with
  | nil => exact ⟨[], by simp [runBody], h, docEquiv_refl _⟩
  | cons op rest ih =>
      obtain ⟨δ, hops, hcan, hrest⟩ := stepBody_restore s op h
      obtain ⟨Δ, hops', hcan', hrest'⟩ := ih (stepBody s op) hcan
      refine ⟨δ ++ Δ, ?_, ?_, ?_⟩
      · show (runBody (stepBody s op) rest).ops = s.ops ++ (δ ++ Δ)
        rw [hops', hops, List.append_assoc]
      · exact hcan'
      · show docEquiv (applyInvAll (δ ++ Δ).reverse (runBody (stepBody s op) rest).doc) s.doc
        rw [List.reverse_append, applyInvAll_append]
        exact docEquiv_trans (applyInvAll_congr δ.reverse hrest') hrest

/-- C3: in a scope with `rollbackOnError: true` whose body throws and that was
not invalidated, the logged inverses are replayed (in reverse order, by
`executeRollback`) inside one more transaction, the error propagates, and the
document state is restored. -/
theorem withYjsProxy_rollback_on_error (doc : RbDoc) (body : List BodyOp)
    (inval : Bool) (hinv : inval = false) :
    (withYjsProxyRun doc body true true inval).result = .error "body error" ∧
      docEquiv (withYjsProxyRun doc body true true inval).doc doc ∧
      (withYjsProxyRun doc body true true inval).txCount = 2 := by
  subst hinv
  obtain ⟨Δ, hops, hcan, hrest⟩ :=
    runBody_restore body { doc := doc, ops := [], canRollback := true, txCount := 1 } rfl
  simp only [List.nil_append] at hops
  have htx := runBody_txCount { doc := doc, ops := [], canRollback := true, txCount := 1 } body
  refine ⟨?_, ?_, ?_⟩
  · simp [withYjsProxyRun]
  · have hdoc : (withYjsProxyRun doc body true true false).doc
        = applyInvAll
            (runBody { doc := doc, ops := [], canRollback := true, txCount := 1 } body).ops.reverse
            (runBody { doc := doc, ops := [], canRollback := true, txCount := 1 } body).doc := by
      simp [withYjsProxyRun, hcan, executeRollback]
    rw [hdoc, hops]
    exact hrest
  · simp [withYjsProxyRun, hcan, executeRollback, htx]

/-- Witness for C3: the claimed scenario — sequence `[1,2,3]`, the body pushes
4 then 5 and throws — ends with the sequence equal to `[1,2,3]` again. -/
theorem withYjsProxy_rollback_on_error_witness :
    (false = false ∧
        (withYjsProxyRun ⟨[.int 1, .int 2, .int 3], []⟩
            [.push [.int 4], .push [.int 5]] true true false).result
            = .error "body error" ∧
        docEquiv (withYjsProxyRun ⟨[.int 1, .int 2, .int 3], []⟩
            [.push [.int 4], .push [.int 5]] true true false).doc
          ⟨[.int 1, .int 2, .int 3], []⟩ ∧
        (withYjsProxyRun ⟨[.int 1, .int 2, .int 3], []⟩
            [.push [.int 4], .push [.int 5]] true true false).txCount = 2) ∧
      (withYjsProxyRun ⟨[.int 1, .int 2, .int 3], []⟩
          [.push [.int 4], .push [.int 5]] true true false).doc.arr
        = [.int 1, .int 2, .int 3] :=
  ⟨⟨rfl, withYjsProxy_rollback_on_error ⟨[.int 1, .int 2, .int 3], []⟩
      [.push [.int 4], .push [.int 5]] false rfl⟩, by decide⟩

end RB

/-! ### Part 3: the attached machinery — document-state model

This models the live part of the layer: a heap of Y.js container nodes inside
documents, the JS-object heap, the identity cache `dataToProxyCache` and the
proxy-state cache (cache.ts), the two alias layers (sharedRefs.ts), value
conversion (conversion.ts `convertJsToYjsValue` / `convertYjsToJsValue`),
detachment (detachProxyOfYjsValue.ts), the map- and array-proxy traps
(mapProxy.ts, arrayProxy.ts), scope revocation (withYjsProxy.ts cleanup) and
`markAsJs` with `deepFreeze` (markAsJs.ts, utils.ts).

Object identity is explicit: `ObjId` indexes the JS heap, `NodeId` the Y node
heap, `ProxyId` the proxies.  Errors thrown by the source are `Except.error`;
`outOfFuel` and `missingRef` are artifacts of the embedding (unbounded
recursion and dangling ids cannot occur in the JS runtime) and theorems prove
they do not arise on the runs considered. -/

namespace Doc

abbrev NodeId := Nat
abbrev ProxyId := Nat
abbrev ObjId := Nat
abbrev DocId := Nat

/-- A value stored in a `Y.Map` slot or `Y.Array` position: a primitive, a
child container node, or a plain JS object stored as-is (raw / binary). -/
inductive YVal where
  | prim (p : Prim) : YVal
  | node (n : NodeId) : YVal
  | rawJs (o : ObjId) : YVal
deriving DecidableEq, Repr

/-- The contents of a Y container node. -/
inductive YNode where
  | ymap (entries : List (String × YVal)) : YNode
  | yarr (items : List YVal) : YNode
deriving DecidableEq, Repr

/-- A JavaScript value as seen by the proxy traps and the converter: a
primitive, a reference to a plain JS object on the JS heap, a live view
(proxy), or a raw `Y.Map`/`Y.Array` passed directly. -/
inductive JsVal where
  | prim (p : Prim) : JsVal
  | jsObj (o : ObjId) : JsVal
  | proxyRef (p : ProxyId) : JsVal
  | rawY (n : NodeId) : JsVal
deriving DecidableEq, Repr

/-- A JS heap object: a plain object, a plain array, a `Uint8Array`, or an
exotic (class instance, unsupported) object. -/
inductive JsObj where
  | plainObj (fields : List (String × JsVal)) : JsObj
  | plainArr (items : List JsVal) : JsObj
  | binaryObj : JsObj
  | exoticObj : JsObj
deriving DecidableEq, Repr

/-- The state of a proxy (cache.ts `ProxyState`): attached to a Y node, or
detached with a backing JSON object on the JS heap. -/
inductive PState where
  | attached (n : NodeId) : PState
  | detached (j : ObjId) : PState
deriving DecidableEq, Repr

/-- A key of `dataToProxyCache`: a Y node or a backing JSON object. -/
inductive CacheKey where
  | nodeKey (n : NodeId) : CacheKey
  | jsonKey (o : ObjId) : CacheKey
deriving DecidableEq, Repr

/-- Errors.  The first group models the `failure(...)` throws of the source
(YjsProxyError); `rangeError` models the native RangeError of
`setYArrayLength`; `revokedProxy` models the native TypeError thrown by a
revoked JS Proxy; `missingDoc` models the plain Error of
detachProxyOfYjsValue.ts; `missingRef` and `outOfFuel` are artifacts of the
embedding. -/
inductive Err where
  | cyclic : Err
  | unsupportedType : Err
  | deletedValue : Err
  | cannotCloneUnparented : Err
  | notAProxy : Err
  | customProperty : Err
  | rangeError : Err
  | revokedProxy : Err
  | nestedScope : Err
  | missingDoc : Err
  | missingRef : Err
  | outOfFuel : Err
deriving DecidableEq, Repr

/-- The whole process state of the layer plus the store. -/
structure St where
  /-- The JS object heap. -/
  jsHeap : List (ObjId × JsObj)
  /-- `markedAsJsValues` (cache.ts). -/
  marked : List ObjId
  /-- The set of frozen JS objects (`Object.isFrozen`). -/
  frozen : List ObjId
  /-- Contents of every live Y container node. -/
  nodes : List (NodeId × YNode)
  /-- Document membership of integrated nodes (`yjsValue.doc`). -/
  nodeDoc : List (NodeId × DocId)
  /-- Parent links of nodes stored inside another container (`yjsValue.parent`). -/
  nodeParent : List (NodeId × NodeId)
  /-- Nodes whose underlying item was deleted (`isYjsValueDeleted`). -/
  deletedNodes : List NodeId
  /-- Node-level alias groups (sharedRefs.ts `aliasGroups`), as a partition. -/
  aliasGroups : List (List NodeId)
  /-- Proxy-level alias groups (sharedRefs.ts `proxyAliasGroups`). -/
  proxyAlias : List (List ProxyId)
  /-- `proxyToStateCache` (cache.ts). -/
  proxies : List (ProxyId × PState)
  /-- `dataToProxyCache` (cache.ts). -/
  cache : List (CacheKey × ProxyId)
  /-- `jsObjectToFirstYjsValue` (sharedRefs.ts). -/
  jsFirst : List (ObjId × NodeId)
  /-- The open scope's revoker map, if a scope is open (withYjsProxy.ts). -/
  scopeRevokers : Option (List ProxyId)
  /-- Proxies whose revoke function has been called. -/
  revoked : List ProxyId
  /-- Number of store transactions started so far. -/
  txCount : Nat
  nextNode : NodeId
  nextProxy : ProxyId
  nextObj : ObjId
deriving DecidableEq, Repr

@[simp] theorem exceptBind_ok {ε α β : Type} (a : α) (f : α → Except ε β) :
    (Except.ok a : Except ε α) >>= f = f a := rfl

@[simp] theorem exceptBind_error {ε α β : Type} (e : ε) (f : α → Except ε β) :
    (Except.error e : Except ε α) >>= f = Except.error e := rfl

@[simp] theorem exceptPure_eq_ok {ε α : Type} (a : α) :
    (pure a : Except ε α) = Except.ok a := rfl

/-- Looks up a node's contents. -/
def getNode (s : St) (n : NodeId) : Option YNode := alGet s.nodes n

/-- Models `isYjsValueDeleted` (utils.ts). -/
def isDeleted (s : St) (n : NodeId) : Bool := n ∈ s.deletedNodes

/-- The document a node belongs to, if integrated (`yjsValue.doc`). -/
def docOf (s : St) (n : NodeId) : Option DocId := alGet s.nodeDoc n

/-- The parent container of a node, if any (`yjsValue.parent`). -/
def parentOf (s : St) (n : NodeId) : Option NodeId := alGet s.nodeParent n

/-- The alias group containing a node, if any (sharedRefs.ts `aliasGroups`). -/
def aliasGroupOf (s : St) (n : NodeId) : Option (List NodeId) :=
  s.aliasGroups.find? (fun g => n ∈ g)

/-- Models `linkAliases` (sharedRefs.ts): groups merge, or a member is added,
or a fresh two-member group is created. -/
def linkAliases (s : St) (a b : NodeId) : St :=
  if a = b then s
  else
    match aliasGroupOf s a, aliasGroupOf s b with
    | some ga, some gb =>
        if b ∈ ga then s
        else
          { s with aliasGroups :=
              (ga ++ gb) :: (s.aliasGroups.filter (fun g => ¬(a ∈ g) ∧ ¬(b ∈ g))) }
    | some ga, none =>
        { s with aliasGroups := (ga ++ [b]) :: s.aliasGroups.filter (fun g => ¬(a ∈ g)) }
    | none, some gb =>
        { s with aliasGroups := (gb ++ [a]) :: s.aliasGroups.filter (fun g => ¬(b ∈ g)) }
    | none, none => { s with aliasGroups := [a, b] :: s.aliasGroups }

/-- Models `getAliasSiblings` (sharedRefs.ts): the other members of the node's
alias group, restricted to those in the same document. -/
def getAliasSiblings (s : St) (n : NodeId) : List NodeId :=
  match aliasGroupOf s n with
  | none => []
  | some g =>
      if g.length ≤ 1 then []
      else g.filter (fun m => m ≠ n ∧ docOf s m = docOf s n)

/-- Models `areYjsValuesAliased` (sharedRefs.ts). -/
def areYjsValuesAliased (s : St) (a b : NodeId) : Bool :=
  a = b ||
    match aliasGroupOf s a with
    | some g => b ∈ g
    | none => false

/-- The proxy-level alias group containing a proxy, if any. -/
def proxyAliasGroupOf (s : St) (p : ProxyId) : Option (List ProxyId) :=
  s.proxyAlias.find? (fun g => p ∈ g)

/-- Models `linkProxyAliases` (sharedRefs.ts). -/
def linkProxyAliases (s : St) (a b : ProxyId) : St :=
  if a = b then s
  else
    match proxyAliasGroupOf s a, proxyAliasGroupOf s b with
    | some ga, some gb =>
        if b ∈ ga then s
        else
          { s with proxyAlias :=
              (ga ++ gb) :: (s.proxyAlias.filter (fun g => ¬(a ∈ g) ∧ ¬(b ∈ g))) }
    | some ga, none =>
        { s with proxyAlias := (ga ++ [b]) :: s.proxyAlias.filter (fun g => ¬(a ∈ g)) }
    | none, some gb =>
        { s with proxyAlias := (gb ++ [a]) :: s.proxyAlias.filter (fun g => ¬(b ∈ g)) }
    | none, none => { s with proxyAlias := [a, b] :: s.proxyAlias }

/-- Models `getProxyAliasSiblings` (sharedRefs.ts). -/
def getProxyAliasSiblings (s : St) (p : ProxyId) : List ProxyId :=
  match proxyAliasGroupOf s p with
  | none => []
  | some g => if g.length ≤ 1 then [] else g.filter (fun q => q ≠ p)

/-- Models `areProxiesAliased` (sharedRefs.ts). -/
def areProxiesAliased (s : St) (a b : ProxyId) : Bool :=
  a = b ||
    match proxyAliasGroupOf s a with
    | some g => b ∈ g
    | none => false

/-- Models `tryGetProxyState` (cache.ts) on a proxy id: `none` when the value
is not (or no longer) a proxy; throws when the proxy is attached to a deleted
Y value. -/
def tryGetProxyStateP (s : St) (p : ProxyId) : Except Err (Option PState) :=
  match alGet s.proxies p with
  | none => .ok none
  | some (.attached n) =>
      if isDeleted s n then .error .deletedValue else .ok (some (.attached n))
  | some (.detached j) => .ok (some (.detached j))

/-- Models `tryGetProxyState` applied to an arbitrary JS value: only proxy
references have a state. -/
def tryGetProxyStateV (s : St) (v : JsVal) : Except Err (Option PState) :=
  match v with
  | .proxyRef p => tryGetProxyStateP s p
  | _ => .ok none

/-- Models `tryUnwrapYjs` (unwrapYjs.ts). -/
def tryUnwrapYjs (s : St) (v : JsVal) : Except Err (Option NodeId) := do
  match ← tryGetProxyStateV s v with
  | some (.attached n) => return some n
  | _ => return none

/-- Models `tryUnwrapJson` (unwrapYjs.ts). -/
def tryUnwrapJson (s : St) (v : JsVal) : Except Err (Option ObjId) := do
  match ← tryGetProxyStateV s v with
  | some (.detached j) => return some j
  | _ => return none

/-- Strict equality `===` between the value currently stored in a Y slot
(`none` meaning the slot reads as `undefined`) and a JS value being written. -/
def jsEqYVal : Option YVal → JsVal → Bool
  | some (.prim p), .prim q => p == q
  | some (.rawJs o), .jsObj o' => o == o'
  | some (.node n), .rawY n' => n == n'
  | none, .prim .undef => true
  | _, _ => false

/-- Replaces the contents of a node. -/
def putNode (s : St) (n : NodeId) (yn : YNode) : St :=
  { s with nodes := alSet s.nodes n yn }

/-- Allocates a fresh container node (a `new Y.Map()` / `new Y.Array()`):
unparented and in no document. -/
def allocNode (s : St) (yn : YNode) : NodeId × St :=
  (s.nextNode, { s with nodes := alSet s.nodes s.nextNode yn, nextNode := s.nextNode + 1 })

mutual

/-- Integration of a node subtree into a document: every descendant container
gets the document reference (what Yjs does when an unparented subtree is
stored under an integrated container). -/
def setSubtreeDoc : Nat → St → DocId → NodeId → St
  | 0, s, _, _ => s
  | fuel + 1, s, d, n =>
      let s1 := { s with nodeDoc := alSet s.nodeDoc n d }
      match getNode s1 n with
      | some (.ymap entries) => setSubtreeDocVals fuel s1 d (entries.map (·.2))
      | some (.yarr items) => setSubtreeDocVals fuel s1 d items
      | none => s1

/-- Integration of a list of slot values. -/
def setSubtreeDocVals : Nat → St → DocId → List YVal → St
  | _, s, _, [] => s
  | fuel, s, d, v :: rest =>
      let s1 := match v with
        | .node c => setSubtreeDoc fuel s d c
        | _ => s
      setSubtreeDocVals fuel s1 d rest

end

/-- Storing a value into a container integrates child nodes: the child's
parent becomes the container and, when the container lives in a document, the
whole child subtree joins that document. -/
def integrateVal (s : St) (container : NodeId) (v : YVal) : St :=
  match v with
  | .node c =>
      let s1 := { s with nodeParent := alSet s.nodeParent c container }
      match docOf s1 container with
      | some d => setSubtreeDoc (s1.nodes.length + 1) s1 d c
      | none => s1
  | _ => s

/-- Models `ymap.set(key, value)`: store the entry and integrate the value. -/
def ymapSetEntry (s : St) (n : NodeId) (k : String) (v : YVal) : St :=
  match getNode s n with
  | some (.ymap entries) => integrateVal (putNode s n (.ymap (alSet entries k v))) n v
  | _ => s

/-- Sets a list of entries in order (the per-key `ymap.set` loop of the
converter). -/
def ymapSetEntries (s : St) (n : NodeId) (entries : List (String × YVal)) : St :=
  entries.foldl (fun acc kv => ymapSetEntry acc n kv.1 kv.2) s

/-- Models `ymap.delete(key)`. -/
def ymapDeleteEntry (s : St) (n : NodeId) (k : String) : St :=
  match getNode s n with
  | some (.ymap entries) => putNode s n (.ymap (alDel entries k))
  | _ => s

/-- Models `yarr.insert(0, converted)` into a fresh empty array node: the
items become the contents and each is integrated. -/
def yarrFill (s : St) (n : NodeId) (vals : List YVal) : St :=
  vals.foldl (fun acc v => integrateVal acc n v) (putNode s n (.yarr vals))

/-- Replaces the items of an array node, integrating the given newly-stored
values (used by the index/length write paths to model delete+insert). -/
def yarrPut (s : St) (n : NodeId) (items : List YVal) (inserted : List YVal) : St :=
  inserted.foldl (fun acc v => integrateVal acc n v) (putNode s n (.yarr items))

mutual

/-- Models `yjsValue.clone()`: a deep, unparented copy of the subtree; nested
containers are cloned recursively, primitives and raw values are kept. -/
def cloneNode : Nat → St → NodeId → Except Err (NodeId × St)
  | 0, _, _ => .error .outOfFuel
  | fuel + 1, s, n =>
      match getNode s n with
      | none => .error .missingRef
      | some (.ymap entries) => do
          let (selfId, s1) := allocNode s (.ymap [])
          let (entries', s2) ← cloneNodeFields fuel s1 entries
          return (selfId, ymapSetEntries s2 selfId entries')
      | some (.yarr items) => do
          let (selfId, s1) := allocNode s (.yarr [])
          let (items', s2) ← cloneNodeItems fuel s1 items
          return (selfId, yarrFill s2 selfId items')

/-- Clone of map entries. -/
def cloneNodeFields : Nat → St → List (String × YVal) →
    Except Err (List (String × YVal) × St)
  | _, s, [] => .ok ([], s)
  | fuel, s, (k, v) :: rest => do
      let (v', s1) ← cloneNodeVal fuel s v
      let (rest', s2) ← cloneNodeFields fuel s1 rest
      return ((k, v') :: rest', s2)

/-- Clone of array items. -/
def cloneNodeItems : Nat → St → List YVal → Except Err (List YVal × St)
  | _, s, [] => .ok ([], s)
  | fuel, s, v :: rest => do
      let (v', s1) ← cloneNodeVal fuel s v
      let (rest', s2) ← cloneNodeItems fuel s1 rest
      return (v' :: rest', s2)

/-- Clone of one slot value. -/
def cloneNodeVal : Nat → St → YVal → Except Err (YVal × St)
  | _, s, .prim p => .ok (.prim p, s)
  | _, s, .rawJs o => .ok (.rawJs o, s)
  | fuel, s, .node c => do
      let (c', s1) ← cloneNode fuel s c
      return (.node c', s1)

end

/-- The object ids held directly in a list of JS values. -/
def jsObjIdsOf (l : List JsVal) : List ObjId :=
  l.filterMap (fun v => match v with | .jsObj c => some c | _ => none)

/-- The object ids held directly in a JS object's own properties. -/
def childObjsOfJsObj : JsObj → List ObjId
  | .plainObj fields => jsObjIdsOf (fields.map (·.2))
  | .plainArr items => jsObjIdsOf items
  | _ => []

/-- The object ids held directly in heap object `o`. -/
def childObjsH (h : List (ObjId × JsObj)) (o : ObjId) : List ObjId :=
  match alGet h o with
  | some jo => childObjsOfJsObj jo
  | none => []

/-- Fuel bound for the freezing walk: each unfrozen heap entry is frozen at
most once, queueing each of its children once. -/
def unfrozenWeight (s : St) : Nat :=
  (s.jsHeap.map (fun kv =>
    if kv.1 ∈ s.frozen then 0 else 1 + (childObjsOfJsObj kv.2).length)).sum

/-- Whether a heap object is a plain container (`{...}` or `[...]`) — the
shapes `deepFreeze` is willing to freeze. -/
def isPlainJsObj : JsObj → Bool
  | .plainObj _ => true
  | .plainArr _ => true
  | _ => false

/-- Models `deepFreeze` (utils.ts) with an explicit worklist: pop an object;
if it is already frozen skip it (the source's `Object.isFrozen` early
return); if it is not a plain object or array skip it unfrozen (the source's
`!isPlainObject(obj) && !Array.isArray(obj)` early return); otherwise freeze
it and queue its object-valued own properties. -/
def deepFreezeWork : Nat → St → List ObjId → St
  | 0, s, _ => s
  | _ + 1, s, [] => s
  | fuel + 1, s, o :: rest =>
      if o ∈ s.frozen then deepFreezeWork fuel s rest
      else
        match alGet s.jsHeap o with
        | some jo =>
            if isPlainJsObj jo then
              deepFreezeWork fuel { s with frozen := o :: s.frozen }
                (childObjsOfJsObj jo ++ rest)
            else deepFreezeWork fuel s rest
        | none => deepFreezeWork fuel s rest

/-- `deepFreeze` of a single root object. -/
def deepFreeze (fuel : Nat) (s : St) (o : ObjId) : St := deepFreezeWork fuel s [o]

/-- Models `markAsJs` (markAsJs.ts): a shallow clone of the input (spread /
array spread), deep-frozen, registered in `markedAsJsValues`, and returned. -/
def markAsJs (s : St) (o : ObjId) : Except Err (ObjId × St) :=
  match alGet s.jsHeap o with
  | none => .error .missingRef
  | some jo =>
      let copy : JsObj :=
        match jo with
        | .plainObj fields => .plainObj fields
        | .plainArr items => .plainArr items
        | other => other
      let c := s.nextObj
      let s1 := { s with jsHeap := alSet s.jsHeap c copy, nextObj := c + 1 }
      let s2 := deepFreeze (unfrozenWeight s1 + 2) s1 c
      .ok (c, { s2 with marked := c :: s2.marked })

/-- Models `isMarkedAsJs` (markAsJs.ts) on a JS value. -/
def isMarkedAsJsV (s : St) (v : JsVal) : Bool :=
  match v with
  | .jsObj o => o ∈ s.marked
  | _ => false

/-- The conversion context of conversion.ts: the cycle-detection sets (one
WeakSet in the source, holding both plain objects and unparented Y values —
split here by id space) and the local object-to-first-node map. -/
structure Ctx where
  seenJs : List ObjId
  seenY : List NodeId
  localJsToYjs : List (ObjId × NodeId)
deriving DecidableEq, Repr

/-- Models `createConversionContext`. -/
def mkCtx : Ctx := ⟨[], [], []⟩

mutual

/-- Models `convertJsToYjsValue` (conversion.ts).  The source runs a sequence
of checks; the top-level match on the value kind resolves, for each kind, the
same checks in the same order:

* primitives pass through (`!isObjectLike`);
* a detached proxy — or a plain object that is the backing JSON of a detached
  proxy (found through `dataToProxyCache`) — is re-attached;
* a proxy of a Y value, or a raw Y value, is cloned if integrated (linking the
  original and the clone as aliases), accepted as-is on first use if
  unparented, and rejected on a second unparented use;
* marked-as-js values pass through untouched;
* plain containers convert recursively with cycle detection, intra- and
  cross-call aliasing through the local map and `jsObjectToFirstYjsValue`;
* `Uint8Array` passes through; anything else is unsupported. -/
def convertJsToYjsValue : Nat → St → Ctx → JsVal → Except Err (YVal × St × Ctx)
  | 0, _, _, _ => .error .outOfFuel
  | fuel + 1, s, ctx, v =>
      match v with
      | .prim p => .ok (.prim p, s, ctx)
      | .proxyRef p => do
          match ← tryGetProxyStateP s p with
          | some (.detached j) => reattachProxy fuel s ctx p j
          | some (.attached n) => convertYjsInput fuel s ctx n
          | none =>
              -- a proxy with no state was revoked and evicted; any further
              -- use trips the revoked-proxy behaviour
              .error .revokedProxy
      | .rawY n => do
          match alGet s.cache (.nodeKey n) with
          | some p =>
              match ← tryGetProxyStateP s p with
              | some (.detached j) => reattachProxy fuel s ctx p j
              | _ => convertYjsInput fuel s ctx n
          | none => convertYjsInput fuel s ctx n
      | .jsObj o => do
          match alGet s.cache (.jsonKey o) with
          | some p =>
              match ← tryGetProxyStateP s p with
              | some (.detached j) => reattachProxy fuel s ctx p j
              | _ => convertPlainValue fuel s ctx o
          | none => convertPlainValue fuel s ctx o

/-- Re-attachment (conversion.ts lines creating a fresh Y value from the
backing JSON of a detached proxy): allocate the node, repoint the proxy state
and the identity cache, then populate from the JSON data. -/
def reattachProxy : Nat → St → Ctx → ProxyId → ObjId → Except Err (YVal × St × Ctx)
  | fuel, s, ctx, p, j => do
      match alGet s.jsHeap j with
      | some (.plainObj fields) =>
          let (newId, s1) := allocNode s (.ymap [])
          let s2 := { s1 with
            proxies := alSet s1.proxies p (.attached newId)
            cache := alDel (alSet s1.cache (.nodeKey newId) p) (.jsonKey j) }
          let (entries, s3, ctx1) ← convertFields fuel s2 ctx fields
          return (.node newId, ymapSetEntries s3 newId entries, ctx1)
      | some (.plainArr items) =>
          let (newId, s1) := allocNode s (.yarr [])
          let s2 := { s1 with
            proxies := alSet s1.proxies p (.attached newId)
            cache := alDel (alSet s1.cache (.nodeKey newId) p) (.jsonKey j) }
          let (vals, s3, ctx1) ← convertItems fuel s2 ctx items
          return (.node newId, yarrFill s3 newId vals, ctx1)
      | _ =>
          -- backing JSON is always a plain object or array
          .error .missingRef

/-- The Y-value input path of `convertJsToYjsValue`: deleted values are
rejected; integrated values are cloned and alias-linked; unparented values are
accepted once and rejected on reuse. -/
def convertYjsInput : Nat → St → Ctx → NodeId → Except Err (YVal × St × Ctx)
  | fuel, s, ctx, n =>
      if isDeleted s n then .error .deletedValue
      else if (parentOf s n).isSome || (docOf s n).isSome then do
        -- the store's node graph is acyclic, so the node count bounds depth
        let (cloneId, s1) ← cloneNode (s.nodes.length + 1) s n
        return (.node cloneId, linkAliases s1 n cloneId, ctx)
      else if n ∈ ctx.seenY then .error .cannotCloneUnparented
      else .ok (.node n, s, { ctx with seenY := n :: ctx.seenY })

/-- The plain-container path of `convertJsToYjsValue`. -/
def convertPlainValue : Nat → St → Ctx → ObjId → Except Err (YVal × St × Ctx)
  | fuel, s, ctx, o =>
      if o ∈ s.marked then .ok (.rawJs o, s, ctx)
      else if o ∈ ctx.seenJs then .error .cyclic
      else
        let localE := alGet ctx.localJsToYjs o
        let globalE := alGet s.jsFirst o
        let existing := localE <|> globalE
        match alGet s.jsHeap o with
        | some (.plainArr items) => do
            let ctx1 := { ctx with seenJs := o :: ctx.seenJs }
            let (aId, s1) := allocNode s (.yarr [])
            let s2 := match existing with
              | some e => linkAliases s1 e aId
              | none => s1
            let ctx2 :=
              if localE.isNone then
                { ctx1 with localJsToYjs := alSet ctx1.localJsToYjs o aId }
              else ctx1
            let s3 :=
              if globalE.isNone then { s2 with jsFirst := alSet s2.jsFirst o aId } else s2
            let (vals, s4, ctx3) ← convertItems fuel s3 ctx2 items
            return (.node aId, yarrFill s4 aId vals, { ctx3 with seenJs := ctx3.seenJs.erase o })
        | some (.plainObj fields) => do
            let ctx1 := { ctx with seenJs := o :: ctx.seenJs }
            let (mId, s1) := allocNode s (.ymap [])
            let s2 := match existing with
              | some e => linkAliases s1 e mId
              | none => s1
            let ctx2 :=
              if localE.isNone then
                { ctx1 with localJsToYjs := alSet ctx1.localJsToYjs o mId }
              else ctx1
            let s3 :=
              if globalE.isNone then { s2 with jsFirst := alSet s2.jsFirst o mId } else s2
            let (entries, s4, ctx3) ← convertFields fuel s3 ctx2 fields
            return (.node mId, ymapSetEntries s4 mId entries,
              { ctx3 with seenJs := ctx3.seenJs.erase o })
        | some .binaryObj => .ok (.rawJs o, s, ctx)
        | some .exoticObj => .error .unsupportedType
        | none => .error .missingRef

/-- Conversion of the items of a plain array, left to right, threading the
state and the context. -/
def convertItems : Nat → St → Ctx → List JsVal → Except Err (List YVal × St × Ctx)
  | _, s, ctx, [] => .ok ([], s, ctx)
  | fuel, s, ctx, v :: rest => do
      let (y, s1, ctx1) ← convertJsToYjsValue fuel s ctx v
      let (ys, s2, ctx2) ← convertItems fuel s1 ctx1 rest
      return (y :: ys, s2, ctx2)

/-- Conversion of the fields of a plain object, in key order. -/
def convertFields : Nat → St → Ctx → List (String × JsVal) →
    Except Err (List (String × YVal) × St × Ctx)
  | _, s, ctx, [] => .ok ([], s, ctx)
  | fuel, s, ctx, (k, v) :: rest => do
      let (y, s1, ctx1) ← convertJsToYjsValue fuel s ctx v
      let (ys, s2, ctx2) ← convertFields fuel s1 ctx1 rest
      return ((k, y) :: ys, s2, ctx2)

end

/-- A conversion fuel that dominates the recursion depth on the acyclic data
the converter succeeds on (depth is bounded by the heaps' sizes). -/
def convFuel (s : St) : Nat := s.jsHeap.length + s.nodes.length + 2

/-- Finds the first proxy-alias sibling that is already detached, with its
backing JSON (the shared-snapshot search of detachProxyOfYjsValue.ts). -/
def findDetachedSibling (s : St) : List ProxyId → Except Err (Option (ObjId × ProxyId))
  | [] => .ok none
  | q :: rest => do
      match ← tryGetProxyStateP s q with
      | some (.detached j) => return some (j, q)
      | _ => findDetachedSibling s rest

mutual

/-- Models `detachProxyOfYjsValueAndGetJSON` (detachProxyOfYjsValue.ts):
returns the existing backing JSON if the node's proxy is already detached;
requires the node to be in a document; reuses the shared JSON of an
already-detached proxy-alias sibling when one exists (linking the proxies);
otherwise derives a fresh JSON tree, detaching every nested container's proxy
on the way; finally swaps the node's proxy (if any) to the detached state and
caches the JSON key. -/
def detachAndGetJSON : Nat → St → NodeId → Except Err (ObjId × St)
  | 0, _, _ => .error .outOfFuel
  | fuel + 1, s, n => do
      let proxyOpt := alGet s.cache (.nodeKey n)
      let stOpt ← match proxyOpt with
        | some p => tryGetProxyStateP s p
        | none => pure none
      match stOpt with
      | some (.detached j) => return (j, s)
      | _ =>
          if (docOf s n).isNone then .error .missingDoc
          else do
            let shared ← match proxyOpt with
              | some p => findDetachedSibling s (getProxyAliasSiblings s p)
              | none => pure none
            let (json, s1) ← match shared with
              | some (sharedJson, _) => pure (sharedJson, s)
              | none =>
                  match getNode s n with
                  | some (.ymap entries) => do
                      let (fields, s1) ← detachFieldsJSON fuel s entries
                      let o := s1.nextObj
                      pure (o, { s1 with
                        jsHeap := alSet s1.jsHeap o (.plainObj fields), nextObj := o + 1 })
                  | some (.yarr items) => do
                      let (vals, s1) ← detachItemsJSON fuel s items
                      let o := s1.nextObj
                      pure (o, { s1 with
                        jsHeap := alSet s1.jsHeap o (.plainArr vals), nextObj := o + 1 })
                  | none => .error .missingRef
            match proxyOpt with
            | some p =>
                let s2 := { s1 with
                  proxies := alSet s1.proxies p (.detached json)
                  cache := alSet s1.cache (.jsonKey json) p }
                match shared with
                | some (_, sharedProxy) => return (json, linkProxyAliases s2 p sharedProxy)
                | none => return (json, s2)
            | none => return (json, s1)

/-- JSON derivation for map entries: nested containers are recursively
detached and replaced by their JSON; other values are kept. -/
def detachFieldsJSON : Nat → St → List (String × YVal) →
    Except Err (List (String × JsVal) × St)
  | _, s, [] => .ok ([], s)
  | fuel, s, (k, v) :: rest => do
      let (w, s1) ← detachValJSON fuel s v
      let (ws, s2) ← detachFieldsJSON fuel s1 rest
      return ((k, w) :: ws, s2)

/-- JSON derivation for array items. -/
def detachItemsJSON : Nat → St → List YVal → Except Err (List JsVal × St)
  | _, s, [] => .ok ([], s)
  | fuel, s, v :: rest => do
      let (w, s1) ← detachValJSON fuel s v
      let (ws, s2) ← detachItemsJSON fuel s1 rest
      return (w :: ws, s2)

/-- JSON derivation for one slot value. -/
def detachValJSON : Nat → St → YVal → Except Err (JsVal × St)
  | _, s, .prim p => .ok (.prim p, s)
  | _, s, .rawJs o => .ok (.jsObj o, s)
  | fuel, s, .node c => do
      let (j, s1) ← detachAndGetJSON fuel s c
      return (.jsObj j, s1)

end

/-- Models `detachProxyOfYjsValue` (detachProxyOfYjsValue.ts): a no-op on
anything but a Y container value. -/
def detachProxyOfYjsValue (s : St) (v : YVal) : Except Err St :=
  match v with
  | .node n => do
      let (_, s1) ← detachAndGetJSON (s.nodes.length + 1) s n
      return s1
  | _ => .ok s

/-- The child container nodes of a slot value. -/
def childNodesOfVal : YVal → Option NodeId
  | .node c => some c
  | _ => none

/-- Marks every node in the worklist, and transitively its children, as
deleted (what removing a value from its parent container does to the
underlying Yjs items). -/
def markDeletedWork : Nat → St → List NodeId → St
  | 0, s, _ => s
  | _ + 1, s, [] => s
  | fuel + 1, s, n :: rest =>
      let s1 := { s with deletedNodes := n :: s.deletedNodes }
      let children := match getNode s1 n with
        | some (.ymap entries) => (entries.map (·.2)).filterMap childNodesOfVal
        | some (.yarr items) => items.filterMap childNodesOfVal
        | none => []
      markDeletedWork fuel s1 (children ++ rest)

/-- Deletion marking of one removed slot value. -/
def markDeletedVal (s : St) (v : YVal) : St :=
  match v with
  | .node c => markDeletedWork (s.nodes.length + 2) s [c]
  | _ => s

/-- Models `registerRevocableProxy` (withYjsProxy.ts): recorded only while a
scope is open. -/
def registerRevocableProxy (s : St) (p : ProxyId) : St :=
  match s.scopeRevokers with
  | some l => { s with scopeRevokers := some (l ++ [p]) }
  | none => s

/-- Models `linkProxyWithExistingSiblings` (sharedRefs.ts): link the new proxy
with the proxies of the node's alias siblings that already exist. -/
def linkProxyWithExistingSiblings (s : St) (p : ProxyId) (n : NodeId) : St :=
  (getAliasSiblings s n).foldl
    (fun acc sib =>
      match alGet acc.cache (.nodeKey sib) with
      | some sp => linkProxyAliases acc p sp
      | none => acc)
    s

/-- Models `createYMapProxy` (mapProxy.ts) on an attached state: identity
cache first; otherwise a fresh revocable proxy is created, cached, given its
state, registered with the open scope, and linked with existing sibling
proxies. -/
def createYMapProxyAttached (s : St) (n : NodeId) : ProxyId × St :=
  match alGet s.cache (.nodeKey n) with
  | some p => (p, s)
  | none =>
      let p := s.nextProxy
      let s1 := { s with
        nextProxy := p + 1
        cache := alSet s.cache (.nodeKey n) p
        proxies := alSet s.proxies p (.attached n) }
      let s2 := registerRevocableProxy s1 p
      (p, linkProxyWithExistingSiblings s2 p n)

/-- Models `createYMapProxy` on a detached state (key is the backing JSON). -/
def createYMapProxyDetached (s : St) (j : ObjId) : ProxyId × St :=
  match alGet s.cache (.jsonKey j) with
  | some p => (p, s)
  | none =>
      let p := s.nextProxy
      let s1 := { s with
        nextProxy := p + 1
        cache := alSet s.cache (.jsonKey j) p
        proxies := alSet s.proxies p (.detached j) }
      (p, registerRevocableProxy s1 p)

/-- Models `createYArrayProxy` (arrayProxy.ts) on an attached state: identity
cache first; otherwise a fresh (plain, non-revocable) proxy is created, cached
and given its state.  The source registers no revoker and performs no sibling
linking for array proxies. -/
def createYArrayProxyAttached (s : St) (n : NodeId) : ProxyId × St :=
  match alGet s.cache (.nodeKey n) with
  | some p => (p, s)
  | none =>
      let p := s.nextProxy
      (p, { s with
        nextProxy := p + 1
        cache := alSet s.cache (.nodeKey n) p
        proxies := alSet s.proxies p (.attached n) })

/-- Models `createYArrayProxy` on a detached state. -/
def createYArrayProxyDetached (s : St) (j : ObjId) : ProxyId × St :=
  match alGet s.cache (.jsonKey j) with
  | some p => (p, s)
  | none =>
      let p := s.nextProxy
      (p, { s with
        nextProxy := p + 1
        cache := alSet s.cache (.jsonKey j) p
        proxies := alSet s.proxies p (.detached j) })

/-- Models `wrapYjs` (wrapYjs.ts): rejects deleted values, then dispatches on
the container kind. -/
def wrapYjs (s : St) (n : NodeId) : Except Err (ProxyId × St) :=
  if isDeleted s n then .error .deletedValue
  else
    match getNode s n with
    | some (.ymap _) => .ok (createYMapProxyAttached s n)
    | some (.yarr _) => .ok (createYArrayProxyAttached s n)
    | none => .error .missingRef

/-- Models `convertYjsToJsValue` (conversion.ts): containers are wrapped
(rejecting deleted ones); other object-like values are deep-frozen and
registered as raw; primitives pass through. -/
def convertYjsToJsValue (s : St) (v : YVal) : Except Err (JsVal × St) :=
  match v with
  | .node n => do
      if isDeleted s n then .error .deletedValue
      else do
        let (p, s1) ← wrapYjs s n
        return (.proxyRef p, s1)
  | .rawJs o =>
      let s1 := deepFreeze (unfrozenWeight s + 2) s o
      .ok (.jsObj o,
        { s1 with marked := if o ∈ s1.marked then s1.marked else o :: s1.marked })
  | .prim p => .ok (.prim p, s)

/-- Models `transactIfPossible` (utils.ts): the mutation runs inside a store
transaction when the value is integrated in a document. -/
def transactIfPossible (s : St) (n : NodeId) (k : St → Except Err St) : Except Err St :=
  match docOf s n with
  | some _ => k { s with txCount := s.txCount + 1 }
  | none => k s

/-- Target collection of `applyToAllAliases` (sharedRefs.ts): walk the proxy
group; each attached state contributes its node plus the node's not-yet-seen
alias siblings, deduplicated; each detached state contributes its backing JSON
object, deduplicated. -/
def collectTargets (s : St) :
    List ProxyId → List NodeId → List ObjId → Except Err (List NodeId × List ObjId)
  | [], accY, accJ => .ok (accY, accJ)
  | q :: rest, accY, accJ => do
      match ← tryGetProxyStateP s q with
      | none => collectTargets s rest accY accJ
      | some (.attached n) =>
          if n ∈ accY then collectTargets s rest accY accJ
          else
            let accY1 := accY ++ [n]
            let accY2 := (getAliasSiblings s n).foldl
              (fun acc m => if m ∈ acc then acc else acc ++ [m]) accY1
            collectTargets s rest accY2 accJ
      | some (.detached j) =>
          if j ∈ accJ then collectTargets s rest accY accJ
          else collectTargets s rest accY (accJ ++ [j])

/-- Models `applyToAllAliases` (sharedRefs.ts): collect the targets over the
proxy's alias group (plus node-level siblings), apply the JSON mutator to each
detached target, then the store mutator to each attached target inside one
shared transaction. -/
def applyToAllAliases (s : St) (p : ProxyId)
    (yjsFn : St → NodeId → Except Err St) (jsonFn : St → ObjId → Except Err St) :
    Except Err St := do
  match ← tryGetProxyStateP s p with
  | none => return s
  | some _ => do
      let allProxies := p :: getProxyAliasSiblings s p
      let (yjsValues, jsonObjects) ← collectTargets s allProxies [] []
      let s1 ← jsonObjects.foldlM jsonFn s
      match yjsValues with
      | [] => return s1
      | n₀ :: _ =>
          transactIfPossible s1 n₀ (fun s2 => yjsValues.foldlM yjsFn s2)

/-! #### Map proxy traps (mapProxy.ts) -/

/-- Models `isYMapSetNoOp` (mapProxy.ts). -/
def isYMapSetNoOpD (s : St) (n : NodeId) (k : String) (v : JsVal) : Except Err Bool := do
  match getNode s n with
  | some (.ymap entries) =>
      if ¬ alHas entries k then return false
      else
        let current := alGet entries k
        if jsEqYVal current v then return true
        else
          match ← tryUnwrapYjs s v with
          | some m => return current == some (.node m)
          | none => return false
  | _ => .error .missingRef

/-- Models `setYMapValue` (mapProxy.ts): detach a present old value first,
convert the new value, then set it (the store marks the replaced subtree
deleted). -/
def setYMapValue (s : St) (n : NodeId) (k : String) (v : JsVal) : Except Err St := do
  match getNode s n with
  | some (.ymap entries) => do
      let s1 ← match alGet entries k with
        | some old => do
            let sd ← detachProxyOfYjsValue s old
            pure (markDeletedVal sd old)
        | none => pure s
      let (converted, s2, _) ← convertJsToYjsValue (convFuel s1) s1 mkCtx v
      return ymapSetEntry s2 n k converted
  | _ => .error .missingRef

/-- Models `setJsonMapValue` (mapProxy.ts): detached writes store the raw
backing data of a detached view, never the view itself. -/
def setJsonMapValue (s : St) (j : ObjId) (k : String) (v : JsVal) : Except Err St := do
  let unwrapped ← tryUnwrapJson s v
  let w := match unwrapped with
    | some c => JsVal.jsObj c
    | none => v
  match alGet s.jsHeap j with
  | some (.plainObj fields) =>
      return { s with jsHeap := alSet s.jsHeap j (.plainObj (alSet fields k w)) }
  | _ => .error .missingRef

/-- Models `deleteYMapValue` (mapProxy.ts). -/
def deleteYMapValue (s : St) (n : NodeId) (k : String) : Except Err St := do
  match getNode s n with
  | some (.ymap entries) => do
      let s1 ← match alGet entries k with
        | some old => do
            let sd ← detachProxyOfYjsValue s old
            pure (markDeletedVal sd old)
        | none => pure s
      return ymapDeleteEntry s1 n k
  | _ => .error .missingRef

/-- Models `deleteJsonMapValue` (mapProxy.ts). -/
def deleteJsonMapValue (s : St) (j : ObjId) (k : String) : Except Err St :=
  match alGet s.jsHeap j with
  | some (.plainObj fields) =>
      .ok { s with jsHeap := alSet s.jsHeap j (.plainObj (alDel fields k)) }
  | _ => .error .missingRef

/-- The `get` trap of the map proxy: a revoked proxy throws; a detached state
reads the backing JSON (returning the cached view of a sub-snapshot); an
attached state reads through the node via `convertYjsToJsValue`. -/
def mapProxyGet (s : St) (p : ProxyId) (k : String) : Except Err (JsVal × St) := do
  if p ∈ s.revoked then .error .revokedProxy
  else do
    match ← tryGetProxyStateP s p with
    | none => .error .notAProxy
    | some (.detached j) =>
        match alGet s.jsHeap j with
        | some (.plainObj fields) =>
            match alGet fields k with
            | some (.jsObj c) =>
                match alGet s.cache (.jsonKey c) with
                | some q => return (.proxyRef q, s)
                | none => return (.jsObj c, s)
            | some v => return (v, s)
            | none => return (.prim .undef, s)
        | _ => .error .missingRef
    | some (.attached n) =>
        match getNode s n with
        | some (.ymap entries) =>
            match alGet entries k with
            | some yv => convertYjsToJsValue s yv
            | none => return (.prim .undef, s)
        | _ => .error .missingRef

/-- The `set` trap of the map proxy (string keys): a revoked proxy throws;
an attached no-op write returns without any mutation; otherwise the write
fans out over all aliases. -/
def mapProxySet (s : St) (p : ProxyId) (k : String) (v : JsVal) : Except Err St := do
  if p ∈ s.revoked then .error .revokedProxy
  else do
    match ← tryGetProxyStateP s p with
    | none => .error .notAProxy
    | some st => do
        let noop ← match st with
          | .attached n => isYMapSetNoOpD s n k v
          | .detached _ => pure false
        if noop then return s
        else
          applyToAllAliases s p
            (fun acc n => setYMapValue acc n k v)
            (fun acc j => setJsonMapValue acc j k v)

/-- The `deleteProperty` trap of the map proxy. -/
def mapProxyDelete (s : St) (p : ProxyId) (k : String) : Except Err St := do
  if p ∈ s.revoked then .error .revokedProxy
  else do
    match ← tryGetProxyStateP s p with
    | none => .error .notAProxy
    | some st => do
        let noop ← match st with
          | .attached n =>
              match getNode s n with
              | some (.ymap entries) => pure (¬ alHas entries k : Bool)
              | _ => .error .missingRef
          | .detached _ => pure false
        if noop then return s
        else
          applyToAllAliases s p
            (fun acc n => deleteYMapValue acc n k)
            (fun acc j => deleteJsonMapValue acc j k)

/-- The `ownKeys` trap of the map proxy (enumeration). -/
def mapProxyKeys (s : St) (p : ProxyId) : Except Err (List String) := do
  if p ∈ s.revoked then .error .revokedProxy
  else do
    match ← tryGetProxyStateP s p with
    | none => .error .notAProxy
    | some (.detached j) =>
        match alGet s.jsHeap j with
        | some (.plainObj fields) => return fields.map (·.1)
        | _ => .error .missingRef
    | some (.attached n) =>
        match getNode s n with
        | some (.ymap entries) => return entries.map (·.1)
        | _ => .error .missingRef

/-! #### Array proxy traps (arrayProxy.ts) -/

/-- A JavaScript number: a finite value or one of the non-finite ones. -/
inductive JsNumber where
  | num (q : ℚ) : JsNumber
  | nan : JsNumber
  | posInf : JsNumber
  | negInf : JsNumber
deriving DecidableEq, Repr

/-- Models `setYArrayLength` (arrayProxy.ts): a value that is not a finite
non-negative integer throws a RangeError; an unchanged length returns with no
mutation; otherwise, inside a transaction, the sequence is truncated (each
removed element detached first) or padded with nulls. -/
def setYArrayLength (s : St) (n : NodeId) (value : JsNumber) : Except Err St :=
  match value with
  | .nan | .posInf | .negInf => .error .rangeError
  | .num q =>
      if q.den ≠ 1 ∨ q < 0 then .error .rangeError
      else
        let newLen : Nat := q.num.toNat
        match getNode s n with
        | some (.yarr items) =>
            if newLen = items.length then .ok s
            else
              transactIfPossible s n (fun s0 => do
                if newLen < items.length then do
                  let s1 ← (items.drop newLen).foldlM
                    (fun acc v => detachProxyOfYjsValue acc v) s0
                  let s2 := (items.drop newLen).foldl markDeletedVal s1
                  return putNode s2 n (.yarr (items.take newLen))
                else
                  return yarrPut s0 n
                    (items ++ List.replicate (newLen - items.length) (.prim .null)) [])
        | _ => .error .missingRef

/-- Models `setJsonArrayIndex` (arrayProxy.ts) plus native JS index
assignment semantics on the backing plain array (holes read as undefined). -/
def setJsonArrayIndex (s : St) (j : ObjId) (idx : Nat) (v : JsVal) : Except Err St := do
  let unwrapped ← tryUnwrapJson s v
  let w := match unwrapped with
    | some c => JsVal.jsObj c
    | none => v
  match alGet s.jsHeap j with
  | some (.plainArr items) =>
      let items' :=
        if idx < items.length then items.set idx w
        else items ++ List.replicate (idx - items.length) (.prim .undef) ++ [w]
      return { s with jsHeap := alSet s.jsHeap j (.plainArr items') }
  | _ => .error .missingRef

/-- Models `setYArrayIndex` (arrayProxy.ts): the two no-op checks first;
otherwise, inside a transaction, the value is converted, an in-range write
detaches and replaces the old slot, and an out-of-range write pads the gap
with explicit nulls before inserting. -/
def setYArrayIndex (s : St) (n : NodeId) (idx : Nat) (v : JsVal) : Except Err St := do
  match getNode s n with
  | some (.yarr items) =>
      let current := items.get? idx
      if jsEqYVal current v && !(v == .prim .undef) then return s
      else do
        let unwrapped ← tryUnwrapYjs s v
        if (unwrapped.map YVal.node).isSome ∧ current = unwrapped.map YVal.node then return s
        else
          transactIfPossible s n (fun s0 => do
            let (converted, s1, _) ← convertJsToYjsValue (convFuel s0) s0 mkCtx v
            match getNode s1 n with
            | some (.yarr items1) =>
                if idx < items1.length then do
                  let s2 ← match items1.get? idx with
                    | some old => do
                        let sd ← detachProxyOfYjsValue s1 old
                        pure (markDeletedVal sd old)
                    | none => pure s1
                  return yarrPut s2 n (items1.set idx converted) [converted]
                else
                  return yarrPut s1 n
                    (items1 ++ List.replicate (idx - items1.length) (.prim .null)
                      ++ [converted])
                    [converted]
            | _ => .error .missingRef)
  | _ => .error .missingRef

/-- The `get` trap of the array proxy at an index (array proxies are plain,
non-revocable proxies). -/
def arrayProxyGet (s : St) (p : ProxyId) (idx : Nat) : Except Err (JsVal × St) := do
  match ← tryGetProxyStateP s p with
  | none => .error .notAProxy
  | some (.detached j) =>
      match alGet s.jsHeap j with
      | some (.plainArr items) =>
          match items.get? idx with
          | some (.jsObj c) =>
              match alGet s.cache (.jsonKey c) with
              | some q => return (.proxyRef q, s)
              | none => return (.jsObj c, s)
          | some v => return (v, s)
          | none => return (.prim .undef, s)
      | _ => .error .missingRef
  | some (.attached n) =>
      match getNode s n with
      | some (.yarr items) =>
          match items.get? idx with
          | some yv => convertYjsToJsValue s yv
          | none => return (.prim .undef, s)
      | _ => .error .missingRef

/-- The `length` read of the array proxy. -/
def arrayProxyLen (s : St) (p : ProxyId) : Except Err Nat := do
  match ← tryGetProxyStateP s p with
  | none => .error .notAProxy
  | some (.detached j) =>
      match alGet s.jsHeap j with
      | some (.plainArr items) => return items.length
      | _ => .error .missingRef
  | some (.attached n) =>
      match getNode s n with
      | some (.yarr items) => return items.length
      | _ => .error .missingRef

/-- The `set` trap of the array proxy at an index. -/
def arrayProxySetIdx (s : St) (p : ProxyId) (idx : Nat) (v : JsVal) : Except Err St := do
  match ← tryGetProxyStateP s p with
  | none => .error .notAProxy
  | some (.detached j) => setJsonArrayIndex s j idx v
  | some (.attached n) => setYArrayIndex s n idx v

/-- The `length` assignment of the array proxy. -/
def arrayProxySetLength (s : St) (p : ProxyId) (value : JsNumber) : Except Err St := do
  match ← tryGetProxyStateP s p with
  | none => .error .notAProxy
  | some (.detached j) =>
      -- `state.json.length = value` with native JS array semantics
      match value with
      | .nan | .posInf | .negInf => .error .rangeError
      | .num q =>
          if q.den ≠ 1 ∨ q < 0 then .error .rangeError
          else
            let newLen : Nat := q.num.toNat
            match alGet s.jsHeap j with
            | some (.plainArr items) =>
                let items' :=
                  if newLen ≤ items.length then items.take newLen
                  else items ++ List.replicate (newLen - items.length) (.prim .undef)
                return { s with jsHeap := alSet s.jsHeap j (.plainArr items') }
            | _ => .error .missingRef
  | some (.attached n) => setYArrayLength s n value

/-- The `deleteProperty` trap of the array proxy at an index: slots beyond the
length or already holding the null sentinel are left untouched; otherwise the
old value is detached and the slot is replaced by the null sentinel inside a
transaction. -/
def arrayProxyDelete (s : St) (p : ProxyId) (idx : Nat) : Except Err St := do
  match ← tryGetProxyStateP s p with
  | none => .error .notAProxy
  | some (.detached j) =>
      match alGet s.jsHeap j with
      | some (.plainArr items) =>
          if idx < items.length then
            return { s with jsHeap := alSet s.jsHeap j (.plainArr (items.set idx (.prim .null))) }
          else return s
      | _ => .error .missingRef
  | some (.attached n) =>
      match getNode s n with
      | some (.yarr items) =>
          if idx ≥ items.length then return s
          else if items.get? idx = some (.prim .null) then return s
          else do
            let s1 ← match items.get? idx with
              | some old => do
                  let sd ← detachProxyOfYjsValue s old
                  pure (markDeletedVal sd old)
              | none => pure s
            transactIfPossible s1 n (fun s2 =>
              match getNode s2 n with
              | some (.yarr items2) => .ok (putNode s2 n (.yarr (items2.set idx (.prim .null))))
              | _ => .error .missingRef)
      | _ => .error .missingRef

/-! #### Scope lifecycle (withYjsProxy.ts) -/

/-- Scope entry: only one scope may be open at a time. -/
def scopeOpen (s : St) : Except Err St :=
  if s.scopeRevokers.isSome then .error .nestedScope
  else .ok { s with scopeRevokers := some [] }

/-- Models `removeProxyFromCache` (cache.ts). -/
def removeProxyFromCache (s : St) (p : ProxyId) : St :=
  match alGet s.proxies p with
  | some st =>
      let key := match st with
        | .attached n => CacheKey.nodeKey n
        | .detached j => CacheKey.jsonKey j
      let s1 :=
        if alGet s.cache key == some p then { s with cache := alDel s.cache key } else s
      { s1 with proxies := alDel s1.proxies p }
  | none => s

/-- Models the `cleanup` closure of `withYjsProxy` (withYjsProxy.ts): every
registered revoker is called (the native revoke of the map proxies) and the
proxy is removed from the caches; then the scope is exited.  Array proxies
were never registered, so they are untouched. -/
def cleanupScope (s : St) : St :=
  match s.scopeRevokers with
  | none => s
  | some l =>
      let s1 := l.foldl
        (fun acc p => removeProxyFromCache { acc with revoked := acc.revoked ++ [p] } p) s
      { s1 with scopeRevokers := none }

/-! #### Basic preservation lemmas -/

theorem linkProxyAliases_cache (s : St) (a b : ProxyId) :
    (linkProxyAliases s a b).cache = s.cache := by
  unfold linkProxyAliases
  repeat' split
  all_goals rfl

theorem linkProxyAliases_nodes (s : St) (a b : ProxyId) :
    (linkProxyAliases s a b).nodes = s.nodes := by
  unfold linkProxyAliases
  repeat' split
  all_goals rfl

theorem linkProxyAliases_deletedNodes (s : St) (a b : ProxyId) :
    (linkProxyAliases s a b).deletedNodes = s.deletedNodes := by
  unfold linkProxyAliases
  repeat' split
  all_goals rfl

theorem linkProxyAliases_proxies (s : St) (a b : ProxyId) :
    (linkProxyAliases s a b).proxies = s.proxies := by
  unfold linkProxyAliases
  repeat' split
  all_goals rfl

theorem linkProxyWithExistingSiblings_cache (s : St) (p : ProxyId) (n : NodeId) :
    (linkProxyWithExistingSiblings s p n).cache = s.cache := by
  unfold linkProxyWithExistingSiblings
  generalize getAliasSiblings s n = L
  induction L generalizing s with
  | nil => rfl
  | cons hd tl ih =>
      simp only [List.foldl_cons]
      rw [ih]
      split
      · rw [linkProxyAliases_cache]
      · rfl

theorem linkProxyWithExistingSiblings_nodes (s : St) (p : ProxyId) (n : NodeId) :
    (linkProxyWithExistingSiblings s p n).nodes = s.nodes := by
  unfold linkProxyWithExistingSiblings
  generalize getAliasSiblings s n = L
  induction L generalizing s with
  | nil => rfl
  | cons hd tl ih =>
      simp only [List.foldl_cons]
      rw [ih]
      split
      · rw [linkProxyAliases_nodes]
      · rfl

theorem linkProxyWithExistingSiblings_deletedNodes (s : St) (p : ProxyId) (n : NodeId) :
    (linkProxyWithExistingSiblings s p n).deletedNodes = s.deletedNodes := by
  unfold linkProxyWithExistingSiblings
  generalize getAliasSiblings s n = L
  induction L generalizing s with
  | nil => rfl
  | cons hd tl ih =>
      simp only [List.foldl_cons]
      rw [ih]
      split
      · rw [linkProxyAliases_deletedNodes]
      · rfl

theorem registerRevocableProxy_cache (s : St) (p : ProxyId) :
    (registerRevocableProxy s p).cache = s.cache := by
  unfold registerRevocableProxy
  split
  all_goals rfl

theorem registerRevocableProxy_nodes (s : St) (p : ProxyId) :
    (registerRevocableProxy s p).nodes = s.nodes := by
  unfold registerRevocableProxy
  split
  all_goals rfl

theorem registerRevocableProxy_deletedNodes (s : St) (p : ProxyId) :
    (registerRevocableProxy s p).deletedNodes = s.deletedNodes := by
  unfold registerRevocableProxy
  split
  all_goals rfl

/-! #### C5: the identity cache -/

theorem prodEq_fst {α β : Type} {a c : α} {b d : β} (h : (a, b) = (c, d)) : a = c :=
  congrArg Prod.fst h

theorem prodEq_snd {α β : Type} {a c : α} {b d : β} (h : (a, b) = (c, d)) : b = d :=
  congrArg Prod.snd h

theorem createYMapProxyAttached_idem (s : St) (n : NodeId) (p1 : ProxyId) (s1 : St)
    (h : createYMapProxyAttached s n = (p1, s1)) :
    createYMapProxyAttached s1 n = (p1, s1) ∧ s1.nodes = s.nodes ∧
      s1.deletedNodes = s.deletedNodes := by
  unfold createYMapProxyAttached at h ⊢
  cases hc : alGet s.cache (.nodeKey n) with
  | some p =>
      rw [hc] at h
      have hp := prodEq_fst h
      have hs := prodEq_snd h
      subst hp
      subst hs
      rw [hc]
      exact ⟨rfl, rfl, rfl⟩
  | none =>
      rw [hc] at h
      simp only at h
      have hp := prodEq_fst h
      have hs := prodEq_snd h
      subst hp
      have hcache : s1.cache = alSet s.cache (.nodeKey n) s.nextProxy := by
        rw [← hs, linkProxyWithExistingSiblings_cache, registerRevocableProxy_cache]
      have hnodes : s1.nodes = s.nodes := by
        rw [← hs, linkProxyWithExistingSiblings_nodes, registerRevocableProxy_nodes]
      have hdel : s1.deletedNodes = s.deletedNodes := by
        rw [← hs, linkProxyWithExistingSiblings_deletedNodes,
          registerRevocableProxy_deletedNodes]
      rw [hcache, alGet_alSet_self]
      exact ⟨rfl, hnodes, hdel⟩

theorem createYArrayProxyAttached_idem (s : St) (n : NodeId) (p1 : ProxyId) (s1 : St)
    (h : createYArrayProxyAttached s n = (p1, s1)) :
    createYArrayProxyAttached s1 n = (p1, s1) ∧ s1.nodes = s.nodes ∧
      s1.deletedNodes = s.deletedNodes := by
  unfold createYArrayProxyAttached at h ⊢
  cases hc : alGet s.cache (.nodeKey n) with
  | some p =>
      rw [hc] at h
      have hp := prodEq_fst h
      have hs := prodEq_snd h
      subst hp
      subst hs
      rw [hc]
      exact ⟨rfl, rfl, rfl⟩
  | none =>
      rw [hc] at h
      simp only at h
      have hp := prodEq_fst h
      have hs := prodEq_snd h
      subst hp
      rw [← hs]
      simp [alGet_alSet_self]

theorem createYMapProxyDetached_idem (s : St) (j : ObjId) (p1 : ProxyId) (s1 : St)
    (h : createYMapProxyDetached s j = (p1, s1)) :
    createYMapProxyDetached s1 j = (p1, s1) := by
  unfold createYMapProxyDetached at h ⊢
  cases hc : alGet s.cache (.jsonKey j) with
  | some p =>
      rw [hc] at h
      have hp := prodEq_fst h
      have hs := prodEq_snd h
      subst hp
      subst hs
      rw [hc]
  | none =>
      rw [hc] at h
      simp only at h
      have hp := prodEq_fst h
      have hs := prodEq_snd h
      subst hp
      have hcache : s1.cache = alSet s.cache (.jsonKey j) s.nextProxy := by
        rw [← hs, registerRevocableProxy_cache]
      rw [hcache, alGet_alSet_self, ← hs]

theorem isDeleted_of_eq_deletedNodes {s t : St} (h : t.deletedNodes = s.deletedNodes)
    (n : NodeId) : isDeleted t n = isDeleted s n := by
  unfold isDeleted
  rw [h]

/-- The cache keeps at most one view per key: its key list stays duplicate
free across proxy creation. -/
def CacheFunctional (s : St) : Prop := (s.cache.map Prod.fst).Nodup

theorem alSet_map_fst_of_none [DecidableEq κ] (l : List (κ × β)) (k : κ) (v : β)
    (h : alGet l k = none) : (alSet l k v).map Prod.fst = l.map Prod.fst ++ [k] := by
  induction l with
  | nil => rfl
  | cons hd tl ih =>
      obtain ⟨k₀, v₀⟩ := hd
      by_cases hk : k = k₀
      · subst hk; simp [alGet] at h
      · simp only [alGet, if_neg hk] at h
        simp [alSet, hk, ih h]

theorem alGet_none_not_mem_map_fst [DecidableEq κ] (l : List (κ × β)) (k : κ)
    (h : alGet l k = none) : k ∉ l.map Prod.fst := by
  induction l with
  | nil => simp
  | cons hd tl ih =>
      obtain ⟨k₀, v₀⟩ := hd
      by_cases hk : k = k₀
      · subst hk; simp [alGet] at h
      · simp only [alGet, if_neg hk] at h
        simp [hk, ih h]

theorem cacheFunctional_alSet (s : St) (key : CacheKey) (p : ProxyId)
    (hfun : CacheFunctional s) (hmiss : alGet s.cache key = none) :
    ((alSet s.cache key p).map Prod.fst).Nodup := by
  rw [alSet_map_fst_of_none _ _ _ hmiss]
  have hnm := alGet_none_not_mem_map_fst _ _ hmiss
  rw [List.nodup_append]
  refine ⟨hfun, List.nodup_singleton _, ?_⟩
  intro a ha hb
  simp only [List.mem_singleton] at hb
  subst hb
  exact hnm ha

theorem wrapYjs_preserves_cacheFunctional (s : St) (n : NodeId) (p1 : ProxyId) (s1 : St)
    (h : wrapYjs s n = .ok (p1, s1)) (hfun : CacheFunctional s) : CacheFunctional s1 := by
  unfold wrapYjs at h
  by_cases hd : isDeleted s n
  · simp [hd] at h
  · rw [if_neg hd] at h
    cases hn : getNode s n with
    | none => rw [hn] at h; exact absurd h (by simp)
    | some yn =>
        rw [hn] at h
        cases yn with
        | ymap entries =>
            simp only [Except.ok.injEq] at h
            unfold createYMapProxyAttached at h
            cases hc : alGet s.cache (.nodeKey n) with
            | some p => rw [hc] at h; rw [show s1 = s from (Prod.mk.injEq .. ▸ h).2.symm ▸ rfl]; exact hfun
            | none =>
                rw [hc] at h
                simp only at h
                have hs := (Prod.mk.injEq .. ▸ h).2
                have : s1.cache = alSet s.cache (.nodeKey n) p1 := by
                  have hp := (Prod.mk.injEq .. ▸ h).1
                  rw [← hs, linkProxyWithExistingSiblings_cache, registerRevocableProxy_cache,
                    hp]
                unfold CacheFunctional
                rw [this]
                exact cacheFunctional_alSet s _ _ hfun hc
        | yarr items =>
            simp only [Except.ok.injEq] at h
            unfold createYArrayProxyAttached at h
            cases hc : alGet s.cache (.nodeKey n) with
            | some p => rw [hc] at h; rw [show s1 = s from (Prod.mk.injEq .. ▸ h).2.symm ▸ rfl]; exact hfun
            | none =>
                rw [hc] at h
                simp only at h
                have hs := (Prod.mk.injEq .. ▸ h).2
                have hp := (Prod.mk.injEq .. ▸ h).1
                have : s1.cache = alSet s.cache (.nodeKey n) p1 := by
                  rw [← hs, hp]
                unfold CacheFunctional
                rw [this]
                exact cacheFunctional_alSet s _ _ hfun hc

/-- C5: the identity cache is a per-key bijection: wrapping the same store
node twice returns the identical view and leaves the state unchanged by the
second lookup; creating the detached view of the same snapshot twice likewise;
and proxy creation keeps at most one live view per cache key (the key list of
the cache stays duplicate-free). -/
theorem identity_cache_bijection (s : St) (n : NodeId) (p1 : ProxyId) (s1 : St)
    (t : St) (j : ObjId) (q1 : ProxyId) (t1 : St)
    (hwrap : wrapYjs s n = .ok (p1, s1))
    (hdet : createYMapProxyDetached t j = (q1, t1))
    (hfun : CacheFunctional s) :
    wrapYjs s1 n = .ok (p1, s1) ∧
      createYMapProxyDetached t1 j = (q1, t1) ∧
      CacheFunctional s1 := by
  refine ⟨?_, createYMapProxyDetached_idem t j q1 t1 hdet,
    wrapYjs_preserves_cacheFunctional s n p1 s1 hwrap hfun⟩
  unfold wrapYjs at hwrap ⊢
  by_cases hd : isDeleted s n
  · simp [hd] at hwrap
  · rw [if_neg hd] at hwrap
    cases hn : getNode s n with
    | none => rw [hn] at hwrap; exact absurd hwrap (by simp)
    | some yn =>
        rw [hn] at hwrap
        cases yn with
        | ymap entries =>
            simp only [Except.ok.injEq] at hwrap
            obtain ⟨hidem, hnodes, hdel⟩ := createYMapProxyAttached_idem s n p1 s1 hwrap
            rw [isDeleted_of_eq_deletedNodes hdel, if_neg hd]
            have : getNode s1 n = some (.ymap entries) := by
              unfold getNode
              rw [hnodes]
              exact hn
            rw [this, hidem]
        | yarr items =>
            simp only [Except.ok.injEq] at hwrap
            obtain ⟨hidem, hnodes, hdel⟩ := createYArrayProxyAttached_idem s n p1 s1 hwrap
            rw [isDeleted_of_eq_deletedNodes hdel, if_neg hd]
            have : getNode s1 n = some (.yarr items) := by
              unfold getNode
              rw [hnodes]
              exact hn
            rw [this, hidem]

/-- A tiny store: one empty root map node, nothing else. -/
def c5Base : St :=
  { jsHeap := [], marked := [], frozen := [], nodes := [(0, .ymap [])], nodeDoc := [],
    nodeParent := [], deletedNodes := [], aliasGroups := [], proxyAlias := [],
    proxies := [], cache := [], jsFirst := [], scopeRevokers := none, revoked := [],
    txCount := 0, nextNode := 1, nextProxy := 0, nextObj := 0 }

/-- The state after wrapping the root node of `c5Base`. -/
def c5S1 : St := (createYMapProxyAttached c5Base 0).2

/-- The state after creating a detached view over snapshot object 7. -/
def c5T1 : St := (createYMapProxyDetached c5Base 7).2

/-- Witness for C5 at the tiny store: wrapping node 0 (and the snapshot 7)
twice returns the identical view and state. -/
theorem identity_cache_bijection_witness :
    (wrapYjs c5Base 0 = .ok (0, c5S1) ∧
        createYMapProxyDetached c5Base 7 = (0, c5T1) ∧ CacheFunctional c5Base) ∧
      (wrapYjs c5S1 0 = .ok (0, c5S1) ∧
        createYMapProxyDetached c5T1 7 = (0, c5T1) ∧ CacheFunctional c5S1) :=
  ⟨⟨rfl, rfl, by unfold CacheFunctional c5Base; simp⟩,
    identity_cache_bijection c5Base 0 0 c5S1 c5Base 7 0 c5T1 rfl rfl
      (by unfold CacheFunctional c5Base; simp)⟩

/-! #### C6: sparse sequence fill -/

theorem convert_prim (fuel : Nat) (s : St) (ctx : Ctx) (p : Prim) (h : 0 < fuel) :
    convertJsToYjsValue fuel s ctx (.prim p) = .ok (.prim p, s, ctx) := by
  cases fuel with
  | zero => omega
  | succ f => simp [convertJsToYjsValue]

theorem jsEqYVal_none_prim {p : Prim} (hp : p ≠ .undef) :
    jsEqYVal none (.prim p) = false := by
  cases p with
  | undef => exact absurd rfl hp
  | null => rfl
  | bool b => rfl
  | int n => rfl
  | str s => rfl

theorem getNode_txBump (s : St) (n : NodeId) (t : Nat) :
    getNode { s with txCount := t } n = getNode s n := rfl

theorem convert_prim_convFuel (s : St) (ctx : Ctx) (p : Prim) :
    convertJsToYjsValue (convFuel s) s ctx (.prim p) = .ok (.prim p, s, ctx) :=
  convert_prim _ s ctx p (by unfold convFuel; omega)

/-- C6: on an attached sequence-view, writing a (non-undefined) primitive at
an index at or beyond the current length pads the gap with explicit nulls: the
new contents are the old items, then `index - length` null sentinels, then the
written value.  In particular an empty sequence written at index 5 ends with
length 6, nulls at 0–4 and the value at 5 (see the witness). -/
theorem setYArrayIndex_pads_with_nulls (s : St) (n : NodeId) (idx : Nat)
    (items : List YVal) (p : Prim)
    (hnode : getNode s n = some (.yarr items))
    (hidx : items.length ≤ idx)
    (hp : p ≠ .undef) :
    ∃ s', setYArrayIndex s n idx (.prim p) = .ok s' ∧
      getNode s' n = some (.yarr
        (items ++ List.replicate (idx - items.length) (.prim .null) ++ [.prim p])) := by
  have hcur : items.get? idx = none := by
    rw [List.get?_eq_none]
    exact hidx
  unfold setYArrayIndex
  rw [hnode]
  simp only [hcur, jsEqYVal_none_prim hp, Bool.false_and, Bool.false_eq_true, if_false]
  have hunwrap : tryUnwrapYjs s (.prim p) = .ok none := rfl
  rw [hunwrap]
  simp only [exceptBind_ok, Option.map_none', Option.isSome_none, Bool.false_eq_true,
    false_and, if_false]
  unfold transactIfPossible
  have hlt : ¬ idx < items.length := by omega
  cases hdoc : docOf s n with
  | some d =>
      refine ⟨putNode { s with txCount := s.txCount + 1 } n
        (.yarr (items ++ List.replicate (idx - items.length) (.prim .null) ++ [.prim p])),
        ?_, ?_⟩
      · simp only [convert_prim_convFuel, exceptBind_ok, getNode_txBump, hnode, hlt,
          if_false, yarrPut, integrateVal, List.foldl_cons, List.foldl_nil, exceptPure_eq_ok]
      · simp [getNode, putNode, alGet_alSet_self]
  | none =>
      refine ⟨putNode s n
        (.yarr (items ++ List.replicate (idx - items.length) (.prim .null) ++ [.prim p])),
        ?_, ?_⟩
      · simp only [convert_prim_convFuel, exceptBind_ok, getNode_txBump, hnode, hlt,
          if_false, yarrPut, integrateVal, List.foldl_cons, List.foldl_nil, exceptPure_eq_ok]
      · simp [getNode, putNode, alGet_alSet_self]

/-- Witness for C6: the empty attached sequence, index 5, value `"x"` — the
result holds nulls at indices 0 through 4 and `"x"` at index 5 (length 6). -/
theorem setYArrayIndex_pads_with_nulls_witness :
    (getNode
        { jsHeap := [], marked := [], frozen := [], nodes := [(0, .yarr [])],
          nodeDoc := [(0, 0)], nodeParent := [], deletedNodes := [], aliasGroups := [],
          proxyAlias := [], proxies := [], cache := [], jsFirst := [],
          scopeRevokers := none, revoked := [], txCount := 0, nextNode := 1,
          nextProxy := 0, nextObj := 0 } 0 = some (.yarr []) ∧
      ([] : List YVal).length ≤ 5 ∧ ¬(Prim.str "x" = .undef)) ∧
      ∃ s', setYArrayIndex
          { jsHeap := [], marked := [], frozen := [], nodes := [(0, .yarr [])],
            nodeDoc := [(0, 0)], nodeParent := [], deletedNodes := [], aliasGroups := [],
            proxyAlias := [], proxies := [], cache := [], jsFirst := [],
            scopeRevokers := none, revoked := [], txCount := 0, nextNode := 1,
            nextProxy := 0, nextObj := 0 } 0 5 (.prim (.str "x")) = .ok s' ∧
        getNode s' 0 = some (.yarr
          ([] ++ List.replicate (5 - ([] : List YVal).length) (.prim .null)
            ++ [.prim (.str "x")])) :=
  ⟨⟨rfl, by simp, by simp⟩,
    setYArrayIndex_pads_with_nulls _ 0 5 [] (.str "x") rfl (by simp) (by simp)⟩

/-! #### C7: no-op idempotence -/

theorem mapProxySet_noop_same_value (s : St) (p : ProxyId) (n : NodeId) (k : String)
    (entries : List (String × YVal)) (yv : YVal) (v : JsVal)
    (hrev : p ∉ s.revoked)
    (hpx : alGet s.proxies p = some (.attached n))
    (hdel : isDeleted s n = false)
    (hnode : getNode s n = some (.ymap entries))
    (hget : alGet entries k = some yv)
    (heq : jsEqYVal (some yv) v = true) :
    mapProxySet s p k v = .ok s := by
  unfold mapProxySet tryGetProxyStateP
  simp only [hrev, if_false, hpx, hdel, Bool.false_eq_true, exceptBind_ok,
    exceptPure_eq_ok]
  unfold isYMapSetNoOpD
  simp [hnode, alHas, hget, heq]

theorem mapProxySet_noop_alias_view (s : St) (p : ProxyId) (n : NodeId) (k : String)
    (entries : List (String × YVal)) (m : NodeId) (q : ProxyId)
    (hrev : p ∉ s.revoked)
    (hpx : alGet s.proxies p = some (.attached n))
    (hdel : isDeleted s n = false)
    (hnode : getNode s n = some (.ymap entries))
    (hget : alGet entries k = some (.node m))
    (hqx : alGet s.proxies q = some (.attached m))
    (hdelm : isDeleted s m = false) :
    mapProxySet s p k (.proxyRef q) = .ok s := by
  unfold mapProxySet tryGetProxyStateP
  simp only [hrev, if_false, hpx, hdel, Bool.false_eq_true, exceptBind_ok,
    exceptPure_eq_ok]
  unfold isYMapSetNoOpD tryUnwrapYjs tryGetProxyStateV tryGetProxyStateP
  simp [hnode, alHas, hget, hqx, hdelm, jsEqYVal]

theorem mapProxyDelete_noop_absent (s : St) (p : ProxyId) (n : NodeId) (k : String)
    (entries : List (String × YVal))
    (hrev : p ∉ s.revoked)
    (hpx : alGet s.proxies p = some (.attached n))
    (hdel : isDeleted s n = false)
    (hnode : getNode s n = some (.ymap entries))
    (habs : alHas entries k = false) :
    mapProxyDelete s p k = .ok s := by
  unfold mapProxyDelete tryGetProxyStateP
  simp [hrev, hpx, hdel, hnode, habs]

theorem arrayProxySetIdx_noop_same_value (s : St) (p : ProxyId) (n : NodeId) (idx : Nat)
    (items : List YVal) (yv : YVal) (v : JsVal)
    (hpx : alGet s.proxies p = some (.attached n))
    (hdel : isDeleted s n = false)
    (hnode : getNode s n = some (.yarr items))
    (hget : items.get? idx = some yv)
    (heq : jsEqYVal (some yv) v = true)
    (hv : v ≠ .prim .undef) :
    arrayProxySetIdx s p idx v = .ok s := by
  unfold arrayProxySetIdx tryGetProxyStateP
  simp only [hpx, hdel, Bool.false_eq_true, if_false, exceptBind_ok]
  unfold setYArrayIndex
  have hb : (v == JsVal.prim .undef) = false := by
    simpa using hv
  have hget2 : items[idx]? = some yv := by
    rw [← List.get?_eq_getElem?]
    exact hget
  simp [hnode, hget, hget2, heq, hb]

theorem arrayProxySetIdx_noop_alias_view (s : St) (p : ProxyId) (n : NodeId) (idx : Nat)
    (items : List YVal) (m : NodeId) (q : ProxyId)
    (hpx : alGet s.proxies p = some (.attached n))
    (hdel : isDeleted s n = false)
    (hnode : getNode s n = some (.yarr items))
    (hget : items.get? idx = some (.node m))
    (hqx : alGet s.proxies q = some (.attached m))
    (hdelm : isDeleted s m = false) :
    arrayProxySetIdx s p idx (.proxyRef q) = .ok s := by
  unfold arrayProxySetIdx tryGetProxyStateP
  simp only [hpx, hdel, Bool.false_eq_true, if_false, exceptBind_ok]
  unfold setYArrayIndex tryUnwrapYjs tryGetProxyStateV tryGetProxyStateP
  have hget2 : items[idx]? = some (.node m) := by
    rw [← List.get?_eq_getElem?]
    exact hget
  simp [hnode, hget, hget2, hqx, hdelm, jsEqYVal]

theorem arrayProxyDelete_noop_null_slot (s : St) (p : ProxyId) (n : NodeId) (idx : Nat)
    (items : List YVal)
    (hpx : alGet s.proxies p = some (.attached n))
    (hdel : isDeleted s n = false)
    (hnode : getNode s n = some (.yarr items))
    (hget : items.get? idx = some (.prim .null)) :
    arrayProxyDelete s p idx = .ok s := by
  unfold arrayProxyDelete tryGetProxyStateP
  have hlt2 : idx < items.length := by
    by_contra hc
    rw [List.get?_eq_none.mpr (by omega)] at hget
    exact absurd hget (by simp)
  have hlt : ¬ idx ≥ items.length := by omega
  have hget2 : items[idx]? = some (.prim .null) := by
    rw [← List.get?_eq_getElem?]
    exact hget
  simp [hpx, hdel, hnode, hget, hget2, hlt]

/-- C7: writes of the identical value, or of a view whose backing node is the
slot's current node, to a map-view key or a sequence-view index, and deletes
of an absent map key or of an already-null sequence slot, are all no-ops: the
trap returns with the state — transaction counter included — exactly
unchanged. -/
theorem noop_writes_and_deletes_are_idempotent :
    (∀ s p n k entries yv v, p ∉ s.revoked →
      alGet s.proxies p = some (.attached n) → isDeleted s n = false →
      getNode s n = some (.ymap entries) → alGet entries k = some yv →
      jsEqYVal (some yv) v = true → mapProxySet s p k v = .ok s) ∧
    (∀ s p n k entries m q, p ∉ s.revoked →
      alGet s.proxies p = some (.attached n) → isDeleted s n = false →
      getNode s n = some (.ymap entries) → alGet entries k = some (.node m) →
      alGet s.proxies q = some (.attached m) → isDeleted s m = false →
      mapProxySet s p k (.proxyRef q) = .ok s) ∧
    (∀ s p n k entries, p ∉ s.revoked →
      alGet s.proxies p = some (.attached n) → isDeleted s n = false →
      getNode s n = some (.ymap entries) → alHas entries k = false →
      mapProxyDelete s p k = .ok s) ∧
    (∀ s p n idx items yv v,
      alGet s.proxies p = some (.attached n) → isDeleted s n = false →
      getNode s n = some (.yarr items) → items.get? idx = some yv →
      jsEqYVal (some yv) v = true → v ≠ .prim .undef →
      arrayProxySetIdx s p idx v = .ok s) ∧
    (∀ s p n idx items m q,
      alGet s.proxies p = some (.attached n) → isDeleted s n = false →
      getNode s n = some (.yarr items) → items.get? idx = some (.node m) →
      alGet s.proxies q = some (.attached m) → isDeleted s m = false →
      arrayProxySetIdx s p idx (.proxyRef q) = .ok s) ∧
    (∀ s p n idx items,
      alGet s.proxies p = some (.attached n) → isDeleted s n = false →
      getNode s n = some (.yarr items) → items.get? idx = some (.prim .null) →
      arrayProxyDelete s p idx = .ok s) :=
  ⟨fun s p n k entries yv v h1 h2 h3 h4 h5 h6 =>
      mapProxySet_noop_same_value s p n k entries yv v h1 h2 h3 h4 h5 h6,
    fun s p n k entries m q h1 h2 h3 h4 h5 h6 h7 =>
      mapProxySet_noop_alias_view s p n k entries m q h1 h2 h3 h4 h5 h6 h7,
    fun s p n k entries h1 h2 h3 h4 h5 =>
      mapProxyDelete_noop_absent s p n k entries h1 h2 h3 h4 h5,
    fun s p n idx items yv v h1 h2 h3 h4 h5 h6 =>
      arrayProxySetIdx_noop_same_value s p n idx items yv v h1 h2 h3 h4 h5 h6,
    fun s p n idx items m q h1 h2 h3 h4 h5 h6 =>
      arrayProxySetIdx_noop_alias_view s p n idx items m q h1 h2 h3 h4 h5 h6,
    fun s p n idx items h1 h2 h3 h4 =>
      arrayProxyDelete_noop_null_slot s p n idx items h1 h2 h3 h4⟩

/-- A store for the C7 witness: a root map `{a: 1, b: <node 1>}` (node 0) and
a child array node 1 holding `[null]`, with views over both. -/
def c7Base : St :=
  { jsHeap := [], marked := [], frozen := [],
    nodes := [(0, .ymap [("a", .prim (.int 1)), ("b", .node 1)]), (1, .yarr [.prim .null])],
    nodeDoc := [(0, 0), (1, 0)], nodeParent := [(1, 0)], deletedNodes := [],
    aliasGroups := [], proxyAlias := [],
    proxies := [(0, .attached 0), (1, .attached 1)],
    cache := [(.nodeKey 0, 0), (.nodeKey 1, 1)], jsFirst := [],
    scopeRevokers := none, revoked := [], txCount := 0, nextNode := 2,
    nextProxy := 2, nextObj := 0 }

/-- Witness for C7: on `c7Base`, rewriting `a` with 1, rewriting `b` with the
view of node 1, deleting the absent key `c`, rewriting index 0 of the array
view with null, and deleting the already-null index 0, each return the state
unchanged. -/
theorem noop_writes_and_deletes_are_idempotent_witness :
    mapProxySet c7Base 0 "a" (.prim (.int 1)) = .ok c7Base ∧
      mapProxySet c7Base 0 "b" (.proxyRef 1) = .ok c7Base ∧
      mapProxyDelete c7Base 0 "c" = .ok c7Base ∧
      arrayProxySetIdx c7Base 1 0 (.prim .null) = .ok c7Base ∧
      arrayProxyDelete c7Base 1 0 = .ok c7Base :=
  ⟨noop_writes_and_deletes_are_idempotent.1 c7Base 0 0 "a"
      [("a", .prim (.int 1)), ("b", .node 1)] (.prim (.int 1)) (.prim (.int 1))
      (by decide) (by decide) (by decide) (by decide) (by decide) (by decide),
    noop_writes_and_deletes_are_idempotent.2.1 c7Base 0 0 "b"
      [("a", .prim (.int 1)), ("b", .node 1)] 1 1
      (by decide) (by decide) (by decide) (by decide) (by decide) (by decide) (by decide),
    noop_writes_and_deletes_are_idempotent.2.2.1 c7Base 0 0 "c"
      [("a", .prim (.int 1)), ("b", .node 1)]
      (by decide) (by decide) (by decide) (by decide) (by decide),
    noop_writes_and_deletes_are_idempotent.2.2.2.1 c7Base 1 1 0 [.prim .null]
      (.prim .null) (.prim .null)
      (by decide) (by decide) (by decide) (by decide) (by decide) (by decide),
    noop_writes_and_deletes_are_idempotent.2.2.2.2.2 c7Base 1 1 0 [.prim .null]
      (by decide) (by decide) (by decide) (by decide)⟩

/-! #### C10: length assignment -/

theorem detachProxyOfYjsValue_nonNode (s : St) (v : YVal) (h : ∀ c, v ≠ .node c) :
    detachProxyOfYjsValue s v = .ok s := by
  cases v with
  | prim p => rfl
  | rawJs o => rfl
  | node c => exact absurd rfl (h c)

theorem markDeletedVal_nonNode (s : St) (v : YVal) (h : ∀ c, v ≠ .node c) :
    markDeletedVal s v = s := by
  cases v with
  | prim p => rfl
  | rawJs o => rfl
  | node c => exact absurd rfl (h c)

theorem detach_foldlM_nonNode (l : List YVal) (s : St)
    (h : ∀ v ∈ l, ∀ c, v ≠ YVal.node c) :
    l.foldlM (fun acc v => detachProxyOfYjsValue acc v) s = .ok s := by
  induction l generalizing s with
  | nil => rfl
  | cons hd tl ih =>
      have h1 := detachProxyOfYjsValue_nonNode s hd (h hd (by simp))
      simp only [List.foldlM_cons, h1, exceptBind_ok]
      exact ih s (fun v hv => h v (by simp [hv]))

theorem markDeleted_foldl_nonNode (l : List YVal) (s : St)
    (h : ∀ v ∈ l, ∀ c, v ≠ YVal.node c) :
    l.foldl markDeletedVal s = s := by
  induction l generalizing s with
  | nil => rfl
  | cons hd tl ih =>
      rw [List.foldl_cons, markDeletedVal_nonNode s hd (h hd (by simp))]
      exact ih s (fun v hv => h v (by simp [hv]))

/-- C10: on an attached sequence-view, assigning a non-finite or non-integer
or negative length throws a RangeError (the source throws before any
mutation); assigning the current length performs no mutation at all; a
smaller integer truncates the sequence to that length (the removed elements
are first detached — see the companion detach theorem); a larger integer pads
it with nulls. -/
theorem setYArrayLength_behaviour :
    (∀ s p n, alGet s.proxies p = some (.attached n) → isDeleted s n = false →
      arrayProxySetLength s p .nan = .error .rangeError ∧
      arrayProxySetLength s p .posInf = .error .rangeError ∧
      arrayProxySetLength s p .negInf = .error .rangeError) ∧
    (∀ s p n (q : ℚ), alGet s.proxies p = some (.attached n) → isDeleted s n = false →
      q.den ≠ 1 ∨ q < 0 →
      arrayProxySetLength s p (.num q) = .error .rangeError) ∧
    (∀ s p n items, alGet s.proxies p = some (.attached n) → isDeleted s n = false →
      getNode s n = some (.yarr items) →
      arrayProxySetLength s p (.num (items.length : ℚ)) = .ok s) ∧
    (∀ s p n items (newLen : Nat), alGet s.proxies p = some (.attached n) →
      isDeleted s n = false → getNode s n = some (.yarr items) →
      newLen < items.length →
      (∀ v ∈ items.drop newLen, ∀ c, v ≠ YVal.node c) →
      ∃ s', arrayProxySetLength s p (.num (newLen : ℚ)) = .ok s' ∧
        getNode s' n = some (.yarr (items.take newLen))) ∧
    (∀ s p n items (newLen : Nat), alGet s.proxies p = some (.attached n) →
      isDeleted s n = false → getNode s n = some (.yarr items) →
      items.length < newLen →
      ∃ s', arrayProxySetLength s p (.num (newLen : ℚ)) = .ok s' ∧
        getNode s' n = some (.yarr
          (items ++ List.replicate (newLen - items.length) (.prim .null)))) := by
  refine ⟨?_, ?_, ?_, ?_, ?_⟩
  · intro s p n hpx hdel
    refine ⟨?_, ?_, ?_⟩
    all_goals
      unfold arrayProxySetLength tryGetProxyStateP
      simp [hpx, hdel, setYArrayLength]
  · intro s p n q hpx hdel hq
    have hq' : (q.den = 1 → q < 0) := by
      rcases hq with h | h
      · intro hc; exact absurd hc h
      · intro _; exact h
    unfold arrayProxySetLength tryGetProxyStateP
    simp only [hpx, hdel, Bool.false_eq_true, if_false, exceptBind_ok]
    unfold setYArrayLength
    by_cases hden : q.den = 1
    · simp [hden, hq' hden]
    · simp [hden]
  · intro s p n items hpx hdel hnode
    unfold arrayProxySetLength tryGetProxyStateP
    simp only [hpx, hdel, Bool.false_eq_true, if_false, exceptBind_ok]
    unfold setYArrayLength
    simp [hnode, Rat.den_natCast, Rat.num_natCast]
  · intro s p n items newLen hpx hdel hnode hlen hnn
    unfold arrayProxySetLength tryGetProxyStateP
    simp only [hpx, hdel, Bool.false_eq_true, if_false, exceptBind_ok]
    unfold setYArrayLength
    have hne : ¬ ((newLen : ℚ).num.toNat = items.length) := by
      simp only [Rat.num_natCast, Int.toNat_natCast]
      omega
    unfold transactIfPossible
    cases hdoc : docOf s n with
    | some d =>
        refine ⟨putNode { s with txCount := s.txCount + 1 } n (.yarr (items.take newLen)),
          ?_, by simp [getNode, putNode, alGet_alSet_self]⟩
        simp only [Rat.den_natCast, Rat.num_natCast, Int.toNat_natCast, hnode, hne,
          if_false, hdoc]
        have hd1 := detach_foldlM_nonNode (items.drop newLen)
          { s with txCount := s.txCount + 1 } hnn
        have hd2 := markDeleted_foldl_nonNode (items.drop newLen)
          { s with txCount := s.txCount + 1 } hnn
        have h0 : ¬ ((newLen : ℚ) < 0) := not_lt.mpr (Nat.cast_nonneg newLen)
        have hne2 : ¬ (newLen = items.length) := by omega
        simp [hlen, hd1, hd2, h0, hne2]
    | none =>
        refine ⟨putNode s n (.yarr (items.take newLen)),
          ?_, by simp [getNode, putNode, alGet_alSet_self]⟩
        simp only [Rat.den_natCast, Rat.num_natCast, Int.toNat_natCast, hnode, hne,
          if_false, hdoc]
        have hd1 := detach_foldlM_nonNode (items.drop newLen) s hnn
        have hd2 := markDeleted_foldl_nonNode (items.drop newLen) s hnn
        have h0 : ¬ ((newLen : ℚ) < 0) := not_lt.mpr (Nat.cast_nonneg newLen)
        have hne2 : ¬ (newLen = items.length) := by omega
        simp [hlen, hd1, hd2, h0, hne2]
  · intro s p n items newLen hpx hdel hnode hlen
    unfold arrayProxySetLength tryGetProxyStateP
    simp only [hpx, hdel, Bool.false_eq_true, if_false, exceptBind_ok]
    unfold setYArrayLength
    have hne : ¬ ((newLen : ℚ).num.toNat = items.length) := by
      simp only [Rat.num_natCast, Int.toNat_natCast]
      omega
    unfold transactIfPossible
    cases hdoc : docOf s n with
    | some d =>
        refine ⟨putNode { s with txCount := s.txCount + 1 } n
          (.yarr (items ++ List.replicate (newLen - items.length) (.prim .null))),
          ?_, by simp [getNode, putNode, alGet_alSet_self]⟩
        simp only [Rat.den_natCast, Rat.num_natCast, Int.toNat_natCast, hnode, hne,
          if_false, hdoc]
        have hnl : ¬ (newLen < items.length) := by omega
        have h0 : ¬ ((newLen : ℚ) < 0) := not_lt.mpr (Nat.cast_nonneg newLen)
        have hne2 : ¬ (newLen = items.length) := by omega
        simp [hnl, yarrPut, h0, hne2]
    | none =>
        refine ⟨putNode s n
          (.yarr (items ++ List.replicate (newLen - items.length) (.prim .null))),
          ?_, by simp [getNode, putNode, alGet_alSet_self]⟩
        simp only [Rat.den_natCast, Rat.num_natCast, Int.toNat_natCast, hnode, hne,
          if_false, hdoc]
        have hnl : ¬ (newLen < items.length) := by omega
        have h0 : ¬ ((newLen : ℚ) < 0) := not_lt.mpr (Nat.cast_nonneg newLen)
        have hne2 : ¬ (newLen = items.length) := by omega
        simp [hnl, yarrPut, h0, hne2]

/-- The JSON image of a leaf slot value under detachment. -/
def yvalLeafToJs : YVal → JsVal
  | .prim p => .prim p
  | .rawJs o => .jsObj o
  | .node _ => .prim .undef

theorem detachValJSON_leaf (fuel : Nat) (s : St) (v : YVal)
    (h : ∀ m, v ≠ YVal.node m) :
    detachValJSON fuel s v = .ok (yvalLeafToJs v, s) := by
  cases v with
  | prim p => simp [detachValJSON, yvalLeafToJs]
  | rawJs o => simp [detachValJSON, yvalLeafToJs]
  | node m => exact absurd rfl (h m)

theorem detachFieldsJSON_leaves (fuel : Nat) (s : St)
    (centries : List (String × YVal))
    (h : ∀ kv ∈ centries, ∀ m, kv.2 ≠ YVal.node m) :
    detachFieldsJSON fuel s centries
      = .ok (centries.map (fun kv => (kv.1, yvalLeafToJs kv.2)), s) := by
  induction centries generalizing s with
  | nil => simp [detachFieldsJSON]
  | cons hd tl ih =>
      obtain ⟨k, v⟩ := hd
      have h1 := detachValJSON_leaf fuel s v (fun m => h (k, v) (by simp) m)
      have h2 := ih s (fun kv hkv m => h kv (by simp [hkv]) m)
      simp [detachFieldsJSON, h1, h2]

theorem markDeletedWork_nil (fuel : Nat) (s : St) :
    markDeletedWork fuel s [] = s := by
  cases fuel with
  | zero => rfl
  | succ f => rfl

theorem filterMap_childNodes_leaves (l : List YVal)
    (h : ∀ v ∈ l, ∀ m, v ≠ YVal.node m) :
    l.filterMap childNodesOfVal = [] := by
  rw [List.filterMap_eq_nil]
  intro v hv
  cases v with
  | prim p => rfl
  | rawJs o => rfl
  | node m => exact absurd rfl (h (.node m) hv m)

set_option maxHeartbeats 1000000 in
/-- Detachment of a node holding only leaf entries, with a live attached view
and no proxy-level aliases: the view's state flips to detached over a fresh
snapshot holding the JSON image of the entries. -/
theorem detachAndGetJSON_leafMap (s : St) (c : NodeId) (pc : ProxyId) (d' : DocId)
    (centries : List (String × YVal)) (fuel : Nat)
    (hcache : alGet s.cache (.nodeKey c) = some pc)
    (hpc : alGet s.proxies pc = some (.attached c))
    (hdelc : isDeleted s c = false)
    (hdocc : docOf s c = some d')
    (hpa : s.proxyAlias = [])
    (hcnode : getNode s c = some (.ymap centries))
    (hleaves : ∀ kv ∈ centries, ∀ m, kv.2 ≠ YVal.node m) :
    detachAndGetJSON (fuel + 1) s c = .ok (s.nextObj,
      { s with
        jsHeap := alSet s.jsHeap s.nextObj
          (.plainObj (centries.map (fun kv => (kv.1, yvalLeafToJs kv.2))))
        nextObj := s.nextObj + 1
        proxies := alSet s.proxies pc (.detached s.nextObj)
        cache := alSet s.cache (.jsonKey s.nextObj) pc }) := by
  simp only [detachAndGetJSON, hcache, tryGetProxyStateP, hpc, hdelc,
    Bool.false_eq_true, if_false, hdocc, Option.isNone_some,
    getProxyAliasSiblings, proxyAliasGroupOf, hpa, List.find?_nil,
    findDetachedSibling, hcnode,
    detachFieldsJSON_leaves fuel s centries hleaves,
    exceptBind_ok, exceptBind_error, exceptPure_eq_ok]

theorem markDeletedWork_cons2 (fuel : Nat) (s : St) (n : NodeId)
    (rest : List NodeId) :
    markDeletedWork (fuel + 2) s (n :: rest) =
      markDeletedWork (fuel + 1) { s with deletedNodes := n :: s.deletedNodes }
        ((match getNode { s with deletedNodes := n :: s.deletedNodes } n with
          | some (.ymap entries) => (entries.map (·.2)).filterMap childNodesOfVal
          | some (.yarr items) => items.filterMap childNodesOfVal
          | none => []) ++ rest) := rfl

theorem markDeletedVal_leafNode (s : St) (c : NodeId)
    (centries : List (String × YVal))
    (hcnode : getNode s c = some (.ymap centries))
    (hleaves : ∀ kv ∈ centries, ∀ m, kv.2 ≠ YVal.node m) :
    markDeletedVal s (.node c) = { s with deletedNodes := c :: s.deletedNodes } := by
  have hlv : ∀ v ∈ centries.map (·.2), ∀ m, v ≠ YVal.node m := by
    intro v hv m
    obtain ⟨kv, hkv, rfl⟩ := List.mem_map.mp hv
    exact hleaves kv hkv m
  have hg : getNode { s with deletedNodes := c :: s.deletedNodes } c
      = some (.ymap centries) := hcnode
  show markDeletedWork (s.nodes.length + 2) s [c]
      = { s with deletedNodes := c :: s.deletedNodes }
  rw [markDeletedWork_cons2, hg]
  simp only [filterMap_childNodes_leaves _ hlv, List.nil_append, markDeletedWork_nil]

/-- Companion to C10's truncation clause: truncating away a trailing element
that is a container with a live attached view detaches that view — after the
length write, the view's state is detached, backed by a fresh snapshot, and
the sequence holds the remaining prefix. -/
theorem setYArrayLength_truncation_detaches (s : St) (n : NodeId) (c : NodeId)
    (pc : ProxyId) (d d' : DocId) (items₀ : List YVal) (centries : List (String × YVal))
    (hpa : s.proxyAlias = [])
    (hnode : getNode s n = some (.yarr (items₀ ++ [.node c])))
    (hdocn : docOf s n = some d)
    (hdocc : docOf s c = some d')
    (hcache : alGet s.cache (.nodeKey c) = some pc)
    (hpc : alGet s.proxies pc = some (.attached c))
    (hdelc : isDeleted s c = false)
    (hcnode : getNode s c = some (.ymap centries))
    (hleaves : ∀ kv ∈ centries, ∀ m, kv.2 ≠ YVal.node m) :
    ∃ s', setYArrayLength s n (.num (items₀.length : ℚ)) = .ok s' ∧
      alGet s'.proxies pc = some (.detached s.nextObj) ∧
      getNode s' n = some (.yarr items₀) := by
  have hne : ¬ ((items₀.length : ℚ).num.toNat = (items₀ ++ [YVal.node c]).length) := by
    simp only [Rat.num_natCast, Int.toNat_natCast, List.length_append, List.length_cons,
      List.length_nil]
    omega
  have h0 : ¬ ((items₀.length : ℚ) < 0) := not_lt.mpr (Nat.cast_nonneg _)
  have hlt : items₀.length < (items₀ ++ [YVal.node c]).length := by simp
  have hdrop : (items₀ ++ [YVal.node c]).drop items₀.length = [YVal.node c] := by
    simp [List.drop_append_of_le_length]
  have htake : (items₀ ++ [YVal.node c]).take items₀.length = items₀ := by
    simp [List.take_append_of_le_length]
  -- the single detach of the removed trailing node
  have hdetach : detachProxyOfYjsValue { s with txCount := s.txCount + 1 } (.node c) = .ok
      { s with
        txCount := s.txCount + 1
        jsHeap := alSet s.jsHeap s.nextObj
          (.plainObj (centries.map (fun kv => (kv.1, yvalLeafToJs kv.2))))
        nextObj := s.nextObj + 1
        proxies := alSet s.proxies pc (.detached s.nextObj)
        cache := alSet s.cache (.jsonKey s.nextObj) pc } := by
    simp only [detachProxyOfYjsValue]
    rw [detachAndGetJSON_leafMap { s with txCount := s.txCount + 1 } c pc d' centries
      ({ s with txCount := s.txCount + 1 } : St).nodes.length hcache hpc hdelc hdocc hpa
      hcnode hleaves]
    rfl
  have hmark := markDeletedVal_leafNode
      { s with
        txCount := s.txCount + 1
        jsHeap := alSet s.jsHeap s.nextObj
          (.plainObj (centries.map (fun kv => (kv.1, yvalLeafToJs kv.2))))
        nextObj := s.nextObj + 1
        proxies := alSet s.proxies pc (.detached s.nextObj)
        cache := alSet s.cache (.jsonKey s.nextObj) pc } c centries hcnode hleaves
  refine ⟨{ s with
      txCount := s.txCount + 1
      jsHeap := alSet s.jsHeap s.nextObj
        (.plainObj (centries.map (fun kv => (kv.1, yvalLeafToJs kv.2))))
      nextObj := s.nextObj + 1
      proxies := alSet s.proxies pc (.detached s.nextObj)
      cache := alSet s.cache (.jsonKey s.nextObj) pc
      deletedNodes := c :: s.deletedNodes
      nodes := alSet s.nodes n (.yarr items₀) }, ?_, ?_, ?_⟩
  · unfold setYArrayLength
    unfold transactIfPossible
    simp only [Rat.den_natCast, Rat.num_natCast, Int.toNat_natCast, hnode, hne, if_false,
      hdocn]
    simp [hlt, h0, hdrop, htake, hdetach, hmark, putNode, List.foldlM_cons,
      List.foldlM_nil, exceptBind_ok, exceptPure_eq_ok]
  · simp [alGet_alSet_self]
  · simp [getNode, alGet_alSet_self]

theorem setYArrayLength_behaviour_witness :
    (arrayProxySetLength c7Base 1 .nan = .error .rangeError ∧
        arrayProxySetLength c7Base 1 .posInf = .error .rangeError ∧
        arrayProxySetLength c7Base 1 .negInf = .error .rangeError) ∧
      arrayProxySetLength c7Base 1 (.num (-1 : ℚ)) = .error .rangeError ∧
      arrayProxySetLength c7Base 1 (.num (([YVal.prim .null] : List YVal).length : ℚ))
        = .ok c7Base ∧
      (∃ s', arrayProxySetLength c7Base 1 (.num ((0 : Nat) : ℚ)) = .ok s' ∧
        getNode s' 1 = some (.yarr (([YVal.prim .null] : List YVal).take 0))) ∧
      (∃ s', arrayProxySetLength c7Base 1 (.num ((3 : Nat) : ℚ)) = .ok s' ∧
        getNode s' 1 = some (.yarr ([YVal.prim .null] ++
          List.replicate (3 - ([YVal.prim .null] : List YVal).length) (.prim .null)))) :=
  ⟨setYArrayLength_behaviour.1 c7Base 1 1 (by decide) (by decide),
    setYArrayLength_behaviour.2.1 c7Base 1 1 (-1 : ℚ) (by decide) (by decide) (by norm_num),
    setYArrayLength_behaviour.2.2.1 c7Base 1 1 [.prim .null] (by decide) (by decide)
      (by decide),
    setYArrayLength_behaviour.2.2.2.1 c7Base 1 1 [.prim .null] 0 (by decide) (by decide)
      (by decide) (by decide) (by simp),
    setYArrayLength_behaviour.2.2.2.2 c7Base 1 1 [.prim .null] 3 (by decide) (by decide)
      (by decide) (by decide)⟩

/-! ### C4: scope cleanup and revocation -/

theorem linkProxyAliases_scopeRevokers (s : St) (a b : ProxyId) :
    (linkProxyAliases s a b).scopeRevokers = s.scopeRevokers := by
  unfold linkProxyAliases
  repeat' split
  all_goals rfl

theorem linkProxyAliases_revoked (s : St) (a b : ProxyId) :
    (linkProxyAliases s a b).revoked = s.revoked := by
  unfold linkProxyAliases
  repeat' split
  all_goals rfl

theorem linkProxyWithExistingSiblings_scopeRevokers (s : St) (p : ProxyId) (n : NodeId) :
    (linkProxyWithExistingSiblings s p n).scopeRevokers = s.scopeRevokers := by
  unfold linkProxyWithExistingSiblings
  generalize getAliasSiblings s n = L
  induction L generalizing s with
  | nil => rfl
  | cons hd tl ih =>
      simp only [List.foldl_cons]
      rw [ih]
      split
      · rw [linkProxyAliases_scopeRevokers]
      · rfl

theorem removeProxyFromCache_revoked (s : St) (p : ProxyId) :
    (removeProxyFromCache s p).revoked = s.revoked := by
  unfold removeProxyFromCache
  repeat' split
  all_goals simp [apply_ite St.revoked]

theorem cleanup_foldl_revoked (l : List ProxyId) (s : St) :
    (l.foldl
      (fun acc p => removeProxyFromCache { acc with revoked := acc.revoked ++ [p] } p)
      s).revoked = s.revoked ++ l := by
  induction l generalizing s with
  | nil => simp
  | cons hd tl ih =>
      rw [List.foldl_cons, ih, removeProxyFromCache_revoked]
      simp

theorem cleanupScope_revokes (s : St) (l : List ProxyId) (p : ProxyId)
    (hsc : s.scopeRevokers = some l) (hp : p ∈ l) :
    p ∈ (cleanupScope s).revoked := by
  unfold cleanupScope
  rw [hsc]
  simp only [cleanup_foldl_revoked, List.mem_append]
  exact Or.inr hp

theorem createYMapProxyAttached_registers (s : St) (n : NodeId) (l : List ProxyId)
    (hsc : s.scopeRevokers = some l) (hmiss : alGet s.cache (.nodeKey n) = none) :
    (createYMapProxyAttached s n).1 = s.nextProxy ∧
      (createYMapProxyAttached s n).2.scopeRevokers = some (l ++ [s.nextProxy]) := by
  refine ⟨?_, ?_⟩ <;>
    simp [createYMapProxyAttached, hmiss, linkProxyWithExistingSiblings_scopeRevokers,
      registerRevocableProxy, hsc]

theorem createYArrayProxyAttached_never_registers (s : St) (n : NodeId) :
    (createYArrayProxyAttached s n).2.scopeRevokers = s.scopeRevokers := by
  unfold createYArrayProxyAttached
  repeat' split
  all_goals rfl

/-- C4: Corrected. The scope's cleanup revokes exactly the views registered in
the scope's revoker list: every registered view is revoked; map views are
registered at creation while a scope is open; and every map-view operation
(get, set, delete, enumerate) on a revoked view throws instead of touching the
store.  But sequence (array) views are never registered with the scope, so the
claim's "every view" is false — see the counterexample theorem, where an array
view created inside the scope still answers reads after cleanup. -/
theorem withYjsProxy_scope_revocation :
    (∀ s l p, s.scopeRevokers = some l → p ∈ l → p ∈ (cleanupScope s).revoked) ∧
    (∀ s n l, s.scopeRevokers = some l → alGet s.cache (.nodeKey n) = none →
      (createYMapProxyAttached s n).1 = s.nextProxy ∧
      (createYMapProxyAttached s n).2.scopeRevokers = some (l ++ [s.nextProxy])) ∧
    (∀ s n, (createYArrayProxyAttached s n).2.scopeRevokers = s.scopeRevokers) ∧
    (∀ s p k v, p ∈ s.revoked →
      mapProxyGet s p k = .error .revokedProxy ∧
      mapProxySet s p k v = .error .revokedProxy ∧
      mapProxyDelete s p k = .error .revokedProxy ∧
      mapProxyKeys s p = .error .revokedProxy) := by
  refine ⟨cleanupScope_revokes, createYMapProxyAttached_registers, ?_, ?_⟩
  · intro s n
    exact createYArrayProxyAttached_never_registers s n
  · intro s p k v h
    refine ⟨?_, ?_, ?_, ?_⟩
    · simp [mapProxyGet, h]
    · simp [mapProxySet, h]
    · simp [mapProxyDelete, h]
    · simp [mapProxyKeys, h]

/-- Base store for the C4 scope scenario: one map node and one sequence node,
no views yet. -/
def c4Base : St :=
  { jsHeap := [], marked := [], frozen := [],
    nodes := [(0, .ymap [("k", .prim (.int 7))]), (1, .yarr [.prim (.int 1)])],
    nodeDoc := [(0, 0), (1, 0)], nodeParent := [], deletedNodes := [],
    aliasGroups := [], proxyAlias := [], proxies := [], cache := [], jsFirst := [],
    scopeRevokers := none, revoked := [], txCount := 0, nextNode := 2,
    nextProxy := 0, nextObj := 0 }

/-- The C4 scenario: open a scope, wrap the map node and the sequence node
inside it, clean the scope up, then read index 0 through the sequence view. -/
def c4Run : Except Err (JsVal × St) := do
  let s1 ← scopeOpen c4Base
  let (_, s2) ← wrapYjs s1 0
  let (pa, s3) ← wrapYjs s2 1
  let s4 := cleanupScope s3
  arrayProxyGet s4 pa 0

/-- C4: counterexample to the claim as stated — the sequence view produced
inside the scope is not revoked by the scope's cleanup, and a subsequent read
through it succeeds (source: `createYArrayProxy` builds a plain `new Proxy`
and never registers a revoker, while `createYMapProxy` uses
`Proxy.revocable` and registers it). -/
theorem scope_cleanup_leaves_sequence_views_usable :
    ∃ s', c4Run = Except.ok (JsVal.prim (.int 1), s') := ⟨_, rfl⟩

/-- Witness for C4's amended theorem on concrete stores: a registered view is
revoked by cleanup; map-view creation in an open scope registers the fresh
view; sequence-view creation registers nothing; the four operations on a
revoked view all throw. -/
theorem withYjsProxy_scope_revocation_witness :
    3 ∈ (cleanupScope { c7Base with scopeRevokers := some [3] }).revoked ∧
    ((createYMapProxyAttached { c7Base with scopeRevokers := some [] } 5).1
        = ({ c7Base with scopeRevokers := some [] } : St).nextProxy ∧
      (createYMapProxyAttached { c7Base with scopeRevokers := some [] } 5).2.scopeRevokers
        = some ([] ++ [({ c7Base with scopeRevokers := some [] } : St).nextProxy])) ∧
    (createYArrayProxyAttached c7Base 5).2.scopeRevokers = c7Base.scopeRevokers ∧
    (mapProxyGet { c7Base with revoked := [0] } 0 "a" = .error .revokedProxy ∧
      mapProxySet { c7Base with revoked := [0] } 0 "a" (.prim .null)
        = .error .revokedProxy ∧
      mapProxyDelete { c7Base with revoked := [0] } 0 "a" = .error .revokedProxy ∧
      mapProxyKeys { c7Base with revoked := [0] } 0 = .error .revokedProxy) :=
  ⟨withYjsProxy_scope_revocation.1 { c7Base with scopeRevokers := some [3] } [3] 3
      rfl (by decide),
    withYjsProxy_scope_revocation.2.1 { c7Base with scopeRevokers := some [] } 5 []
      rfl (by decide),
    withYjsProxy_scope_revocation.2.2.1 c7Base 5,
    withYjsProxy_scope_revocation.2.2.2 { c7Base with revoked := [0] } 0 "a"
      (.prim .null) (by decide)⟩

/-! ### C9: markAsJs, deep freezing and raw passthrough -/

@[simp] theorem jsObjIdsOf_nil : jsObjIdsOf [] = [] := rfl

@[simp] theorem jsObjIdsOf_cons_obj (c : ObjId) (l : List JsVal) :
    jsObjIdsOf (.jsObj c :: l) = c :: jsObjIdsOf l := rfl

@[simp] theorem jsObjIdsOf_cons_prim (p : Prim) (l : List JsVal) :
    jsObjIdsOf (.prim p :: l) = jsObjIdsOf l := rfl

@[simp] theorem jsObjIdsOf_cons_proxyRef (p : ProxyId) (l : List JsVal) :
    jsObjIdsOf (.proxyRef p :: l) = jsObjIdsOf l := rfl

@[simp] theorem jsObjIdsOf_cons_rawY (n : NodeId) (l : List JsVal) :
    jsObjIdsOf (.rawY n :: l) = jsObjIdsOf l := rfl

/-- A heap of plain containers only (the shape of the data trees that
`markAsJs` deep-freezes completely; binary and exotic objects are skipped by
the source's early return). -/
def HeapOK (h : List (ObjId × JsObj)) : Prop :=
  ∀ kv ∈ h, isPlainJsObj kv.2 = true

/-- Every object referenced from a heap entry is itself a heap entry. -/
def HeapClosed (h : List (ObjId × JsObj)) : Prop :=
  ∀ kv ∈ h, ∀ b ∈ childObjsOfJsObj kv.2, (alGet h b).isSome

/-- The frozen set is closed under heap children, except that a child may
instead sit in the pending list `P`. -/
def FrozenClosedExcept (s : St) (P : List ObjId) : Prop :=
  ∀ a ∈ s.frozen, ∀ b ∈ childObjsH s.jsHeap a, b ∈ s.frozen ∨ b ∈ P

/-- Deep-frozenness: every heap object reachable from `o` through object
children is frozen. -/
def DeepFrozen (s : St) (o : ObjId) : Prop :=
  ∀ b, Relation.ReflTransGen (fun x y => y ∈ childObjsH s.jsHeap x) o b → b ∈ s.frozen

theorem alGet_mem [DecidableEq κ] {l : List (κ × β)} {k : κ} {v : β}
    (h : alGet l k = some v) : (k, v) ∈ l := by
  induction l with
  | nil => simp at h
  | cons hd tl ih =>
      obtain ⟨k1, v1⟩ := hd
      rw [alGet_cons] at h
      split at h
      · rename_i he
        cases h
        subst he
        exact List.mem_cons_self _ _
      · exact List.mem_cons_of_mem _ (ih h)

theorem alGet_isSome_mem_map_fst [DecidableEq κ] {l : List (κ × β)} {k : κ}
    (h : (alGet l k).isSome) : k ∈ l.map Prod.fst := by
  cases hv : alGet l k with
  | none => rw [hv] at h; simp at h
  | some v => exact List.mem_map.mpr ⟨(k, v), alGet_mem hv, rfl⟩

theorem alGet_alSet_isSome [DecidableEq κ] (l : List (κ × β)) (k b : κ) (v : β)
    (h : (alGet l b).isSome) : (alGet (alSet l k v) b).isSome := by
  by_cases hb : b = k
  · subst hb; rw [alGet_alSet_self]; rfl
  · rw [alGet_alSet_ne l k b v hb]; exact h

theorem childObjsH_eq (h : List (ObjId × JsObj)) (o : ObjId) (jo : JsObj)
    (hget : alGet h o = some jo) : childObjsH h o = childObjsOfJsObj jo := by
  unfold childObjsH
  rw [hget]

theorem mem_alSet [DecidableEq κ] {l : List (κ × β)} {k : κ} {v : β} {kv : κ × β}
    (h : kv ∈ alSet l k v) : kv = (k, v) ∨ kv ∈ l := by
  induction l with
  | nil =>
      simp only [alSet_nil, List.mem_singleton] at h
      exact Or.inl h
  | cons hd tl ih =>
      obtain ⟨k1, v1⟩ := hd
      rw [alSet_cons] at h
      split at h
      · rcases List.mem_cons.mp h with h2 | h2
        · exact Or.inl h2
        · exact Or.inr (List.mem_cons_of_mem _ h2)
      · rcases List.mem_cons.mp h with h2 | h2
        · subst h2
          exact Or.inr (List.mem_cons_self _ _)
        · rcases ih h2 with h3 | h3
          · exact Or.inl h3
          · exact Or.inr (List.mem_cons_of_mem _ h3)

theorem weight_cons_le (h : List (ObjId × JsObj)) (fr : List ObjId) (o : ObjId) :
    (h.map (fun kv =>
        if kv.1 ∈ o :: fr then 0 else 1 + (childObjsOfJsObj kv.2).length)).sum
    ≤ (h.map (fun kv =>
        if kv.1 ∈ fr then 0 else 1 + (childObjsOfJsObj kv.2).length)).sum := by
  apply List.sum_le_sum
  intro kv _
  by_cases hk : kv.1 ∈ fr
  · simp [hk, List.mem_cons]
  · by_cases hko : kv.1 = o
    · simp [hko]
    · simp [hk, hko, List.mem_cons]

theorem weight_freeze_drop (h : List (ObjId × JsObj)) (fr : List ObjId) (o : ObjId)
    (jo : JsObj) (hget : alGet h o = some jo) (hno : o ∉ fr) :
    (h.map (fun kv =>
        if kv.1 ∈ o :: fr then 0 else 1 + (childObjsOfJsObj kv.2).length)).sum
      + 1 + (childObjsOfJsObj jo).length
    ≤ (h.map (fun kv =>
        if kv.1 ∈ fr then 0 else 1 + (childObjsOfJsObj kv.2).length)).sum := by
  induction h with
  | nil => simp at hget
  | cons kv tl ih =>
      obtain ⟨k, v⟩ := kv
      rw [alGet_cons] at hget
      simp only [List.map_cons, List.sum_cons]
      split at hget
      · rename_i he
        cases hget
        subst he
        have h1 : o ∈ o :: fr := List.mem_cons_self _ _
        simp only [h1, if_true, hno, if_false]
        have hm := weight_cons_le tl fr o
        omega
      · rename_i hne
        have hih := ih hget
        have hhead : (if k ∈ o :: fr then 0 else 1 + (childObjsOfJsObj v).length)
            = (if k ∈ fr then 0 else 1 + (childObjsOfJsObj v).length) := by
          by_cases hk : k ∈ fr
          · simp [hk, List.mem_cons]
          · have hk2 : ¬ k ∈ o :: fr := by
              simp only [List.mem_cons, not_or]
              exact ⟨fun he => hne he.symm, hk⟩
            simp [hk, hk2]
        rw [hhead]
        omega

theorem unfrozenWeight_freeze (s : St) (o : ObjId) (jo : JsObj)
    (hget : alGet s.jsHeap o = some jo) (hno : o ∉ s.frozen) :
    unfrozenWeight { s with frozen := o :: s.frozen }
      + 1 + (childObjsOfJsObj jo).length ≤ unfrozenWeight s :=
  weight_freeze_drop s.jsHeap s.frozen o jo hget hno

theorem deepFreezeWork_nil_eq (fuel : Nat) (s : St) :
    deepFreezeWork fuel s [] = s := by
  cases fuel with
  | zero => rfl
  | succ f => rfl

theorem deepFreezeWork_cons_frozen (f : Nat) (s : St) (o : ObjId) (W : List ObjId)
    (h : o ∈ s.frozen) : deepFreezeWork (f + 1) s (o :: W) = deepFreezeWork f s W := by
  simp [deepFreezeWork, h]

theorem deepFreezeWork_pres (fuel : Nat) : ∀ s W,
    (deepFreezeWork fuel s W).jsHeap = s.jsHeap ∧
    (deepFreezeWork fuel s W).marked = s.marked ∧
    ∀ x ∈ s.frozen, x ∈ (deepFreezeWork fuel s W).frozen := by
  induction fuel with
  | zero =>
      intro s W
      simp [deepFreezeWork]
  | succ f ih =>
      intro s W
      cases W with
      | nil => simp [deepFreezeWork_nil_eq]
      | cons o rest =>
          by_cases hf : o ∈ s.frozen
          · rw [deepFreezeWork_cons_frozen f s o rest hf]
            exact ih s rest
          · cases hget : alGet s.jsHeap o with
            | none =>
                have heq : deepFreezeWork (f + 1) s (o :: rest)
                    = deepFreezeWork f s rest := by
                  simp [deepFreezeWork, hf, hget]
                rw [heq]
                exact ih s rest
            | some jo =>
                by_cases hpl : isPlainJsObj jo = true
                · have heq : deepFreezeWork (f + 1) s (o :: rest)
                      = deepFreezeWork f { s with frozen := o :: s.frozen }
                        (childObjsOfJsObj jo ++ rest) := by
                    simp [deepFreezeWork, hf, hget, hpl]
                  rw [heq]
                  have h1 := ih { s with frozen := o :: s.frozen }
                    (childObjsOfJsObj jo ++ rest)
                  exact ⟨h1.1, h1.2.1,
                    fun x hx => h1.2.2 x (List.mem_cons_of_mem _ hx)⟩
                · have heq : deepFreezeWork (f + 1) s (o :: rest)
                      = deepFreezeWork f s rest := by
                    simp [deepFreezeWork, hf, hget, hpl]
                  rw [heq]
                  exact ih s rest

theorem deepFreezeWork_closes (fuel : Nat) : ∀ s W,
    HeapOK s.jsHeap →
    HeapClosed s.jsHeap →
    FrozenClosedExcept s W →
    unfrozenWeight s + W.length < fuel →
    FrozenClosedExcept (deepFreezeWork fuel s W) [] ∧
    ∀ o ∈ W, (alGet s.jsHeap o).isSome → o ∈ (deepFreezeWork fuel s W).frozen := by
  induction fuel with
  | zero =>
      intro s W _ _ _ hcnt
      exact absurd hcnt (Nat.not_lt_zero _)
  | succ f ih =>
      intro s W hOK hCl hExc hcnt
      cases W with
      | nil =>
          rw [deepFreezeWork_nil_eq]
          refine ⟨?_, by simp⟩
          intro a ha b hb
          rcases hExc a ha b hb with h | h
          · exact Or.inl h
          · simp at h
      | cons o rest =>
          by_cases hf : o ∈ s.frozen
          · rw [deepFreezeWork_cons_frozen f s o rest hf]
            have hExc2 : FrozenClosedExcept s rest := by
              intro a ha b hb
              rcases hExc a ha b hb with h | h
              · exact Or.inl h
              · rcases List.mem_cons.mp h with h2 | h2
                · subst h2
                  exact Or.inl hf
                · exact Or.inr h2
            have hcnt2 : unfrozenWeight s + rest.length < f := by
              simp only [List.length_cons] at hcnt
              omega
            obtain ⟨hc1, hc2⟩ := ih s rest hOK hCl hExc2 hcnt2
            refine ⟨hc1, ?_⟩
            intro x hx hsome
            rcases List.mem_cons.mp hx with h2 | h2
            · subst h2
              exact (deepFreezeWork_pres f s rest).2.2 x hf
            · exact hc2 x h2 hsome
          · cases hget : alGet s.jsHeap o with
            | none =>
                have heq : deepFreezeWork (f + 1) s (o :: rest)
                    = deepFreezeWork f s rest := by
                  simp [deepFreezeWork, hf, hget]
                rw [heq]
                have hExc2 : FrozenClosedExcept s rest := by
                  intro a ha b hb
                  rcases hExc a ha b hb with h | h
                  · exact Or.inl h
                  · rcases List.mem_cons.mp h with h2 | h2
                    · subst h2
                      cases hga : alGet s.jsHeap a with
                      | none =>
                          rw [show childObjsH s.jsHeap a = [] from by
                            unfold childObjsH; rw [hga]] at hb
                          simp at hb
                      | some joa =>
                          rw [childObjsH_eq s.jsHeap a joa hga] at hb
                          have := hCl (a, joa) (alGet_mem hga) b hb
                          rw [hget] at this
                          simp at this
                    · exact Or.inr h2
                have hcnt2 : unfrozenWeight s + rest.length < f := by
                  simp only [List.length_cons] at hcnt
                  omega
                obtain ⟨hc1, hc2⟩ := ih s rest hOK hCl hExc2 hcnt2
                refine ⟨hc1, ?_⟩
                intro x hx hsome
                rcases List.mem_cons.mp hx with h2 | h2
                · subst h2
                  rw [hget] at hsome
                  simp at hsome
                · exact hc2 x h2 hsome
            | some jo =>
                have hpl : isPlainJsObj jo = true := hOK (o, jo) (alGet_mem hget)
                have heq : deepFreezeWork (f + 1) s (o :: rest)
                    = deepFreezeWork f { s with frozen := o :: s.frozen }
                      (childObjsOfJsObj jo ++ rest) := by
                  simp [deepFreezeWork, hf, hget, hpl]
                rw [heq]
                have hExc2 : FrozenClosedExcept { s with frozen := o :: s.frozen }
                    (childObjsOfJsObj jo ++ rest) := by
                  intro a ha b hb
                  have hb2 : b ∈ childObjsH s.jsHeap a := hb
                  rcases List.mem_cons.mp ha with h2 | h2
                  · subst h2
                    rw [childObjsH_eq s.jsHeap a jo hget] at hb2
                    exact Or.inr (List.mem_append_left _ hb2)
                  · rcases hExc a h2 b hb2 with h | h
                    · exact Or.inl (List.mem_cons_of_mem _ h)
                    · rcases List.mem_cons.mp h with h3 | h3
                      · subst h3
                        exact Or.inl (List.mem_cons_self _ _)
                      · exact Or.inr (List.mem_append_right _ h3)
                have hcnt2 : unfrozenWeight { s with frozen := o :: s.frozen }
                    + (childObjsOfJsObj jo ++ rest).length < f := by
                  have hw := unfrozenWeight_freeze s o jo hget hf
                  simp only [List.length_append, List.length_cons] at hcnt ⊢
                  omega
                obtain ⟨hc1, hc2⟩ := ih { s with frozen := o :: s.frozen }
                  (childObjsOfJsObj jo ++ rest) hOK hCl hExc2 hcnt2
                refine ⟨hc1, ?_⟩
                intro x hx hsome
                rcases List.mem_cons.mp hx with h2 | h2
                · subst h2
                  exact (deepFreezeWork_pres f _ _).2.2 x (List.mem_cons_self _ _)
                · exact hc2 x (List.mem_append_right _ h2) hsome

theorem deepFrozen_of_closed (s : St) (c : ObjId) (hc : c ∈ s.frozen)
    (hcl : FrozenClosedExcept s []) : DeepFrozen s c := by
  intro b hreach
  induction hreach with
  | refl => exact hc
  | tail hmid hstep ih =>
      rcases hcl _ ih _ hstep with h | h
      · exact h
      · simp at h

/-- The intermediate state of `markAsJs`: the shallow clone inserted at the
next fresh object id. -/
def markClone (s : St) (jo : JsObj) : St :=
  { s with jsHeap := alSet s.jsHeap s.nextObj jo, nextObj := s.nextObj + 1 }

theorem markAsJs_eq (s : St) (o : ObjId) (jo : JsObj)
    (hget : alGet s.jsHeap o = some jo) :
    markAsJs s o = .ok (s.nextObj,
      { deepFreeze (unfrozenWeight (markClone s jo) + 2) (markClone s jo) s.nextObj with
        marked := s.nextObj ::
          (deepFreeze (unfrozenWeight (markClone s jo) + 2)
            (markClone s jo) s.nextObj).marked }) := by
  cases jo <;> simp [markAsJs, hget, markClone]

theorem heapClosed_markClone (s : St) (o : ObjId) (jo : JsObj)
    (hget : alGet s.jsHeap o = some jo) (hCl : HeapClosed s.jsHeap)
    (hfresh : alGet s.jsHeap s.nextObj = none) :
    HeapClosed (markClone s jo).jsHeap := by
  intro kv hkv b hb
  rcases mem_alSet hkv with h2 | h2
  · subst h2
    exact alGet_alSet_isSome _ _ _ _ (hCl (o, jo) (alGet_mem hget) b hb)
  · exact alGet_alSet_isSome _ _ _ _ (hCl kv h2 b hb)

theorem heapOK_markClone (s : St) (o : ObjId) (jo : JsObj)
    (hget : alGet s.jsHeap o = some jo) (hOK : HeapOK s.jsHeap) :
    HeapOK (markClone s jo).jsHeap := by
  intro kv hkv
  rcases mem_alSet hkv with h2 | h2
  · subst h2
    exact hOK (o, jo) (alGet_mem hget)
  · exact hOK kv h2

theorem markAsJs_spec (s : St) (o : ObjId) (jo : JsObj)
    (hget : alGet s.jsHeap o = some jo) (hfz : s.frozen = [])
    (hOK : HeapOK s.jsHeap)
    (hCl : HeapClosed s.jsHeap) (hfresh : alGet s.jsHeap s.nextObj = none) :
    ∃ s', markAsJs s o = .ok (s.nextObj, s') ∧ s.nextObj ∈ s'.marked ∧
      s.nextObj ∈ s'.frozen ∧ DeepFrozen s' s.nextObj := by
  have hOK1 : HeapOK (markClone s jo).jsHeap := heapOK_markClone s o jo hget hOK
  have hCl1 : HeapClosed (markClone s jo).jsHeap := heapClosed_markClone s o jo hget hCl hfresh
  have hExc1 : FrozenClosedExcept (markClone s jo) [s.nextObj] := by
    intro a ha b hb
    have ha2 : a ∈ s.frozen := ha
    rw [hfz] at ha2
    simp at ha2
  have hcnt1 : unfrozenWeight (markClone s jo) + ([s.nextObj] : List ObjId).length
      < unfrozenWeight (markClone s jo) + 2 := by
    simp
  obtain ⟨hc1, hc2⟩ := deepFreezeWork_closes (unfrozenWeight (markClone s jo) + 2)
    (markClone s jo) [s.nextObj] hOK1 hCl1 hExc1 hcnt1
  have hsome1 : (alGet (markClone s jo).jsHeap s.nextObj).isSome := by
    unfold markClone
    simp only [alGet_alSet_self]
    rfl
  have hcf : s.nextObj ∈ (deepFreeze (unfrozenWeight (markClone s jo) + 2)
      (markClone s jo) s.nextObj).frozen :=
    hc2 s.nextObj (List.mem_cons_self _ _) hsome1
  refine ⟨_, markAsJs_eq s o jo hget, List.mem_cons_self _ _, hcf, ?_⟩
  exact deepFrozen_of_closed _ _ hcf hc1

theorem convert_marked_passthrough (fuel : Nat) (s : St) (ctx : Ctx) (o : ObjId)
    (hm : o ∈ s.marked) (hc : alGet s.cache (.jsonKey o) = none) :
    convertJsToYjsValue (fuel + 1) s ctx (.jsObj o) = .ok (.rawJs o, s, ctx) := by
  simp [convertJsToYjsValue, hc, convertPlainValue, hm]

theorem convertYjsToJs_raw_passthrough (s : St) (o : ObjId)
    (hf : o ∈ s.frozen) (hm : o ∈ s.marked) :
    convertYjsToJsValue s (.rawJs o) = .ok (.jsObj o, s) := by
  have h1 : deepFreeze (unfrozenWeight s + 2) s o = s := by
    show deepFreezeWork (unfrozenWeight s + 1 + 1) s [o] = s
    rw [deepFreezeWork_cons_frozen _ _ _ _ hf, deepFreezeWork_nil_eq]
  simp [convertYjsToJsValue, h1, hm]

theorem deepFreeze_skips_nonplain (fuel : Nat) (s : St) (o : ObjId) (jo : JsObj)
    (hget : alGet s.jsHeap o = some jo) (hpl : isPlainJsObj jo = false) :
    deepFreeze fuel s o = s := by
  cases fuel with
  | zero => rfl
  | succ f =>
      by_cases hf : o ∈ s.frozen
      · show deepFreezeWork (f + 1) s [o] = s
        rw [deepFreezeWork_cons_frozen _ _ _ _ hf, deepFreezeWork_nil_eq]
      · show deepFreezeWork (f + 1) s [o] = s
        have heq : deepFreezeWork (f + 1) s [o] = deepFreezeWork f s [] := by
          simp [deepFreezeWork, hf, hget, hpl]
        rw [heq, deepFreezeWork_nil_eq]

/-- C9: Corrected. `markAsJs` freezes its shallow clone and, when the heap
holds only plain objects and arrays and nothing was frozen beforehand, the
result is deep-frozen; `deepFreeze` returns any non-plain object (typed
array, class instance) unfrozen without recursing into it — the source's
`!isPlainObject && !Array.isArray` early return; and a raw-marked object
passes through conversion unchanged in both directions (to-store conversion
yields the raw value itself and never a converted container, and reading a
raw value back yields the object unchanged).  But `deepFreeze` also skips
subtrees whose root is already (shallowly) frozen, so with a pre-frozen
subtree the result need not be deep-frozen — see the counterexample
theorem. -/
theorem markAsJs_frozen_and_passthrough :
    (∀ s o jo, alGet s.jsHeap o = some jo → s.frozen = [] →
      HeapOK s.jsHeap → HeapClosed s.jsHeap → alGet s.jsHeap s.nextObj = none →
      ∃ s', markAsJs s o = .ok (s.nextObj, s') ∧ s.nextObj ∈ s'.marked ∧
        s.nextObj ∈ s'.frozen ∧ DeepFrozen s' s.nextObj) ∧
    (∀ fuel s o jo, alGet s.jsHeap o = some jo → isPlainJsObj jo = false →
      deepFreeze fuel s o = s) ∧
    (∀ fuel s ctx o, o ∈ s.marked → alGet s.cache (.jsonKey o) = none →
      convertJsToYjsValue (fuel + 1) s ctx (.jsObj o) = .ok (.rawJs o, s, ctx)) ∧
    (∀ s o, o ∈ s.frozen → o ∈ s.marked →
      convertYjsToJsValue s (.rawJs o) = .ok (.jsObj o, s)) :=
  ⟨markAsJs_spec, deepFreeze_skips_nonplain, convert_marked_passthrough,
    convertYjsToJs_raw_passthrough⟩

/-- Base store for the C9 counterexample: `0 ↦ {a: obj 1}`,
`1 ↦ {b: obj 2}` already shallowly frozen, `2 ↦ {}` unfrozen. -/
def c9Base : St :=
  { jsHeap := [(0, .plainObj [("a", .jsObj 1)]), (1, .plainObj [("b", .jsObj 2)]),
      (2, .plainObj [])],
    marked := [], frozen := [1], nodes := [], nodeDoc := [], nodeParent := [],
    deletedNodes := [], aliasGroups := [], proxyAlias := [], proxies := [],
    cache := [], jsFirst := [], scopeRevokers := none, revoked := [],
    txCount := 0, nextNode := 0, nextProxy := 0, nextObj := 3 }

/-- The state `markAsJs` leaves behind in the C9 counterexample run. -/
def c9CounterRun : St :=
  match markAsJs c9Base 0 with
  | .ok (_, s1) => s1
  | .error _ => c9Base

/-- C9: counterexample to "markAsJs returns a deep-frozen value" as stated —
when a subtree root is already shallowly frozen, `deepFreeze` skips it (the
source's `Object.isFrozen` early return), so the returned value still reaches
an unfrozen object. -/
theorem markAsJs_can_return_shallow_frozen :
    ∃ s', markAsJs c9Base 0 = .ok (3, s') ∧ ¬ DeepFrozen s' 3 := by
  refine ⟨c9CounterRun, rfl, fun h => ?_⟩
  have h1 : (1 : ObjId) ∈ childObjsH c9CounterRun.jsHeap 3 := by decide
  have h2 : (2 : ObjId) ∈ childObjsH c9CounterRun.jsHeap 1 := by decide
  have hr := h 2 (Relation.ReflTransGen.tail
    (Relation.ReflTransGen.tail Relation.ReflTransGen.refl h1) h2)
  revert hr
  decide

/-- Base store for the C9 witness: a two-object tree, nothing frozen. -/
def c9W : St :=
  { jsHeap := [(0, .plainObj [("a", .jsObj 1)]), (1, .plainObj [])],
    marked := [5], frozen := [5], nodes := [], nodeDoc := [], nodeParent := [],
    deletedNodes := [], aliasGroups := [], proxyAlias := [], proxies := [],
    cache := [], jsFirst := [], scopeRevokers := none, revoked := [],
    txCount := 0, nextNode := 0, nextProxy := 0, nextObj := 2 }

/-- Witness for C9's amended theorem: marking the tree at `0` in `c9W` (whose
frozen set is empty apart from the standalone raw object `5`) yields a marked,
deep-frozen clone; `deepFreeze` leaves a binary object unfrozen; and the
raw-marked `5` passes through both conversion directions unchanged. -/
theorem markAsJs_frozen_and_passthrough_witness :
    (∃ s', markAsJs { c9W with frozen := [] } 0 = .ok (2, s') ∧ 2 ∈ s'.marked ∧
      2 ∈ s'.frozen ∧ DeepFrozen s' 2) ∧
    deepFreeze 5 { c9W with jsHeap := [(8, .binaryObj)] } 8
      = { c9W with jsHeap := [(8, .binaryObj)] } ∧
    convertJsToYjsValue 1 c9W mkCtx (.jsObj 5) = .ok (.rawJs 5, c9W, mkCtx) ∧
    convertYjsToJsValue c9W (.rawJs 5) = .ok (.jsObj 5, c9W) :=
  ⟨markAsJs_frozen_and_passthrough.1 { c9W with frozen := [] } 0
      (.plainObj [("a", .jsObj 1)]) (by decide) rfl (by unfold HeapOK; decide)
      (by intro kv hkv b hb; fin_cases hkv <;> simp_all [childObjsOfJsObj, jsObjIdsOf, alGet]) (by decide),
    markAsJs_frozen_and_passthrough.2.1 5 { c9W with jsHeap := [(8, .binaryObj)] } 8
      .binaryObj (by decide) rfl,
    markAsJs_frozen_and_passthrough.2.2.1 0 c9W mkCtx 5 (by decide) (by decide),
    markAsJs_frozen_and_passthrough.2.2.2 c9W 5 (by decide) (by decide)⟩

/-! ### C2: one object assigned to two slots -/

theorem alGet_eq_none_of_alHas_false [DecidableEq κ] {l : List (κ × β)} {k : κ}
    (h : alHas l k = false) : alGet l k = none := by
  unfold alHas at h
  cases hv : alGet l k with
  | none => rfl
  | some v =>
      rw [hv] at h
      simp at h

theorem convert_second_assignment_aliases (fuel : Nat) (s : St) (ctx : Ctx) (o : ObjId)
    (e : NodeId)
    (hm : o ∉ s.marked) (hseen : o ∉ ctx.seenJs)
    (hloc : alGet ctx.localJsToYjs o = none)
    (hcache : alGet s.cache (.jsonKey o) = none)
    (hheap : alGet s.jsHeap o = some (.plainObj []))
    (hfirst : alGet s.jsFirst o = some e)
    (hag : s.aliasGroups = []) :
    ∃ s' ctx', convertJsToYjsValue (fuel + 1) s ctx (.jsObj o)
        = .ok (.node s.nextNode, s', ctx') ∧
      areYjsValuesAliased s' e s.nextNode = true := by
  have hrun : convertJsToYjsValue (fuel + 1) s ctx (.jsObj o)
      = .ok (.node s.nextNode,
        linkAliases
          { s with
            nodes := alSet s.nodes s.nextNode (.ymap []),
            nextNode := s.nextNode + 1 } e s.nextNode,
        { ctx with
          seenJs := (o :: ctx.seenJs).erase o,
          localJsToYjs := alSet ctx.localJsToYjs o s.nextNode }) := by
    simp [convertJsToYjsValue, hcache, convertPlainValue, hm, hseen, hloc, hfirst, hheap,
      allocNode, convertFields, ymapSetEntries, Option.none_orElse]
  refine ⟨_, _, hrun, ?_⟩
  by_cases he : e = s.nextNode
  · simp [areYjsValuesAliased, he]
  · have hga : aliasGroupOf
        { s with
          nodes := alSet s.nodes s.nextNode (.ymap []),
          nextNode := s.nextNode + 1 } e = none := by
      simp [aliasGroupOf, hag]
    have hgb : aliasGroupOf
        { s with
          nodes := alSet s.nodes s.nextNode (.ymap []),
          nextNode := s.nextNode + 1 } s.nextNode = none := by
      simp [aliasGroupOf, hag]
    have hstep : linkAliases
        { s with
          nodes := alSet s.nodes s.nextNode (.ymap []),
          nextNode := s.nextNode + 1 } e s.nextNode
        = { s with
            nodes := alSet s.nodes s.nextNode (.ymap []),
            nextNode := s.nextNode + 1,
            aliasGroups := [[e, s.nextNode]] } := by
      unfold linkAliases
      rw [if_neg he, hga, hgb]
      simp [hag]
    rw [hstep]
    have hfind : aliasGroupOf
        { s with
          nodes := alSet s.nodes s.nextNode (.ymap []),
          nextNode := s.nextNode + 1,
          aliasGroups := [[e, s.nextNode]] } e = some [e, s.nextNode] := by
      unfold aliasGroupOf
      rw [show ({ s with
          nodes := alSet s.nodes s.nextNode (.ymap []),
          nextNode := s.nextNode + 1,
          aliasGroups := [[e, s.nextNode]] } : St).aliasGroups
          = [[e, s.nextNode]] from rfl]
      rw [List.find?_cons_of_pos _ (by simp)]
    unfold areYjsValuesAliased
    rw [hfind]
    simp

theorem aliased_write_fans_out (s : St) (p : ProxyId) (n1 n2 : NodeId) (k : String)
    (v : Prim) (d : DocId) (e1 e2 : List (String × YVal))
    (hrev : p ∉ s.revoked)
    (hp : alGet s.proxies p = some (.attached n1))
    (hdel : isDeleted s n1 = false)
    (hn1 : getNode s n1 = some (.ymap e1)) (hk1 : alHas e1 k = false)
    (hn2 : getNode s n2 = some (.ymap e2)) (hk2 : alHas e2 k = false)
    (hne : n2 ≠ n1)
    (hpa : s.proxyAlias = [])
    (hag : s.aliasGroups = [[n1, n2]])
    (hd1 : docOf s n1 = some d) (hd2 : docOf s n2 = some d) :
    ∃ s', mapProxySet s p k (.prim v) = .ok s' ∧
      getNode s' n1 = some (.ymap (alSet e1 k (.prim v))) ∧
      getNode s' n2 = some (.ymap (alSet e2 k (.prim v))) := by
  have he1k : alGet e1 k = none := alGet_eq_none_of_alHas_false hk1
  have he2k : alGet e2 k = none := alGet_eq_none_of_alHas_false hk2
  have hcv1 := convert_prim_convFuel { s with txCount := s.txCount + 1 } mkCtx v
  have hnoop : isYMapSetNoOpD s n1 k (.prim v) = .ok false := by
    simp [isYMapSetNoOpD, hn1, hk1]
  have htargets : collectTargets s [p] [] [] = .ok ([n1, n2], []) := by
    simp [collectTargets, tryGetProxyStateP, hp, hdel, getAliasSiblings, aliasGroupOf,
      hag, hne, hd1, hd2]
  have hget1 : getNode { s with txCount := s.txCount + 1 } n1
      = some (YNode.ymap e1) := hn1
  have hentry1 : ymapSetEntry { s with txCount := s.txCount + 1 } n1 k (.prim v)
      = { s with
          txCount := s.txCount + 1,
          nodes := alSet s.nodes n1 (.ymap (alSet e1 k (.prim v))) } := by
    unfold ymapSetEntry
    rw [hget1]
    rfl
  have hstep1 : setYMapValue { s with txCount := s.txCount + 1 } n1 k (.prim v)
      = .ok { s with
          txCount := s.txCount + 1,
          nodes := alSet s.nodes n1 (.ymap (alSet e1 k (.prim v))) } := by
    simp only [setYMapValue, hget1, he1k, hcv1, hentry1, exceptBind_ok,
      exceptPure_eq_ok]
  have hcv2 := convert_prim_convFuel
    { s with
      txCount := s.txCount + 1,
      nodes := alSet s.nodes n1 (.ymap (alSet e1 k (.prim v))) } mkCtx v
  have hn2' : getNode
      { s with
        txCount := s.txCount + 1,
        nodes := alSet s.nodes n1 (.ymap (alSet e1 k (.prim v))) } n2
      = some (.ymap e2) := by
    unfold getNode
    show alGet (alSet s.nodes n1 _) n2 = _
    rw [alGet_alSet_ne _ _ _ _ hne]
    exact hn2
  have hstep2 : setYMapValue
      { s with
        txCount := s.txCount + 1,
        nodes := alSet s.nodes n1 (.ymap (alSet e1 k (.prim v))) } n2 k (.prim v)
      = .ok { s with
          txCount := s.txCount + 1,
          nodes := alSet (alSet s.nodes n1 (.ymap (alSet e1 k (.prim v)))) n2
            (.ymap (alSet e2 k (.prim v))) } := by
    have hentry2 : ymapSetEntry
        { s with
          txCount := s.txCount + 1,
          nodes := alSet s.nodes n1 (.ymap (alSet e1 k (.prim v))) } n2 k (.prim v)
        = { s with
            txCount := s.txCount + 1,
            nodes := alSet (alSet s.nodes n1 (.ymap (alSet e1 k (.prim v)))) n2
              (.ymap (alSet e2 k (.prim v))) } := by
      unfold ymapSetEntry
      rw [hn2']
      rfl
    simp only [setYMapValue, hn2', he2k, hcv2, hentry2, exceptBind_ok,
      exceptPure_eq_ok]
  refine ⟨{ s with
      txCount := s.txCount + 1,
      nodes := alSet (alSet s.nodes n1 (.ymap (alSet e1 k (.prim v)))) n2
        (.ymap (alSet e2 k (.prim v))) }, ?_, ?_, ?_⟩
  · have hsib0 : getProxyAliasSiblings s p = [] := by
      simp [getProxyAliasSiblings, proxyAliasGroupOf, hpa]
    simp only [mapProxySet, tryGetProxyStateP, hp, hdel, hnoop, hrev,
      applyToAllAliases, hsib0,
      htargets, transactIfPossible, hd1, List.foldlM_cons, List.foldlM_nil,
      hstep1, hstep2, exceptBind_ok, exceptPure_eq_ok,
      Bool.false_eq_true, if_false, not_false_eq_true]
  · unfold getNode
    show alGet (alSet (alSet s.nodes n1 _) n2 _) n1 = _
    rw [alGet_alSet_ne _ _ _ _ (fun h => hne h.symm), alGet_alSet_self]
  · unfold getNode
    show alGet (alSet (alSet s.nodes n1 _) n2 _) n2 = _
    rw [alGet_alSet_self]

theorem aliased_read_sees_write (s : St) (p2 : ProxyId) (n2 : NodeId) (k : String)
    (v : Prim) (e2 : List (String × YVal))
    (hrev : p2 ∉ s.revoked)
    (hp : alGet s.proxies p2 = some (.attached n2))
    (hdel : isDeleted s n2 = false)
    (hn2 : getNode s n2 = some (.ymap e2))
    (hk : alGet e2 k = some (.prim v)) :
    mapProxyGet s p2 k = .ok (.prim v, s) := by
  simp [mapProxyGet, tryGetProxyStateP, hp, hdel, hn2, hk, hrev, convertYjsToJsValue]

theorem wrap_links_sibling_views (s : St) (n1 n2 : NodeId) (p1 : ProxyId) (d : DocId)
    (e2 : List (String × YVal))
    (hmiss : alGet s.cache (.nodeKey n2) = none)
    (hdel : isDeleted s n2 = false)
    (hn2 : getNode s n2 = some (.ymap e2))
    (hag : s.aliasGroups = [[n1, n2]])
    (hne : n1 ≠ n2)
    (hd1 : docOf s n1 = some d) (hd2 : docOf s n2 = some d)
    (hp1 : alGet s.cache (.nodeKey n1) = some p1)
    (hpa : s.proxyAlias = [])
    (hsr : s.scopeRevokers = none) :
    ∃ s', wrapYjs s n2 = .ok (s.nextProxy, s') ∧
      areProxiesAliased s' s.nextProxy p1 = true ∧
      alGet s'.proxies s.nextProxy = some (.attached n2) := by
  have hkey : (CacheKey.nodeKey n1) ≠ (CacheKey.nodeKey n2) := by
    intro h
    cases h
    exact hne rfl
  have hp1' : alGet (alSet s.cache (.nodeKey n2) s.nextProxy) (.nodeKey n1)
      = some p1 := by
    rw [alGet_alSet_ne _ _ _ _ hkey]
    exact hp1
  have hsib : getAliasSiblings
      { s with
        nextProxy := s.nextProxy + 1,
        cache := alSet s.cache (.nodeKey n2) s.nextProxy,
        proxies := alSet s.proxies s.nextProxy (.attached n2) } n2 = [n1] := by
    unfold getAliasSiblings aliasGroupOf
    rw [show ({ s with
        nextProxy := s.nextProxy + 1,
        cache := alSet s.cache (.nodeKey n2) s.nextProxy,
        proxies := alSet s.proxies s.nextProxy (.attached n2) } : St).aliasGroups
        = [[n1, n2]] from hag]
    rw [List.find?_cons_of_pos _ (by simp)]
    have hdd1 : alGet s.nodeDoc n1 = some d := hd1
    have hdd2 : alGet s.nodeDoc n2 = some d := hd2
    simp [hne, docOf, hdd1, hdd2]
  have hrun0 : wrapYjs s n2 = .ok (s.nextProxy,
      linkProxyAliases
        { s with
          nextProxy := s.nextProxy + 1,
          cache := alSet s.cache (.nodeKey n2) s.nextProxy,
          proxies := alSet s.proxies s.nextProxy (.attached n2) } s.nextProxy p1) := by
    simp only [wrapYjs, hdel, Bool.false_eq_true, if_false, hn2,
      createYMapProxyAttached, hmiss]
    rw [show registerRevocableProxy
        { s with
          nextProxy := s.nextProxy + 1,
          cache := alSet s.cache (.nodeKey n2) s.nextProxy,
          proxies := alSet s.proxies s.nextProxy (.attached n2) } s.nextProxy
        = { s with
            nextProxy := s.nextProxy + 1,
            cache := alSet s.cache (.nodeKey n2) s.nextProxy,
            proxies := alSet s.proxies s.nextProxy (.attached n2) } from by
      unfold registerRevocableProxy
      rw [show ({ s with
          nextProxy := s.nextProxy + 1,
          cache := alSet s.cache (.nodeKey n2) s.nextProxy,
          proxies := alSet s.proxies s.nextProxy (.attached n2) } : St).scopeRevokers
          = none from hsr]]
    unfold linkProxyWithExistingSiblings
    rw [hsib, List.foldl_cons, List.foldl_nil]
    rw [show alGet ({ s with
        nextProxy := s.nextProxy + 1,
        cache := alSet s.cache (.nodeKey n2) s.nextProxy,
        proxies := alSet s.proxies s.nextProxy (.attached n2) } : St).cache
        (.nodeKey n1) = some p1 from hp1']
  by_cases hpe : s.nextProxy = p1
  · have hlink : linkProxyAliases
        { s with
          nextProxy := s.nextProxy + 1,
          cache := alSet s.cache (.nodeKey n2) s.nextProxy,
          proxies := alSet s.proxies s.nextProxy (.attached n2) } s.nextProxy p1
        = { s with
            nextProxy := s.nextProxy + 1,
            cache := alSet s.cache (.nodeKey n2) s.nextProxy,
            proxies := alSet s.proxies s.nextProxy (.attached n2) } := by
      unfold linkProxyAliases
      rw [if_pos hpe]
    rw [hlink] at hrun0
    refine ⟨_, hrun0, ?_, ?_⟩
    · simp [areProxiesAliased, hpe]
    · simp [alGet_alSet_self]
  · have hga : proxyAliasGroupOf
        { s with
          nextProxy := s.nextProxy + 1,
          cache := alSet s.cache (.nodeKey n2) s.nextProxy,
          proxies := alSet s.proxies s.nextProxy (.attached n2) } s.nextProxy
        = none := by
      simp [proxyAliasGroupOf, hpa]
    have hgb : proxyAliasGroupOf
        { s with
          nextProxy := s.nextProxy + 1,
          cache := alSet s.cache (.nodeKey n2) s.nextProxy,
          proxies := alSet s.proxies s.nextProxy (.attached n2) } p1
        = none := by
      simp [proxyAliasGroupOf, hpa]
    have hlink : linkProxyAliases
        { s with
          nextProxy := s.nextProxy + 1,
          cache := alSet s.cache (.nodeKey n2) s.nextProxy,
          proxies := alSet s.proxies s.nextProxy (.attached n2) } s.nextProxy p1
        = { s with
            nextProxy := s.nextProxy + 1,
            cache := alSet s.cache (.nodeKey n2) s.nextProxy,
            proxies := alSet s.proxies s.nextProxy (.attached n2),
            proxyAlias := [[s.nextProxy, p1]] } := by
      unfold linkProxyAliases
      rw [if_neg hpe, hga, hgb]
      simp [hpa]
    rw [hlink] at hrun0
    refine ⟨_, hrun0, ?_, ?_⟩
    · have hfind : proxyAliasGroupOf
          { s with
            nextProxy := s.nextProxy + 1,
            cache := alSet s.cache (.nodeKey n2) s.nextProxy,
            proxies := alSet s.proxies s.nextProxy (.attached n2),
            proxyAlias := [[s.nextProxy, p1]] } s.nextProxy
          = some [s.nextProxy, p1] := by
        unfold proxyAliasGroupOf
        rw [show ({ s with
            nextProxy := s.nextProxy + 1,
            cache := alSet s.cache (.nodeKey n2) s.nextProxy,
            proxies := alSet s.proxies s.nextProxy (.attached n2),
            proxyAlias := [[s.nextProxy, p1]] } : St).proxyAlias
            = [[s.nextProxy, p1]] from rfl]
        rw [List.find?_cons_of_pos _ (by simp)]
      unfold areProxiesAliased
      rw [hfind]
      simp
    · simp [alGet_alSet_self]

/-- C2: Confirmed. Assigning the same plain object to two slots of an
attached view aliases the two resulting store values (second conversion finds
the object in the shared-reference registry and links the fresh container to
the first), a field write through the view of one copy fans out to every
alias sibling, the written value is then readable through the other copy's
view, and wrapping the sibling links the two views so that
`areAliased(a.x, a.y)` reports true. -/
theorem same_object_assignment_aliases :
    (∀ fuel s ctx o e, o ∉ s.marked → o ∉ ctx.seenJs →
      alGet ctx.localJsToYjs o = none → alGet s.cache (.jsonKey o) = none →
      alGet s.jsHeap o = some (.plainObj []) → alGet s.jsFirst o = some e →
      s.aliasGroups = [] →
      ∃ s' ctx', convertJsToYjsValue (fuel + 1) s ctx (.jsObj o)
          = .ok (.node s.nextNode, s', ctx') ∧
        areYjsValuesAliased s' e s.nextNode = true) ∧
    (∀ s p n1 n2 k v d e1 e2, p ∉ s.revoked →
      alGet s.proxies p = some (.attached n1) → isDeleted s n1 = false →
      getNode s n1 = some (.ymap e1) → alHas e1 k = false →
      getNode s n2 = some (.ymap e2) → alHas e2 k = false →
      n2 ≠ n1 → s.proxyAlias = [] → s.aliasGroups = [[n1, n2]] →
      docOf s n1 = some d → docOf s n2 = some d →
      ∃ s', mapProxySet s p k (.prim v) = .ok s' ∧
        getNode s' n1 = some (.ymap (alSet e1 k (.prim v))) ∧
        getNode s' n2 = some (.ymap (alSet e2 k (.prim v)))) ∧
    (∀ s p2 n2 k v e2, p2 ∉ s.revoked →
      alGet s.proxies p2 = some (.attached n2) → isDeleted s n2 = false →
      getNode s n2 = some (.ymap e2) → alGet e2 k = some (.prim v) →
      mapProxyGet s p2 k = .ok (.prim v, s)) ∧
    (∀ s n1 n2 p1 d e2, alGet s.cache (.nodeKey n2) = none →
      isDeleted s n2 = false → getNode s n2 = some (.ymap e2) →
      s.aliasGroups = [[n1, n2]] → n1 ≠ n2 →
      docOf s n1 = some d → docOf s n2 = some d →
      alGet s.cache (.nodeKey n1) = some p1 → s.proxyAlias = [] →
      s.scopeRevokers = none →
      ∃ s', wrapYjs s n2 = .ok (s.nextProxy, s') ∧
        areProxiesAliased s' s.nextProxy p1 = true ∧
        alGet s'.proxies s.nextProxy = some (.attached n2)) :=
  ⟨convert_second_assignment_aliases, aliased_write_fans_out,
    aliased_read_sees_write, wrap_links_sibling_views⟩

/-- Witness store for C2, conjunct on second conversion: the object `0` was
first converted to node `7` (recorded in the shared-reference registry). -/
def c2WA : St :=
  { jsHeap := [(0, .plainObj [])], marked := [], frozen := [], nodes := [],
    nodeDoc := [], nodeParent := [], deletedNodes := [], aliasGroups := [],
    proxyAlias := [], proxies := [], cache := [], jsFirst := [(0, 7)],
    scopeRevokers := none, revoked := [], txCount := 0, nextNode := 9,
    nextProxy := 0, nextObj := 1 }

/-- Witness store for C2, write/read conjuncts: nodes 1 and 2 aliased in doc
0, node 1 viewed by proxy 3. -/
def c2WB : St :=
  { jsHeap := [], marked := [], frozen := [],
    nodes := [(1, .ymap []), (2, .ymap [])], nodeDoc := [(1, 0), (2, 0)],
    nodeParent := [], deletedNodes := [], aliasGroups := [[1, 2]],
    proxyAlias := [], proxies := [(3, .attached 1)],
    cache := [(.nodeKey 1, 3)], jsFirst := [], scopeRevokers := none,
    revoked := [], txCount := 0, nextNode := 4, nextProxy := 4, nextObj := 0 }

/-- Witness store for C2, read conjunct: node 2 holds `f ↦ 9` and is viewed
by proxy 5. -/
def c2WC : St :=
  { jsHeap := [], marked := [], frozen := [],
    nodes := [(2, .ymap [("f", .prim (.int 9))])], nodeDoc := [(2, 0)],
    nodeParent := [], deletedNodes := [], aliasGroups := [],
    proxyAlias := [], proxies := [(5, .attached 2)],
    cache := [(.nodeKey 2, 5)], jsFirst := [], scopeRevokers := none,
    revoked := [], txCount := 0, nextNode := 3, nextProxy := 6, nextObj := 0 }

/-- Witness store for C2, wrap conjunct: node 1 viewed by proxy 4, node 2 has
no view yet. -/
def c2WD : St :=
  { jsHeap := [], marked := [], frozen := [],
    nodes := [(1, .ymap []), (2, .ymap [])], nodeDoc := [(1, 0), (2, 0)],
    nodeParent := [], deletedNodes := [], aliasGroups := [[1, 2]],
    proxyAlias := [], proxies := [(4, .attached 1)],
    cache := [(.nodeKey 1, 4)], jsFirst := [], scopeRevokers := none,
    revoked := [], txCount := 0, nextNode := 3, nextProxy := 6, nextObj := 0 }

/-- Witness for C2 on concrete stores: converting object `0` a second time
aliases node 9 with the recorded node 7; writing `f` through proxy 3 updates
both aliased nodes; reading `f` through a sibling's view yields the written
value; wrapping node 2 links its fresh view with node 1's view. -/
theorem same_object_assignment_aliases_witness :
    (∃ s' ctx', convertJsToYjsValue 1 c2WA mkCtx (.jsObj 0)
        = .ok (.node 9, s', ctx') ∧ areYjsValuesAliased s' 7 9 = true) ∧
    (∃ s', mapProxySet c2WB 3 "f" (.prim (.int 9)) = .ok s' ∧
      getNode s' 1 = some (.ymap (alSet [] "f" (.prim (.int 9)))) ∧
      getNode s' 2 = some (.ymap (alSet [] "f" (.prim (.int 9))))) ∧
    mapProxyGet c2WC 5 "f" = .ok (.prim (.int 9), c2WC) ∧
    (∃ s', wrapYjs c2WD 2 = .ok (6, s') ∧
      areProxiesAliased s' 6 4 = true ∧
      alGet s'.proxies 6 = some (.attached 2)) :=
  ⟨same_object_assignment_aliases.1 0 c2WA mkCtx 0 7 (by decide) (by decide) rfl rfl
      rfl rfl rfl,
    same_object_assignment_aliases.2.1 c2WB 3 1 2 "f" (.int 9) 0 [] [] (by decide)
      (by decide) (by decide) (by decide) (by decide) (by decide) (by decide)
      (by decide) rfl rfl (by decide) (by decide),
    same_object_assignment_aliases.2.2.1 c2WC 5 2 "f" (.int 9) [("f", .prim (.int 9))]
      (by decide) (by decide) (by decide) (by decide) (by decide),
    same_object_assignment_aliases.2.2.2 c2WD 1 2 4 0 [] (by decide) (by decide)
      (by decide) rfl (by decide) (by decide) (by decide) (by decide) rfl rfl⟩

/-! ### C8: cycles are rejected -/

theorem convert_seen_cyclic (fuel : Nat) (s : St) (ctx : Ctx) (o : ObjId)
    (hm : o ∉ s.marked) (hcache : alGet s.cache (.jsonKey o) = none)
    (hseen : o ∈ ctx.seenJs) :
    convertJsToYjsValue (fuel + 1) s ctx (.jsObj o) = .error .cyclic := by
  simp [convertJsToYjsValue, hcache, convertPlainValue, hm, hseen]

theorem convertFields_prims_then_error (fuel : Nat) (s : St) (ctx : Ctx)
    (pre : List (String × JsVal)) (k : String) (w : JsVal)
    (rest : List (String × JsVal))
    (hpre : ∀ kv ∈ pre, ∃ p, kv.2 = JsVal.prim p)
    (hw : convertJsToYjsValue (fuel + 1) s ctx w = .error .cyclic) :
    convertFields (fuel + 1) s ctx (pre ++ (k, w) :: rest) = .error .cyclic := by
  induction pre with
  | nil => simp [convertFields, hw]
  | cons hd tl ih =>
      obtain ⟨k0, v0⟩ := hd
      obtain ⟨p, hp⟩ := hpre (k0, v0) (List.mem_cons_self _ _)
      simp only at hp
      subst hp
      have hcp := convert_prim (fuel + 1) s ctx p (by omega)
      simp only [List.cons_append, convertFields, hcp, exceptBind_ok]
      rw [ih (fun kv hkv => hpre kv (List.mem_cons_of_mem _ hkv))]
      rfl

theorem convert_field_error (fuel : Nat) (s : St) (ctx : Ctx) (o : ObjId)
    (pre : List (String × JsVal)) (k : String) (w : JsVal)
    (rest : List (String × JsVal))
    (hm : o ∉ s.marked) (hseen : o ∉ ctx.seenJs)
    (hloc : alGet ctx.localJsToYjs o = none)
    (hglob : alGet s.jsFirst o = none)
    (hcache : alGet s.cache (.jsonKey o) = none)
    (hheap : alGet s.jsHeap o = some (.plainObj (pre ++ (k, w) :: rest)))
    (hpre : ∀ kv ∈ pre, ∃ p, kv.2 = JsVal.prim p)
    (hw : convertJsToYjsValue (fuel + 1)
        { s with
          nodes := alSet s.nodes s.nextNode (.ymap []),
          nextNode := s.nextNode + 1,
          jsFirst := alSet s.jsFirst o s.nextNode }
        { ctx with
          seenJs := o :: ctx.seenJs,
          localJsToYjs := alSet ctx.localJsToYjs o s.nextNode } w
        = .error .cyclic) :
    convertJsToYjsValue (fuel + 2) s ctx (.jsObj o) = .error .cyclic := by
  show convertJsToYjsValue ((fuel + 1) + 1) s ctx (.jsObj o) = .error .cyclic
  have hfields := convertFields_prims_then_error fuel
    { s with
      nodes := alSet s.nodes s.nextNode (.ymap []),
      nextNode := s.nextNode + 1,
      jsFirst := alSet s.jsFirst o s.nextNode }
    { ctx with
      seenJs := o :: ctx.seenJs,
      localJsToYjs := alSet ctx.localJsToYjs o s.nextNode }
    pre k w rest hpre hw
  simp [convertJsToYjsValue, hcache, convertPlainValue, hm, hseen, hloc, hglob,
    hheap, allocNode, Option.none_orElse, hfields]

theorem convert_self_loop_cyclic (fuel : Nat) (s : St) (ctx : Ctx) (o : ObjId)
    (pre : List (String × JsVal)) (k : String) (rest : List (String × JsVal))
    (hm : o ∉ s.marked) (hseen : o ∉ ctx.seenJs)
    (hloc : alGet ctx.localJsToYjs o = none)
    (hglob : alGet s.jsFirst o = none)
    (hcache : alGet s.cache (.jsonKey o) = none)
    (hheap : alGet s.jsHeap o = some (.plainObj (pre ++ (k, .jsObj o) :: rest)))
    (hpre : ∀ kv ∈ pre, ∃ p, kv.2 = JsVal.prim p) :
    convertJsToYjsValue (fuel + 2) s ctx (.jsObj o) = .error .cyclic := by
  apply convert_field_error fuel s ctx o pre k (.jsObj o) rest hm hseen hloc hglob
    hcache hheap hpre
  exact convert_seen_cyclic fuel _ _ o hm hcache (List.mem_cons_self _ _)

theorem convert_two_cycle_cyclic (fuel : Nat) (s : St) (ctx : Ctx) (a b : ObjId)
    (ka kb : String)
    (hab : a ≠ b)
    (hma : a ∉ s.marked) (hmb : b ∉ s.marked)
    (hsa : a ∉ ctx.seenJs) (hsb : b ∉ ctx.seenJs)
    (hla : alGet ctx.localJsToYjs a = none)
    (hlb : alGet ctx.localJsToYjs b = none)
    (hga : alGet s.jsFirst a = none)
    (hgb : alGet s.jsFirst b = none)
    (hca : alGet s.cache (.jsonKey a) = none)
    (hcb : alGet s.cache (.jsonKey b) = none)
    (hha : alGet s.jsHeap a = some (.plainObj [(ka, .jsObj b)]))
    (hhb : alGet s.jsHeap b = some (.plainObj [(kb, .jsObj a)])) :
    convertJsToYjsValue (fuel + 3) s ctx (.jsObj a) = .error .cyclic := by
  show convertJsToYjsValue ((fuel + 1) + 2) s ctx (.jsObj a) = .error .cyclic
  apply convert_field_error (fuel + 1) s ctx a [] ka (.jsObj b) [] hma hsa hla hga
    hca hha (by simp)
  rw [show fuel + 1 + 1 = fuel + 2 from rfl]
  apply convert_field_error fuel
    { s with
      nodes := alSet s.nodes s.nextNode (.ymap []),
      nextNode := s.nextNode + 1,
      jsFirst := alSet s.jsFirst a s.nextNode }
    { ctx with
      seenJs := a :: ctx.seenJs,
      localJsToYjs := alSet ctx.localJsToYjs a s.nextNode } b [] kb (.jsObj a) [] hmb
    (by
      simp only [List.mem_cons, not_or]
      exact ⟨fun h => hab h.symm, hsb⟩)
    (by
      show alGet (alSet ctx.localJsToYjs a s.nextNode) b = none
      rw [alGet_alSet_ne _ _ _ _ (fun h => hab h.symm)]
      exact hlb)
    (by
      show alGet (alSet s.jsFirst a s.nextNode) b = none
      rw [alGet_alSet_ne _ _ _ _ (fun h => hab h.symm)]
      exact hgb)
    hcb hhb (by simp)
  exact convert_seen_cyclic fuel _ _ a hma hca
    (List.mem_cons_of_mem _ (List.mem_cons_self _ _))

theorem mapProxySet_cyclic_errors (s : St) (p : ProxyId) (n : NodeId) (k : String)
    (o : ObjId) (entries : List (String × YVal)) (d : DocId)
    (hrev : p ∉ s.revoked)
    (hp : alGet s.proxies p = some (.attached n))
    (hdel : isDeleted s n = false)
    (hn : getNode s n = some (.ymap entries))
    (hk : alHas entries k = false)
    (hpa : s.proxyAlias = [])
    (hag : s.aliasGroups = [])
    (hd : docOf s n = some d)
    (hm : o ∉ s.marked)
    (hcache : alGet s.cache (.jsonKey o) = none)
    (hglob : alGet s.jsFirst o = none)
    (hheap : alGet s.jsHeap o = some (.plainObj [("self", .jsObj o)])) :
    mapProxySet s p k (.jsObj o) = .error .cyclic := by
  have hsib0 : getProxyAliasSiblings s p = [] := by
    simp [getProxyAliasSiblings, proxyAliasGroupOf, hpa]
  have hnoop : isYMapSetNoOpD s n k (.jsObj o) = .ok false := by
    simp [isYMapSetNoOpD, hn, hk]
  have htargets : collectTargets s [p] [] [] = .ok ([n], []) := by
    simp [collectTargets, tryGetProxyStateP, hp, hdel, getAliasSiblings,
      aliasGroupOf, hag]
  have hek : alGet entries k = none := alGet_eq_none_of_alHas_false hk
  have hget1 : getNode { s with txCount := s.txCount + 1 } n
      = some (YNode.ymap entries) := hn
  have hconv : convertJsToYjsValue (convFuel { s with txCount := s.txCount + 1 })
      { s with txCount := s.txCount + 1 } mkCtx (.jsObj o) = .error .cyclic :=
    convert_self_loop_cyclic
      (({ s with txCount := s.txCount + 1 } : St).jsHeap.length
        + ({ s with txCount := s.txCount + 1 } : St).nodes.length)
      { s with txCount := s.txCount + 1 } mkCtx o [] "self" [] hm
      (List.not_mem_nil o) rfl hglob hcache hheap (by simp)
  have hstep1 : setYMapValue { s with txCount := s.txCount + 1 } n k (.jsObj o)
      = .error .cyclic := by
    simp only [setYMapValue, hget1, hek, hconv, exceptBind_ok, exceptBind_error,
      exceptPure_eq_ok]
  simp only [mapProxySet, tryGetProxyStateP, hp, hdel, hnoop, hrev,
    applyToAllAliases, hsib0, htargets, transactIfPossible, hd,
    List.foldlM_cons, List.foldlM_nil, hstep1, exceptBind_ok, exceptBind_error,
    exceptPure_eq_ok, Bool.false_eq_true, if_false, not_false_eq_true]

/-- C8: a plain object holding a cyclic reference is rejected with the cyclic
error and no store value is produced: conversion of an object whose own
property (after any primitive properties) refers back to itself errors with
`cyclic`; so does a two-object reference cycle; and a map write of such an
object surfaces the error at the view API, returning no partial store (in
`Except`, an error result carries no state, so the store the caller holds is
untouched). -/
theorem cyclic_objects_are_rejected :
    (∀ fuel s ctx o pre k rest, o ∉ s.marked → o ∉ ctx.seenJs →
      alGet ctx.localJsToYjs o = none → alGet s.jsFirst o = none →
      alGet s.cache (.jsonKey o) = none →
      alGet s.jsHeap o = some (.plainObj (pre ++ (k, .jsObj o) :: rest)) →
      (∀ kv ∈ pre, ∃ p, kv.2 = JsVal.prim p) →
      convertJsToYjsValue (fuel + 2) s ctx (.jsObj o) = .error .cyclic) ∧
    (∀ fuel s ctx a b ka kb, a ≠ b →
      a ∉ s.marked → b ∉ s.marked → a ∉ ctx.seenJs → b ∉ ctx.seenJs →
      alGet ctx.localJsToYjs a = none → alGet ctx.localJsToYjs b = none →
      alGet s.jsFirst a = none → alGet s.jsFirst b = none →
      alGet s.cache (.jsonKey a) = none → alGet s.cache (.jsonKey b) = none →
      alGet s.jsHeap a = some (.plainObj [(ka, .jsObj b)]) →
      alGet s.jsHeap b = some (.plainObj [(kb, .jsObj a)]) →
      convertJsToYjsValue (fuel + 3) s ctx (.jsObj a) = .error .cyclic) ∧
    (∀ s p n k o entries d, p ∉ s.revoked →
      alGet s.proxies p = some (.attached n) → isDeleted s n = false →
      getNode s n = some (.ymap entries) → alHas entries k = false →
      s.proxyAlias = [] → s.aliasGroups = [] → docOf s n = some d →
      o ∉ s.marked → alGet s.cache (.jsonKey o) = none →
      alGet s.jsFirst o = none →
      alGet s.jsHeap o = some (.plainObj [("self", .jsObj o)]) →
      mapProxySet s p k (.jsObj o) = .error .cyclic) :=
  ⟨convert_self_loop_cyclic, convert_two_cycle_cyclic, mapProxySet_cyclic_errors⟩

/-- Witness store for C8: object 0 refers to itself; objects 3 and 4 refer to
each other; node 1 is an attached empty map viewed by proxy 2. -/
def c8W : St :=
  { jsHeap := [(0, .plainObj [("self", .jsObj 0)]),
      (3, .plainObj [("b", .jsObj 4)]), (4, .plainObj [("a", .jsObj 3)])],
    marked := [], frozen := [], nodes := [(1, .ymap [])], nodeDoc := [(1, 0)],
    nodeParent := [], deletedNodes := [], aliasGroups := [], proxyAlias := [],
    proxies := [(2, .attached 1)], cache := [(.nodeKey 1, 2)], jsFirst := [],
    scopeRevokers := none, revoked := [], txCount := 0, nextNode := 5,
    nextProxy := 3, nextObj := 5 }

/-- Witness for C8 on `c8W`: the self-loop at 0 and the two-object cycle at
3/4 both convert to the cyclic error, and writing the self-loop object into
the attached map view errors without returning a store. -/
theorem cyclic_objects_are_rejected_witness :
    convertJsToYjsValue 2 c8W mkCtx (.jsObj 0) = .error .cyclic ∧
    convertJsToYjsValue 3 c8W mkCtx (.jsObj 3) = .error .cyclic ∧
    mapProxySet c8W 2 "x" (.jsObj 0) = .error .cyclic :=
  ⟨cyclic_objects_are_rejected.1 0 c8W mkCtx 0 [] "self" [] (by decide)
      (List.not_mem_nil 0) rfl rfl rfl (by decide) (by simp),
    cyclic_objects_are_rejected.2.1 0 c8W mkCtx 3 4 "b" "a" (by decide) (by decide)
      (by decide) (List.not_mem_nil 3) (List.not_mem_nil 4) rfl rfl rfl rfl rfl rfl
      (by decide) (by decide),
    cyclic_objects_are_rejected.2.2 c8W 2 1 "x" 0 [] 0 (by decide) (by decide)
      (by decide) (by decide) (by decide) rfl rfl (by decide) (by decide) rfl rfl
      (by decide)⟩

end Doc

end YjsProxy
